import Mathlib

/-!
# p2p-forwarder command line client: tokenizer, registry and command dispatch

A shallow embedding of `cmd/cli/main.go`.

Modelling conventions.

* A Go `string` is a Lean `String`; `[]rune(s)` is `s.data` and `string(rs)` is `String.mk rs`
  (the input is taken to be valid UTF-8, so the two conversions are inverse to each other).
* Go `int` values that can be negative (`n`, `argStart`) are `Int`; counters that start at
  zero and only grow (`i`, `a`) are `Nat`.  Every index and slice expression is checked the
  way the Go runtime checks it and yields a `Fault` when the check fails.
* Side effects (log lines, Forwarder calls with their results, invocations of cancel
  functions) are recorded in chronological order in a trace of `Event`s.
-/

namespace P2PForwarder

/-! ## Run-time faults -/

/-- The ways in which an execution of the modelled code can fail to produce a value. -/
inductive Fault where
  /-- Go run-time panic: index out of range. -/
  | indexOutOfRange
  /-- Go run-time panic: slice bounds out of range. -/
  | sliceBounds
  /-- The iteration budget of a modelled loop was used up before the loop ended. -/
  | outOfFuel
  /-- Go run-time failure of `make`: the requested length is more than the runtime can
  allocate (`makeslice: len out of range`, or no memory left). -/
  | makeSliceLen
  deriving DecidableEq, Repr

deriving instance DecidableEq for Except

/-! ## Library functions used by the tokenizer -/

/-- Go `unicode.IsSpace`: the Latin-1 spaces `\t \n \v \f \r`, space, U+0085, U+00A0, and the
other code points with the Unicode White_Space property. -/
def unicodeIsSpace (r : Char) : Bool :=
  let c := r.toNat
  (9 ≤ c && c ≤ 13) || c == 0x20 || c == 0x85 || c == 0xA0 || c == 0x1680 ||
    (0x2000 ≤ c && c ≤ 0x200A) || c == 0x2028 || c == 0x2029 || c == 0x202F ||
    c == 0x205F || c == 0x3000

/-- Index expression `argsRunes[i]`. -/
def runeAt (argsRunes : List Char) (i : Nat) : Except Fault Char :=
  match argsRunes.get? i with
  | some r => .ok r
  | none => .error .indexOutOfRange

/-- Slice expression `argsRunes[lo:]`. -/
def sliceFrom (argsRunes : List Char) (lo : Int) : Except Fault (List Char) :=
  if 0 ≤ lo ∧ lo ≤ (argsRunes.length : Int) then .ok (argsRunes.drop lo.toNat)
  else .error .sliceBounds

/-- Slice expression `argsRunes[lo:hi]`. -/
def sliceBetween (argsRunes : List Char) (lo : Int) (hi : Nat) : Except Fault (List Char) :=
  if 0 ≤ lo ∧ lo ≤ (hi : Int) ∧ hi ≤ argsRunes.length then
    .ok ((argsRunes.take hi).drop lo.toNat)
  else .error .sliceBounds

/-- Assignment `args[a] = v`. -/
def setArg (args : List String) (a : Nat) (v : String) : Except Fault (List String) :=
  if a < args.length then .ok (args.set a v) else .error .indexOutOfRange

/-! ## `parseArgs` -/

/-- The local variables of `parseArgs` that change while the loop runs. -/
structure ParseState where
  /-- The result slice `args`. -/
  args : List String
  /-- Index of the first rune of the token being read, `-1` between tokens. -/
  argStart : Int
  /-- Index of the token being read. -/
  a : Nat
  /-- Loop counter. -/
  i : Nat
  deriving DecidableEq, Repr

/-- The `for i := 0; i < len(argsRunes); i++` loop of `parseArgs`.  The first argument bounds
the number of evaluations of the loop condition. -/
def parseArgsLoop (argsRunes : List Char) (n : Int) : Nat → ParseState → Except Fault ParseState
  | 0, _ => .error .outOfFuel
  | fuel + 1, st =>
    if st.i < argsRunes.length then
      if st.argStart = -1 then do
        let r ← runeAt argsRunes st.i
        if unicodeIsSpace r then
          -- continue
          parseArgsLoop argsRunes n fuel { st with i := st.i + 1 }
        else
          parseArgsLoop argsRunes n fuel { st with argStart := (st.i : Int), i := st.i + 1 }
      else
        if (st.a : Int) + 1 = n then do
          let rest ← sliceFrom argsRunes st.argStart
          let args ← setArg st.args st.a (String.mk rest)
          -- break
          .ok { st with args := args }
        else do
          let r ← runeAt argsRunes st.i
          if unicodeIsSpace r then
            let tok ← sliceBetween argsRunes st.argStart st.i
            let args ← setArg st.args st.a (String.mk tok)
            parseArgsLoop argsRunes n fuel
              { args := args, argStart := -1, a := st.a + 1, i := st.i + 1 }
          else
            parseArgsLoop argsRunes n fuel { st with i := st.i + 1 }
    else .ok st

/-- The statements of `parseArgs` that follow the loop: `if argStart != -1 { ... }` and
`return args`. -/
def parseArgsFinish (argsRunes : List Char) (st : ParseState) : Except Fault (List String) :=
  if st.argStart ≠ -1 then do
    let rest ← sliceFrom argsRunes st.argStart
    let args ← setArg st.args st.a (String.mk rest)
    -- `argStart = -1` and `a++` follow, neither is read again
    .ok args
  else .ok st.args

/-- Model of `parseArgs(argsStr string, n int) []string`.  The allocation `make([]string, n)`
is taken to succeed; `parseArgsWithMake` is the same function with the allocation checked. -/
def parseArgs (argsStr : String) (n : Int) : Except Fault (List String) :=
  if n ≤ 0 then .ok []
  else do
    let args := List.replicate n.toNat ""
    let argsRunes := argsStr.data
    let st ← parseArgsLoop argsRunes n (argsRunes.length + 1)
      { args := args, argStart := -1, a := 0, i := 0 }
    parseArgsFinish argsRunes st

/-- The expression `make([]string, n)` on a runtime that can allocate a slice of at most
`maxLen` strings: Go panics with `makeslice: len out of range` when `n` is negative or the
size of the slice is more than the runtime allows, and stops with an out-of-memory error when
the memory is not there. -/
def makeStrings (maxLen : Nat) (n : Int) : Except Fault (List String) :=
  if 0 ≤ n ∧ n ≤ (maxLen : Int) then .ok (List.replicate n.toNat "") else .error .makeSliceLen

/-- Model of `parseArgs(argsStr string, n int) []string` with the allocation checked: the
statements are those of `parseArgs`, and `make([]string, n)` fails when `n` is more than the
`maxLen` strings that the runtime can allocate. -/
def parseArgsWithMake (maxLen : Nat) (argsStr : String) (n : Int) :
    Except Fault (List String) :=
  if n ≤ 0 then .ok []
  else do
    let args ← makeStrings maxLen n
    let argsRunes := argsStr.data
    let st ← parseArgsLoop argsRunes n (argsRunes.length + 1)
      { args := args, argStart := -1, a := 0, i := 0 }
    parseArgsFinish argsRunes st

/-- The largest length that `makeslice` lets through for a slice of strings on linux/amd64:
`maxAlloc` is `1 << 48` bytes and a string value takes 16 bytes. -/
def maxStringsAmd64 : Nat := 2 ^ 48 / 16

/-! ## Specification of the tokenizer -/

/-- Walks along a line and collects, for every maximal run of non-whitespace characters, the
suffix of the line that starts at the first character of the run.  The flag tells whether
the character before the current position is whitespace (or the line starts here). -/
def wordStartsAux : Bool → List Char → List (List Char)
  | _, [] => []
  | prevSpace, c :: cs =>
    if unicodeIsSpace c then wordStartsAux true cs
    else if prevSpace then (c :: cs) :: wordStartsAux false cs
    else wordStartsAux false cs

/-- For each maximal run of non-whitespace characters of the line, in order, the suffix of the
line starting at the first character of that run. -/
def wordSuffixes (line : List Char) : List (List Char) := wordStartsAux true line

/-- The run of non-whitespace characters at the start of a suffix. -/
def leadingWord (sfx : List Char) : List Char := sfx.takeWhile (fun c => !unicodeIsSpace c)

/-- The maximal runs `w_1 .. w_k` of non-whitespace characters of a line, in order. -/
def wordRuns (line : List Char) : List (List Char) := (wordSuffixes line).map leadingWord

/-- Token number `j` (counted from zero) that the tokenizer contract prescribes for a line and
a token count `n`: a token before the last is the run `w_(j+1)` when the line has that many
runs and empty otherwise; the last token is the rest of the line from the first character of
run `w_n` on, and empty when there is no such run. -/
def expectedToken (line : List Char) (n j : Nat) : String :=
  if j + 1 < n then String.mk ((wordRuns line).getD j [])
  else String.mk ((wordSuffixes line).getD j [])

/-- The token sequence the tokenizer contract prescribes. -/
def expectedTokens (line : List Char) (n : Nat) : List String :=
  (List.range n).map (expectedToken line n)

/-- Tokens for the next `k` result slots, given the suffixes of the runs not consumed yet. -/
def fillTokens : Nat → List (List Char) → List String
  | 0, _ => []
  | 1, sfxs => [String.mk (sfxs.headD [])]
  | k + 2, sfxs => String.mk (leadingWord (sfxs.headD [])) :: fillTokens (k + 1) sfxs.tail

/-! ## Library functions used by the dispatcher -/

/-- The `Err` field of a `*strconv.NumError`. -/
inductive NumErrorKind where
  /-- Go `strconv.ErrSyntax`. -/
  | errSyntax
  /-- Go `strconv.ErrRange`. -/
  | errRange
  deriving DecidableEq, Repr

/-- Go `error` values that reach the dispatcher. -/
inductive GoError where
  /-- A `*strconv.NumError` with its fields `Func`, `Num`, `Err`. -/
  | numError (func num : String) (err : NumErrorKind)
  /-- An error returned by the Forwarder. -/
  | forwarder (msg : String)
  deriving DecidableEq, Repr

/-- The digit loop of Go `strconv.ParseUint` for base 10: `s0` is the whole input (for the
error value), `maxVal` is `1<<bitSize - 1`, the last argument is the accumulator `n`, a
`uint64`. -/
def parseUintLoop (s0 : String) (maxVal : Nat) : List Char → Nat → Except GoError Nat
  | [], n => .ok n
  | c :: cs, n =>
    if '0'.toNat ≤ c.toNat ∧ c.toNat ≤ '9'.toNat then
      let d := c.toNat - '0'.toNat
      -- cutoff = maxUint64/10 + 1
      if n ≥ (2 ^ 64 - 1) / 10 + 1 then .error (.numError "ParseUint" s0 .errRange)
      else
        let n10 := (n * 10) % 2 ^ 64
        let n1 := (n10 + d) % 2 ^ 64
        if n1 < n10 ∨ n1 > maxVal then .error (.numError "ParseUint" s0 .errRange)
        else parseUintLoop s0 maxVal cs n1
    else
      -- a letter is a digit of value 10 or more, everything else is no digit at all
      .error (.numError "ParseUint" s0 .errSyntax)

/-- Go `strconv.ParseUint(s, 10, bitSize)` for `1 ≤ bitSize ≤ 64`. -/
def ParseUint (s : String) (bitSize : Nat) : Except GoError Nat :=
  if s = "" then .error (.numError "ParseUint" s .errSyntax)
  else parseUintLoop s (2 ^ bitSize - 1) s.data 0

/-- Go conversion `uint16(n)` of a `uint64`. -/
def uint16 (n : Nat) : Nat := n % 2 ^ 16

/-- Go `strconv.FormatUint(n, 10)`: the decimal numeral of `n`. -/
def FormatUint (n : Nat) : String := Nat.repr n

/-- The rune mapping of Go `unicode.ToLower`.  The Unicode case tables are not part of the
program; the mapping is a parameter, fixed on ASCII where Go maps `A`-`Z` to `a`-`z` and
leaves every other character alone. -/
structure CaseMapping where
  /-- Go `unicode.ToLower`. -/
  toLower : Char → Char
  /-- On ASCII only the letters `A`-`Z` change. -/
  toLower_ascii : ∀ c : Char, c.toNat < 128 → toLower c = c.toLower

/-- Go `strings.ToLower`. -/
def stringsToLower (U : CaseMapping) (s : String) : String := String.mk (s.data.map U.toLower)

/-- The case mapping that changes the ASCII letters only. -/
def asciiCaseMapping : CaseMapping where
  toLower := Char.toLower
  toLower_ascii := fun _ _ => rfl

/-- Index expression `xs[i]` on a slice of strings. -/
def strAt (xs : List String) (i : Nat) : Except Fault String :=
  match xs.get? i with
  | some x => .ok x
  | none => .error .indexOutOfRange

/-- Slice expression `xs[lo:]` on a slice of strings. -/
def strSliceFrom (xs : List String) (lo : Nat) : Except Fault (List String) :=
  if lo ≤ xs.length then .ok (xs.drop lo) else .error .sliceBounds

/-! ## The Forwarder, the registry and the event trace -/

/-- A cancellation capability: the identity of a non-nil `func()` value handed out by the
Forwarder. -/
structure Cap where
  /-- Distinguishes capabilities from each other. -/
  id : Nat
  deriving DecidableEq, Repr

/-- Observable effects of the program, in the order in which they happen. -/
inductive Event where
  /-- A call `zap.L().Info(msg)`. -/
  | info (msg : String)
  /-- A call `zap.L().Error(msg)`. -/
  | error (msg : String)
  /-- A call `zap.S().Error(err)`. -/
  | errorErr (err : GoError)
  /-- A call `fwr.OpenPort(networkType, port)` together with what it returned. -/
  | openPort (networkType : String) (port : Nat) (res : Except GoError Cap)
  /-- A call `fwr.Connect(id)` together with what it returned. -/
  | connect (id : String) (res : Except GoError (String × Cap))
  /-- An invocation `c()` of a cancellation capability. -/
  | invoke (c : Cap)
  deriving DecidableEq, Repr

/-- Modelled from the spec: the Forwarder (package `p2pforwarder`, whose code is not among the
sources).  The spec gives `id() -> string`, `openPort(proto, port) -> (cancel, error)` and
`connect(peerId) -> (localListenAddress, cancel, error)`; on success the cancel function is a
capability, on failure only the error is used.  The behaviour is arbitrary: what a call returns
may depend on everything that happened before it, which is passed as the trace so far. -/
structure Forwarder where
  /-- Go `fwr.ID()`. -/
  ID : String
  /-- Go `fwr.OpenPort(networkType, port)`. -/
  OpenPort : List Event → String → Nat → Except GoError Cap
  /-- Go `fwr.Connect(id)`. -/
  Connect : List Event → String → Except GoError (String × Cap)

/-- The package level variables `connections`, `openTCPPorts`, `openUDPPorts` together with
the trace of effects so far.  A Go map is a finite map with distinct keys; a port is a
`uint16`, kept as a natural number.  The values stored are the cancel functions of successful
Forwarder calls; the `nil` that Go returns for a key without an entry is `none`. -/
structure State where
  /-- Go `connections map[string]func()`. -/
  connections : AList (fun _ : String => Cap)
  /-- Go `openTCPPorts map[uint16]func()`. -/
  openTCPPorts : AList (fun _ : Nat => Cap)
  /-- Go `openUDPPorts map[uint16]func()`. -/
  openUDPPorts : AList (fun _ : Nat => Cap)
  /-- Everything that happened so far. -/
  trace : List Event

/-- Appends one event to the trace. -/
def State.log (s : State) (e : Event) : State := { s with trace := s.trace ++ [e] }

/-- The state of a freshly started process: three empty maps, nothing has happened. -/
def State.init : State :=
  { connections := ∅, openTCPPorts := ∅, openUDPPorts := ∅, trace := [] }

/-! ## `executeCommand` -/

/-- Model of `executeCommand(str string)`; the global `fwr` and the package level maps are
passed explicitly. -/
def executeCommand (U : CaseMapping) (fwr : Forwarder) (s : State) (str : String) :
    Except Fault State := do
  let args ← parseArgs str 3
  let cmd := stringsToLower U (← strAt args 0)
  let params ← strSliceFrom args 1
  if cmd = "connect" then
    let id ← strAt params 0
    let s := s.log (.info ("Connecting to " ++ id))
    match fwr.Connect s.trace id with
    | .error err =>
      let s := s.log (.connect id (.error err))
      .ok (s.log (.errorErr err))
    | .ok (listenip, cancel) =>
      let s := s.log (.connect id (.ok (listenip, cancel)))
      let s := { s with connections := s.connections.insert id cancel }
      .ok (s.log (.info ("Connections to " ++ id ++ "\x27s ports are listened on " ++ listenip)))
  else if cmd = "disconnect" then
    let id ← strAt params 0
    match s.connections.lookup id with
    | none => .ok (s.log (.error "You are not connected to specified id"))
    | some close =>
      let s := s.log (.info ("Disconnecting from " ++ id))
      let s := s.log (.invoke close)
      .ok { s with connections := s.connections.erase id }
  else if cmd = "open" then
    let networkType := stringsToLower U (← strAt params 0)
    let portStr ← strAt params 1
    match ParseUint portStr 16 with
    | .error err => .ok (s.log (.errorErr err))
    | .ok portUint64 =>
      let port := uint16 portUint64
      let s := s.log (.info ("Opening " ++ networkType ++ ":" ++ portStr))
      match fwr.OpenPort s.trace networkType port with
      | .error err =>
        let s := s.log (.openPort networkType port (.error err))
        .ok (s.log (.errorErr err))
      | .ok cancel =>
        let s := s.log (.openPort networkType port (.ok cancel))
        if networkType = "tcp" then
          .ok { s with openTCPPorts := s.openTCPPorts.insert port cancel }
        else if networkType = "udp" then
          .ok { s with openUDPPorts := s.openUDPPorts.insert port cancel }
        else .ok s
  else if cmd = "close" then
    let networkType := stringsToLower U (← strAt params 0)
    let portStr ← strAt params 1
    match ParseUint portStr 16 with
    | .error err => .ok (s.log (.errorErr err))
    | .ok portUint64 =>
      let port := uint16 portUint64
      let cancel : Option Cap :=
        if networkType = "tcp" then s.openTCPPorts.lookup port
        else if networkType = "udp" then s.openUDPPorts.lookup port
        else none
      match cancel with
      | none => .ok (s.log (.error "Specified port is not opened"))
      | some cancel =>
        let s := s.log (.info ("Closing " ++ networkType ++ ":" ++ portStr))
        let s := s.log (.invoke cancel)
        .ok { s with openTCPPorts := s.openTCPPorts.erase port }
  else
    let s := s.log (.info "")
    let s := s.log (.info "Cli commands list:")
    let s := s.log (.info "connect [ID_HERE]")
    let s := s.log (.info "disconnect [ID_HERE]")
    let s := s.log (.info "open [TCP_OR_UDP_HERE] [PORT_NUMBER_HERE]")
    let s := s.log (.info "close [UDP_OR_UDP_HERE] [PORT_NUMBER_HERE]")
    .ok (s.log (.info ""))

/-! ## `main` -/

/-- The values of the repeatable flags `-connect`, `-tcp` and `-udp`. -/
structure Flags where
  /-- Values of `-connect`. -/
  connectIds : List String
  /-- Values of `-tcp`. -/
  tcpPorts : List Nat
  /-- Values of `-udp`. -/
  udpPorts : List Nat

/-- The three maps that `main` ranges over. -/
inductive MapName where
  /-- The map `connections`. -/
  | connections
  /-- The map `openTCPPorts`. -/
  | openTCPPorts
  /-- The map `openUDPPorts`. -/
  | openUDPPorts
  deriving DecidableEq, Repr

/-- The order in which a `range` statement visits the entries of a map.  Go leaves it
unspecified; a `range` visits every entry once, so the order is a rearrangement of the
entries, chosen by the runtime. -/
structure RangeOrder where
  /-- The rearrangement applied to the values of the named map. -/
  order : MapName → List Cap → List Cap
  /-- Every entry is visited once. -/
  perm : ∀ m l, (order m l).Perm l

/-- The range order that follows the stored order of the entries. -/
def storedOrder : RangeOrder where
  order := fun _ l => l
  perm := fun _ l => List.Perm.refl l

/-- The values of a map. -/
def mapValues {K : Type} (m : AList (fun _ : K => Cap)) : List Cap := m.entries.map (·.2)

/-- Body of `for _, port := range tcpPorts`. -/
def openTCPStep (fwr : Forwarder) (s : State) (port : Nat) : State :=
  let s := s.log (.info ("Opening tcp:" ++ FormatUint port))
  match fwr.OpenPort s.trace "tcp" port with
  | .error err =>
    let s := s.log (.openPort "tcp" port (.error err))
    -- continue
    s.log (.errorErr err)
  | .ok cancel =>
    let s := s.log (.openPort "tcp" port (.ok cancel))
    { s with openTCPPorts := s.openTCPPorts.insert port cancel }

/-- Body of `for _, port := range udpPorts`. -/
def openUDPStep (fwr : Forwarder) (s : State) (port : Nat) : State :=
  let s := s.log (.info ("Opening udp: " ++ FormatUint port))
  match fwr.OpenPort s.trace "udp" port with
  | .error err =>
    let s := s.log (.openPort "udp" port (.error err))
    -- continue
    s.log (.errorErr err)
  | .ok cancel =>
    let s := s.log (.openPort "udp" port (.ok cancel))
    { s with openUDPPorts := s.openUDPPorts.insert port cancel }

/-- Body of `for _, id := range connectIds`. -/
def connectStep (fwr : Forwarder) (s : State) (id : String) : State :=
  let s := s.log (.info ("Connecting to " ++ id))
  match fwr.Connect s.trace id with
  | .error err =>
    let s := s.log (.connect id (.error err))
    -- continue
    s.log (.errorErr err)
  | .ok (listenip, cancel) =>
    let s := s.log (.connect id (.ok (listenip, cancel)))
    let s := { s with connections := s.connections.insert id cancel }
    s.log (.info ("Connections to " ++ id ++ "\x27s ports are listened on " ++ listenip))

/-- The part of `main` from `zap.L().Info("Initialization...")` to
`zap.L().Info("Initialization completed")`, for a Forwarder that `NewForwarder` returned
without error. -/
def startup (fwr : Forwarder) (flags : Flags) (s : State) : State :=
  let s := s.log (.info "Initialization...")
  let s := s.log (.info ("Your id: " ++ fwr.ID))
  let s := flags.tcpPorts.foldl (openTCPStep fwr) s
  let s := flags.udpPorts.foldl (openUDPStep fwr) s
  let s := flags.connectIds.foldl (connectStep fwr) s
  s.log (.info "Initialization completed")

/-- A `for _, cancel := range m { cancel() }` loop over the values in the order given. -/
def invokeAll (caps : List Cap) (s : State) : State :=
  caps.foldl (fun s c => s.log (.invoke c)) s

/-- The `case <-termSignal` branch of the main loop; `cancel` is the function returned by
`NewForwarder`. -/
def shutdown (rt : RangeOrder) (cancel : Cap) (s : State) : State :=
  let s := s.log (.info "Shutdown...")
  let s := s.log (.invoke cancel)
  let s := invokeAll (rt.order .connections (mapValues s.connections)) s
  let s := invokeAll (rt.order .openTCPPorts (mapValues s.openTCPPorts)) s
  invokeAll (rt.order .openUDPPorts (mapValues s.openUDPPorts)) s

/-- What the `select` of the main loop receives. -/
inductive Input where
  /-- A line from `cmdch`. -/
  | line (str : String)
  /-- A value from `termSignal`. -/
  | termSignal
  deriving DecidableEq, Repr

/-- The loop labelled `loop` of `main`, run on the inputs that arrive, in the order in which
the `select` takes them.  When no input is left the loop is waiting and the state reached so
far is returned. -/
def mainLoop (U : CaseMapping) (fwr : Forwarder) (rt : RangeOrder) (cancel : Cap) :
    List Input → State → Except Fault State
  | [], s => .ok s
  | .line str :: rest, s => do
    let s ← executeCommand U fwr s str
    mainLoop U fwr rt cancel rest s
  | .termSignal :: _, s =>
    -- break loop
    .ok (shutdown rt cancel s)

/-- Model of `main` for a Forwarder that `NewForwarder` returned without error. -/
def main (U : CaseMapping) (fwr : Forwarder) (rt : RangeOrder) (cancel : Cap) (flags : Flags)
    (inputs : List Input) : Except Fault State := do
  let s := startup fwr flags State.init
  let s ← executeCommand U fwr s ""
  mainLoop U fwr rt cancel inputs s

/-- A string without whitespace characters. -/
def NoSpace (w : String) : Prop := ∀ c ∈ w.data, unicodeIsSpace c = false

instance (w : String) : Decidable (NoSpace w) := by
  unfold NoSpace; infer_instance

/-! ## Accounting for capabilities -/

/-- The capabilities that successful Forwarder calls recorded in a trace returned. -/
def obtainedCaps (t : List Event) : List Cap :=
  t.filterMap fun e =>
    match e with
    | .openPort _ _ (.ok c) => some c
    | .connect _ (.ok (_, c)) => some c
    | _ => none

/-- Every capability that a successful Forwarder call of the trace returned is invoked
somewhere in the trace. -/
def ReleasedAll (t : List Event) : Prop := ∀ c ∈ obtainedCaps t, Event.invoke c ∈ t

instance (t : List Event) : Decidable (ReleasedAll t) := by
  unfold ReleasedAll; infer_instance

/-- A key of the registry: a peer id in `connections`, a port in `openTCPPorts` or a port in
`openUDPPorts`. -/
inductive Target where
  /-- Key of `connections`. -/
  | peer (id : String)
  /-- Key of `openTCPPorts`. -/
  | tcp (port : Nat)
  /-- Key of `openUDPPorts`. -/
  | udp (port : Nat)
  deriving DecidableEq, Repr

/-- The registry key and the capability that an event obtains: a successful `Connect` obtains
a capability for its peer id, a successful `OpenPort` for network type `tcp` or `udp` obtains
one for its port; no other event obtains anything for a key. -/
def Event.obtained : Event → Option (Target × Cap)
  | .connect id (.ok (_, c)) => some (.peer id, c)
  | .openPort networkType port (.ok c) =>
    if networkType = "tcp" then some (.tcp port, c)
    else if networkType = "udp" then some (.udp port, c)
    else none
  | _ => none

/-- The capability that the registry holds for a key. -/
def State.holds (s : State) : Target → Option Cap
  | .peer id => s.connections.lookup id
  | .tcp port => s.openTCPPorts.lookup port
  | .udp port => s.openUDPPorts.lookup port

/-- Every capability obtained for a key in the trace is accounted for: after the event that
obtained it, it is invoked, or a later successful call obtains a capability for the same key,
or it is the capability currently held for that key. -/
def Accounted (holds : Target → Option Cap) (t : List Event) : Prop :=
  ∀ t1 e t2 tg c, t = t1 ++ e :: t2 → e.obtained = some (tg, c) →
    Event.invoke c ∈ t2 ∨ (∃ e' ∈ t2, ∃ c', e'.obtained = some (tg, c')) ∨ holds tg = some c

/-- Tells whether a line is a `close` command whose network type is `udp`. -/
def closesUDP (U : CaseMapping) (str : String) : Bool :=
  match parseArgs str 3 with
  | .ok [a0, a1, _] => stringsToLower U a0 = "close" && stringsToLower U a1 = "udp"
  | _ => false

/-- A Forwarder that always succeeds and hands out a fresh capability on every call. -/
def okForwarder : Forwarder where
  ID := "self"
  OpenPort := fun t _ _ => .ok ⟨t.length⟩
  Connect := fun t _ => .ok ("127.0.0.2", ⟨t.length⟩)

/-- A Forwarder that refuses every call. -/
def failingForwarder : Forwarder where
  ID := "self"
  OpenPort := fun _ _ _ => .error (.forwarder "refused")
  Connect := fun _ _ => .error (.forwarder "refused")

/-! ## Kinds of events -/

/-- Tells whether an event is a log line on the error channel (`zap.L().Error` or
`zap.S().Error`). -/
def Event.isError : Event → Bool
  | .error _ => true
  | .errorErr _ => true
  | _ => false

/-- Tells whether an event is a log line, on the informational or on the error channel. -/
def Event.isLog : Event → Bool
  | .info _ => true
  | .error _ => true
  | .errorErr _ => true
  | _ => false

/-- Tells whether an event is a call of the Forwarder. -/
def Event.isCall : Event → Bool
  | .openPort _ _ _ => true
  | .connect _ _ => true
  | _ => false

/-- Tells whether an event is the invocation of a capability. -/
def Event.isInvoke : Event → Bool
  | .invoke _ => true
  | _ => false

/-- The seven informational lines of the `default` branch of `executeCommand`. -/
def helpBanner : List Event :=
  [.info "", .info "Cli commands list:", .info "connect [ID_HERE]",
    .info "disconnect [ID_HERE]", .info "open [TCP_OR_UDP_HERE] [PORT_NUMBER_HERE]",
    .info "close [UDP_OR_UDP_HERE] [PORT_NUMBER_HERE]", .info ""]

/-- A state whose only entry is a connection to `peerX`. -/
def peerXState : State :=
  { State.init with connections := (∅ : AList (fun _ : String => Cap)).insert "peerX" ⟨7⟩ }

/-- A state whose only entry is UDP port 53. -/
def udp53State : State :=
  { State.init with openUDPPorts := (∅ : AList (fun _ : Nat => Cap)).insert 53 ⟨7⟩ }

/-- The failure paths of `executeCommand` for a line with tokens `a0 a1 a2` in state `s`: the
Forwarder call of `connect` or `open` returns an error, the port of `open` or `close` does not
parse, or the key of `disconnect` or `close` has no entry. -/
def FailurePath (U : CaseMapping) (fwr : Forwarder) (s : State) (a0 a1 a2 : String) : Prop :=
  (stringsToLower U a0 = "connect" ∧
    ∃ err, fwr.Connect (s.trace ++ [.info ("Connecting to " ++ a1)]) a1 = .error err) ∨
  (stringsToLower U a0 = "disconnect" ∧ s.connections.lookup a1 = none) ∨
  (stringsToLower U a0 = "open" ∧ ∃ err, ParseUint a2 16 = .error err) ∨
  (stringsToLower U a0 = "open" ∧ ∃ p err, ParseUint a2 16 = .ok p ∧
    fwr.OpenPort (s.trace ++ [.info ("Opening " ++ stringsToLower U a1 ++ ":" ++ a2)])
      (stringsToLower U a1) (uint16 p) = .error err) ∨
  (stringsToLower U a0 = "close" ∧ ∃ err, ParseUint a2 16 = .error err) ∨
  (stringsToLower U a0 = "close" ∧ ∃ p, ParseUint a2 16 = .ok p ∧
    (if stringsToLower U a1 = "tcp" then s.openTCPPorts.lookup (uint16 p)
      else if stringsToLower U a1 = "udp" then s.openUDPPorts.lookup (uint16 p)
      else none) = none)

/-- The number of entries that the registry has for a key. -/
def State.entryCount (s : State) : Target → Nat
  | .peer id => s.connections.keys.count id
  | .tcp port => s.openTCPPorts.keys.count port
  | .udp port => s.openUDPPorts.keys.count port

/-! ## Correctness of the tokenizer -/

theorem runeAt_append (pre : List Char) (c : Char) (cs : List Char) :
    runeAt (pre ++ c :: cs) pre.length = .ok c := by
  have h : (pre ++ c :: cs).get? pre.length = some c := by
    rw [List.get?_eq_getElem?, List.getElem?_append_right (le_refl _)]
    simp
  unfold runeAt
  rw [h]

theorem sliceFrom_append (pre rest : List Char) :
    sliceFrom (pre ++ rest) (pre.length : Int) = .ok rest := by
  simp [sliceFrom]

theorem sliceBetween_append (pre w rest : List Char) :
    sliceBetween (pre ++ w ++ rest) (pre.length : Int) (pre ++ w).length = .ok w := by
  simp [sliceBetween, List.take_append_eq_append_take]

theorem setArg_done (done : List String) (k : Nat) (v : String) :
    setArg (done ++ List.replicate (k + 1) "") done.length v =
      .ok (done ++ v :: List.replicate k "") := by
  simp [setArg, List.replicate_succ]

theorem fillTokens_nil (k : Nat) : fillTokens k [] = List.replicate k "" := by
  induction k using Nat.strong_induction_on with
  | _ k ih =>
    match k with
    | 0 => rfl
    | 1 => rfl
    | k + 2 =>
      have := ih (k + 1) (by omega)
      simp [fillTokens, this, leadingWord, List.replicate_succ]

theorem wordStartsAux_false_space (c : Char) (cs : List Char) (hc : unicodeIsSpace c = true) :
    wordStartsAux false (c :: cs) = wordStartsAux true cs := by
  simp [wordStartsAux, hc]

theorem leadingWord_append_space (w : List Char) (c : Char) (cs : List Char)
    (hw : ∀ x ∈ w, unicodeIsSpace x = false) (hc : unicodeIsSpace c = true) :
    leadingWord (w ++ c :: cs) = w := by
  induction w with
  | nil => simp [leadingWord, hc]
  | cons x xs ih =>
    have hx : unicodeIsSpace x = false := hw x (by simp)
    have := ih (fun y hy => hw y (by simp [hy]))
    simp only [leadingWord] at this ⊢
    simp [List.takeWhile, hx, this]

theorem leadingWord_of_no_space (w : List Char) (hw : ∀ x ∈ w, unicodeIsSpace x = false) :
    leadingWord w = w := by
  induction w with
  | nil => simp [leadingWord]
  | cons x xs ih =>
    have hx : unicodeIsSpace x = false := hw x (by simp)
    have := ih (fun y hy => hw y (by simp [hy]))
    simp only [leadingWord] at this ⊢
    simp [List.takeWhile, hx, this]

/-- Loop invariant of `parseArgs`, for both loop modes.  Between tokens (`argStart = -1`) the
remaining result slots are filled from the runs of the unread text; inside a token that
started at `pre.length` the first remaining slot belongs to that token. -/
theorem parseArgsLoop_spec (rest : List Char) :
    (∀ (pre : List Char) (done : List String) (k : Nat),
      (parseArgsLoop (pre ++ rest) ((done.length + (k + 1) : Nat) : Int) (rest.length + 1)
          { args := done ++ List.replicate (k + 1) "", argStart := -1, a := done.length,
            i := pre.length } >>= parseArgsFinish (pre ++ rest))
        = .ok (done ++ fillTokens (k + 1) (wordStartsAux true rest))) ∧
    (∀ (pre w : List Char) (done : List String) (k : Nat), w ≠ [] →
      (∀ x ∈ w, unicodeIsSpace x = false) →
      (parseArgsLoop (pre ++ w ++ rest) ((done.length + (k + 1) : Nat) : Int) (rest.length + 1)
          { args := done ++ List.replicate (k + 1) "", argStart := (pre.length : Int),
            a := done.length, i := (pre ++ w).length } >>= parseArgsFinish (pre ++ w ++ rest))
        = .ok (done ++ fillTokens (k + 1) ((w ++ rest) :: wordStartsAux false rest))) := by
  induction rest with
  | nil =>
    refine ⟨?_, ?_⟩
    · intro pre done k
      simp [parseArgsLoop, parseArgsFinish, bind, Except.bind, wordStartsAux, fillTokens_nil]
    · intro pre w done k hw hns
      have hne : ¬ ((pre.length : Int) = -1) := by omega
      have h1 := sliceFrom_append pre w
      have h2 := setArg_done done k (String.mk w)
      simp only [List.append_nil] at *
      simp only [parseArgsLoop, parseArgsFinish, bind, Except.bind, lt_irrefl, if_false,
        ne_eq, hne, not_false_eq_true, if_true, h1, h2, wordStartsAux]
      cases k with
      | zero => simp [fillTokens]
      | succ k => simp [fillTokens, leadingWord_of_no_space w hns, fillTokens_nil]
  | cons c cs ih =>
    obtain ⟨ihA, ihB⟩ := ih
    refine ⟨?_, ?_⟩
    · intro pre done k
      have hlt : pre.length < (pre ++ c :: cs).length := by simp
      have hr := runeAt_append pre c cs
      rw [parseArgsLoop]
      simp only [hlt, if_true, bind, Except.bind, hr]
      by_cases hc : unicodeIsSpace c = true
      · have := ihA (pre ++ [c]) done k
        simp only [List.append_assoc, List.singleton_append, List.length_append,
          List.length_singleton] at this
        simp only [hc, if_true, wordStartsAux]
        exact this
      · have hc' : unicodeIsSpace c = false := by simpa using hc
        have := ihB pre [c] done k (by simp) (by simpa using hc')
        simp only [List.append_assoc, List.singleton_append, List.length_append,
          List.length_singleton] at this
        simp only [hc', wordStartsAux, if_true]
        simpa using this
    · intro pre w done k hw hns
      have hlt : (pre ++ w).length < (pre ++ w ++ c :: cs).length := by simp
      have hne : ¬ ((pre.length : Int) = -1) := by omega
      have hr := runeAt_append (pre ++ w) c cs
      rw [parseArgsLoop]
      simp only [hlt, if_true, hne, if_false]
      cases k with
      | zero =>
        have h1 := sliceFrom_append pre (w ++ c :: cs)
        have h2 := setArg_done done 0 (String.mk (w ++ c :: cs))
        have h3 : setArg (done ++ [String.mk (w ++ c :: cs)]) done.length
            (String.mk (w ++ c :: cs)) = .ok (done ++ [String.mk (w ++ c :: cs)]) := by
          simp [setArg]
        simp only [List.replicate] at h2
        simp only [List.append_assoc] at h1 h2 h3 ⊢
        simp [parseArgsFinish, bind, Except.bind, h1, h2, h3, hne, fillTokens]
      | succ k =>
        have hk : ¬ ((done.length : Int) + 1 = ((done.length + (k + 1 + 1) : Nat) : Int)) := by
          push_cast; omega
        simp only [hk, if_false, bind, Except.bind, hr]
        by_cases hc : unicodeIsSpace c = true
        · have h1 := sliceBetween_append pre w (c :: cs)
          have h2 := setArg_done done (k + 1) (String.mk w)
          have := ihA (pre ++ w ++ [c]) (done ++ [String.mk w]) k
          simp only [List.append_assoc, List.singleton_append, List.length_append,
            List.length_singleton, List.cons_append, List.nil_append] at this h1 h2 ⊢
          have e : done.length + 1 + (k + 1) = done.length + (k + 1 + 1) := by omega
          rw [e] at this
          simp only [hc, if_true, h1, h2, fillTokens, List.headD_cons, List.tail_cons,
            leadingWord_append_space w c cs hns hc, wordStartsAux_false_space c cs hc]
          simpa [Nat.add_assoc] using this
        · have hc' : unicodeIsSpace c = false := by simpa using hc
          have := ihB pre (w ++ [c]) done (k + 1) (by simp) (by
            intro x hx
            rcases List.mem_append.1 hx with h | h
            · exact hns x h
            · simp at h; subst h; exact hc')
          simp only [List.append_assoc, List.singleton_append, List.length_append,
            List.length_singleton, List.cons_append, List.nil_append] at this ⊢
          simp only [hc', wordStartsAux]
          simpa [Nat.add_assoc] using this

theorem fillTokens_eq_map (k : Nat) (sfxs : List (List Char)) :
    fillTokens k sfxs = (List.range k).map (fun j =>
      if j + 1 < k then String.mk (leadingWord (sfxs.getD j [])) else String.mk (sfxs.getD j []))
    := by
  induction k using Nat.strong_induction_on generalizing sfxs with
  | _ k ih =>
    match k with
    | 0 => rfl
    | 1 => cases sfxs <;> simp [fillTokens, List.range_succ]
    | k + 2 =>
      rw [fillTokens, ih (k + 1) (by omega), List.range_succ_eq_map (k + 1), List.map_cons,
        List.map_map]
      congr 1
      · cases sfxs <;> simp
      · apply List.map_congr_left
        intro j _
        cases sfxs <;> simp

theorem wordRuns_getD (line : List Char) (j : Nat) :
    (wordRuns line).getD j [] = leadingWord ((wordSuffixes line).getD j []) := by
  unfold wordRuns
  by_cases h : j < (wordSuffixes line).length
  · simp [List.getD_eq_getElem?_getD, List.getElem?_map, List.getElem?_eq_getElem h]
  · have h' : (wordSuffixes line).length ≤ j := Nat.le_of_not_lt h
    simp [List.getD_eq_getElem?_getD, List.getElem?_map, List.getElem?_eq_none h', leadingWord]

theorem fillTokens_wordSuffixes (line : List Char) (n : Nat) :
    fillTokens n (wordSuffixes line) = expectedTokens line n := by
  rw [fillTokens_eq_map, expectedTokens]
  apply List.map_congr_left
  intro j _
  simp only [expectedToken, wordRuns_getD]

/-- What `parseArgs` returns for a positive token count. -/
theorem parseArgs_eq (line : String) (n : Nat) (hn : 1 ≤ n) :
    parseArgs line (n : Int) = .ok (expectedTokens line.data n) := by
  obtain ⟨k, rfl⟩ : ∃ k, n = k + 1 := ⟨n - 1, by omega⟩
  have h := (parseArgsLoop_spec line.data).1 [] [] k
  have hpos : ¬ (((k + 1 : Nat) : Int) ≤ 0) := by push_cast; omega
  simp only [List.nil_append, List.length_nil, Nat.zero_add] at h
  unfold parseArgs
  simp only [hpos, if_false, Int.toNat_ofNat]
  rw [← fillTokens_wordSuffixes]
  exact h

/-- What `parseArgs` returns for a token count that is not positive. -/
theorem parseArgs_nonpos (line : String) (n : Int) (hn : n ≤ 0) : parseArgs line n = .ok [] := by
  simp [parseArgs, hn]

theorem expectedTokens_length (line : List Char) (n : Nat) :
    (expectedTokens line n).length = n := by
  simp [expectedTokens]

theorem expectedTokens_nil (n : Nat) : expectedTokens [] n = List.replicate n "" := by
  rw [← fillTokens_wordSuffixes]
  simp [wordSuffixes, wordStartsAux, fillTokens_nil]

/-- The runs of the line `"  a   b   c  d"`. -/
theorem wordRuns_example :
    wordRuns "  a   b   c  d".data = ["a".data, "b".data, "c".data, "d".data] := by decide

/-- A trailing blank after the last requested token is kept. -/
theorem parseArgs_trailing_blank : parseArgs "a b " 2 = .ok ["a", "b "] := by decide

/-- C1: for every line and every token count `n ≥ 1`, `parseArgs` returns the tokens of the
tokenizer contract: token `i < n` is the `i`-th maximal run of non-whitespace characters
(empty when the line has fewer runs) and token `n` is the rest of the line from the first
character of the `n`-th run on, whitespace kept (empty when there is no `n`-th run).  In
particular the line `"  a   b   c  d"` with `n = 3` gives `a`, `b`, `c  d`, and the empty
line gives `n` empty strings. -/
theorem parseArgs_contract (line : String) (n : Int) (hn : 1 ≤ n) :
    parseArgs line n = .ok (expectedTokens line.data n.toNat) ∧
    (∀ j, j < n.toNat → (expectedTokens line.data n.toNat).get? j =
      some (if j + 1 < n.toNat then String.mk ((wordRuns line.data).getD j [])
            else String.mk ((wordSuffixes line.data).getD j []))) ∧
    parseArgs "  a   b   c  d" 3 = .ok ["a", "b", "c  d"] ∧
    parseArgs "" n = .ok (List.replicate n.toNat "") := by
  obtain ⟨m, rfl⟩ : ∃ m : Nat, n = (m : Int) := ⟨n.toNat, (Int.toNat_of_nonneg (by omega)).symm⟩
  have hm : 1 ≤ m := by omega
  refine ⟨parseArgs_eq line m hm, ?_, by decide, ?_⟩
  · intro j hj
    simp only [Int.toNat_ofNat] at hj ⊢
    simp [expectedTokens, List.get?_eq_getElem?, List.getElem?_map, List.getElem?_range hj,
      expectedToken]
  · rw [parseArgs_eq "" m hm, Int.toNat_ofNat]
    exact congrArg _ (expectedTokens_nil m)

/-- Witness for C1: the contract at the line `"  a   b   c  d"` with three tokens. -/
theorem parseArgs_contract_witness :
    (1 : Int) ≤ 3 ∧
    parseArgs "  a   b   c  d" 3 = .ok (expectedTokens "  a   b   c  d".data (3 : Int).toNat) ∧
    expectedTokens "  a   b   c  d".data (3 : Int).toNat = ["a", "b", "c  d"] :=
  ⟨by decide, (parseArgs_contract "  a   b   c  d" 3 (by decide)).1, by decide⟩

/-- For every line and every integer `n`, `parseArgs` returns a value. -/
theorem parseArgs_ok (line : String) (n : Int) : ∃ toks, parseArgs line n = .ok toks := by
  by_cases hn : n ≤ 0
  · exact ⟨[], parseArgs_nonpos line n hn⟩
  · obtain ⟨m, rfl⟩ : ∃ m : Nat, n = (m : Int) :=
      ⟨n.toNat, (Int.toNat_of_nonneg (by omega)).symm⟩
    exact ⟨_, parseArgs_eq line m (by omega)⟩

/-- The length of the result of `parseArgs` once the allocation has succeeded. -/
theorem parseArgs_ok_length (line : String) (n : Int) :
    ∃ toks, parseArgs line n = .ok toks ∧ (toks.length : Int) = max n 0 ∧
      (toks = [] ↔ n ≤ 0) := by
  by_cases hn : n ≤ 0
  · exact ⟨[], parseArgs_nonpos line n hn, by simp [hn], by simp [hn]⟩
  · obtain ⟨m, rfl⟩ : ∃ m : Nat, n = (m : Int) :=
      ⟨n.toNat, (Int.toNat_of_nonneg (by omega)).symm⟩
    have hm : 1 ≤ m := by omega
    refine ⟨_, parseArgs_eq line m hm, ?_, ?_⟩
    · rw [expectedTokens_length]; omega
    · constructor
      · intro h
        have := expectedTokens_length line.data m
        rw [h] at this
        simp at this
        omega
      · intro h; exact absurd h hn

/-- With a token count that the runtime can allocate, checking the allocation changes
nothing. -/
theorem parseArgsWithMake_eq (maxLen : Nat) (line : String) (n : Int)
    (hn : n ≤ (maxLen : Int)) : parseArgsWithMake maxLen line n = parseArgs line n := by
  unfold parseArgsWithMake parseArgs
  by_cases h0 : n ≤ 0
  · simp [h0]
  · have h1 : 0 ≤ n := by omega
    simp [h0, makeStrings, h1, hn, bind, Except.bind]

/-- With a token count beyond what the runtime can allocate, `make` fails. -/
theorem parseArgsWithMake_too_long (maxLen : Nat) (line : String) (n : Int)
    (hn : (maxLen : Int) < n) : parseArgsWithMake maxLen line n = .error .makeSliceLen := by
  unfold parseArgsWithMake
  have h0 : ¬ n ≤ 0 := by omega
  have h1 : ¬ (0 ≤ n ∧ n ≤ (maxLen : Int)) := by omega
  simp [h0, makeStrings, h1, bind, Except.bind]

/-- C2, amended: for every line and every integer `n` that is not more than the number of
strings the runtime can allocate, `parseArgs` returns a sequence whose length is `n` when
`n > 0` and which is empty when `n ≤ 0`. -/
theorem parseArgsWithMake_length (maxLen : Nat) (line : String) (n : Int)
    (hn : n ≤ (maxLen : Int)) :
    ∃ toks, parseArgsWithMake maxLen line n = .ok toks ∧ (toks.length : Int) = max n 0 ∧
      (toks = [] ↔ n ≤ 0) := by
  rw [parseArgsWithMake_eq maxLen line n hn]
  exact parseArgs_ok_length line n

/-- Witness for C2, amended: three tokens of the line `a b` on linux/amd64. -/
theorem parseArgsWithMake_length_witness :
    ∃ toks, parseArgsWithMake maxStringsAmd64 "a b" 3 = .ok toks ∧
      (toks.length : Int) = max 3 0 ∧ (toks = [] ↔ (3 : Int) ≤ 0) :=
  parseArgsWithMake_length maxStringsAmd64 "a b" 3 (by decide)

/-- Counterexample to C2 as stated: for `n = 1 << 62` the allocation `make([]string, n)`
fails on linux/amd64, so `parseArgs` returns no sequence of `n` strings. -/
theorem parseArgs_count_beyond_make :
    parseArgsWithMake maxStringsAmd64 "a" (2 ^ 62) = .error .makeSliceLen ∧
    ¬ ∃ toks, parseArgsWithMake maxStringsAmd64 "a" (2 ^ 62) = .ok toks ∧
      (toks.length : Int) = 2 ^ 62 := by
  have h := parseArgsWithMake_too_long maxStringsAmd64 "a" (2 ^ 62) (by decide)
  refine ⟨h, ?_⟩
  rintro ⟨toks, ht, _⟩
  rw [h] at ht
  cases ht

/-- C3, amended: the only way in which `parseArgs` can fail is the allocation
`make([]string, n)` for an `n` beyond what the runtime can allocate.  Every index expression,
slice expression and assignment to `args[a]` of the model is guarded by the bounds check of
the Go runtime and the loop carries an iteration budget; for every line and every integer `n`
no bounds check fails (the assignment after the `break` included) and the budget suffices, and
for every `n` that the runtime can allocate the result is a value. -/
theorem parseArgsWithMake_faults (maxLen : Nat) (line : String) (n : Int) :
    (∀ f, parseArgsWithMake maxLen line n = .error f →
      f = .makeSliceLen ∧ (maxLen : Int) < n) ∧
    (n ≤ (maxLen : Int) → ∃ toks, parseArgsWithMake maxLen line n = .ok toks) := by
  constructor
  · intro f hf
    by_cases hn : n ≤ (maxLen : Int)
    · rw [parseArgsWithMake_eq maxLen line n hn] at hf
      obtain ⟨toks, h⟩ := parseArgs_ok line n
      rw [h] at hf
      cases hf
    · have hlt : (maxLen : Int) < n := by omega
      rw [parseArgsWithMake_too_long maxLen line n hlt] at hf
      cases hf
      exact ⟨rfl, hlt⟩
  · intro hn
    rw [parseArgsWithMake_eq maxLen line n hn]
    exact parseArgs_ok line n

/-- Counterexample to C3 as stated: `parseArgs` is not total, for the largest `int` the
allocation `make([]string, n)` fails on linux/amd64 and no value is returned. -/
theorem parseArgs_make_panics :
    parseArgsWithMake maxStringsAmd64 "" (2 ^ 63 - 1) = .error .makeSliceLen ∧
    ∀ toks, parseArgsWithMake maxStringsAmd64 "" (2 ^ 63 - 1) ≠ .ok toks := by
  have h := parseArgsWithMake_too_long maxStringsAmd64 "" (2 ^ 63 - 1) (by decide)
  refine ⟨h, ?_⟩
  intro toks ht
  rw [h] at ht
  cases ht


theorem strAt_zero (x : String) (xs : List String) : strAt (x :: xs) 0 = .ok x := rfl

theorem strAt_one (x y : String) (xs : List String) : strAt (x :: y :: xs) 1 = .ok y := rfl

theorem strSliceFrom_one (x : String) (xs : List String) :
    strSliceFrom (x :: xs) 1 = .ok xs := by
  simp [strSliceFrom]

/-! ## Tokens of lines of a given shape -/

theorem wordStartsAux_false_word (w rest : List Char) (hw : ∀ x ∈ w, unicodeIsSpace x = false) :
    wordStartsAux false (w ++ rest) = wordStartsAux false rest := by
  induction w with
  | nil => rfl
  | cons x xs ih =>
    have hx : unicodeIsSpace x = false := hw x (by simp)
    simp [wordStartsAux, hx, ih (fun y hy => hw y (by simp [hy]))]

theorem wordStartsAux_true_word (x : Char) (w rest : List Char)
    (hx : unicodeIsSpace x = false) (hw : ∀ y ∈ w, unicodeIsSpace y = false) :
    wordStartsAux true (x :: w ++ rest) = (x :: w ++ rest) :: wordStartsAux false rest := by
  simp [wordStartsAux, hx, wordStartsAux_false_word w rest hw]

theorem wordStartsAux_space (b : Bool) (c : Char) (cs : List Char)
    (hc : unicodeIsSpace c = true) : wordStartsAux b (c :: cs) = wordStartsAux true cs := by
  simp [wordStartsAux, hc]

theorem leadingWord_cons_append_space (x : Char) (w : List Char) (c : Char) (cs : List Char)
    (hx : unicodeIsSpace x = false) (hw : ∀ y ∈ w, unicodeIsSpace y = false)
    (hc : unicodeIsSpace c = true) : leadingWord (x :: w ++ c :: cs) = x :: w := by
  have := leadingWord_append_space (x :: w) c cs (by
    intro y hy
    rcases List.mem_cons.1 hy with h | h
    · subst h; exact hx
    · exact hw y h) hc
  simpa using this

theorem wordStartsAux_nil (b : Bool) : wordStartsAux b [] = [] := rfl

theorem fillTokens_three (a b c : List Char) (rest : List (List Char)) :
    fillTokens 3 (a :: b :: c :: rest) =
      [String.mk (leadingWord a), String.mk (leadingWord b), String.mk c] := rfl

theorem fillTokens_three_two (a b : List Char) :
    fillTokens 3 [a, b] = [String.mk (leadingWord a), String.mk (leadingWord b), ""] := rfl

theorem fillTokens_three_one (a : List Char) :
    fillTokens 3 [a] = [String.mk (leadingWord a), "", ""] := rfl

theorem no_space_cons (x : Char) (w : List Char) (hx : unicodeIsSpace x = false)
    (hw : ∀ y ∈ w, unicodeIsSpace y = false) : ∀ y ∈ x :: w, unicodeIsSpace y = false := by
  intro y hy
  rcases List.mem_cons.1 hy with h | h
  · subst h; exact hx
  · exact hw y h

/-- The three tokens of a one-word line. -/
theorem expectedTokens_one_word (x : Char) (w : List Char)
    (hx : unicodeIsSpace x = false) (hw : ∀ y ∈ w, unicodeIsSpace y = false) :
    expectedTokens (x :: w) 3 = [String.mk (x :: w), "", ""] := by
  have h := wordStartsAux_true_word x w [] hx hw
  simp only [List.append_nil] at h
  have hl : leadingWord (x :: w) = x :: w :=
    leadingWord_of_no_space (x :: w) (no_space_cons x w hx hw)
  rw [← fillTokens_wordSuffixes, wordSuffixes, h, wordStartsAux_nil, fillTokens_three_one, hl]

/-- The three tokens of a line made of a word, one whitespace character and a second word
that may be empty. -/
theorem expectedTokens_two_words (x : Char) (w : List Char) (c : Char) (w1 : List Char)
    (hx : unicodeIsSpace x = false) (hw : ∀ y ∈ w, unicodeIsSpace y = false)
    (hc : unicodeIsSpace c = true) (hw1 : ∀ y ∈ w1, unicodeIsSpace y = false) :
    expectedTokens (x :: w ++ c :: w1) 3 = [String.mk (x :: w), String.mk w1, ""] := by
  have h := wordStartsAux_true_word x w (c :: w1) hx hw
  have h0 := leadingWord_cons_append_space x w c w1 hx hw hc
  rw [← fillTokens_wordSuffixes, wordSuffixes, h, wordStartsAux_space false c w1 hc]
  cases w1 with
  | nil => rw [wordStartsAux_nil, fillTokens_three_one, h0]
  | cons y ys =>
    have hy : unicodeIsSpace y = false := hw1 y (by simp)
    have hys : ∀ z ∈ ys, unicodeIsSpace z = false := fun z hz => hw1 z (by simp [hz])
    have h1 := wordStartsAux_true_word y ys [] hy hys
    have h2 : leadingWord (y :: ys) = y :: ys := leadingWord_of_no_space (y :: ys) hw1
    simp only [List.append_nil] at h1
    rw [h1, wordStartsAux_nil, fillTokens_three_two, h0, h2]

/-- The three tokens of a line made of two words and a rest that does not start with
whitespace, separated by single whitespace characters. -/
theorem expectedTokens_three_words (x : Char) (w : List Char) (c : Char) (y : Char)
    (w1 : List Char) (d : Char) (z : Char) (w2 : List Char)
    (hx : unicodeIsSpace x = false) (hw : ∀ v ∈ w, unicodeIsSpace v = false)
    (hc : unicodeIsSpace c = true)
    (hy : unicodeIsSpace y = false) (hw1 : ∀ v ∈ w1, unicodeIsSpace v = false)
    (hd : unicodeIsSpace d = true) (hz : unicodeIsSpace z = false) :
    expectedTokens (x :: w ++ c :: (y :: w1 ++ d :: z :: w2)) 3 =
      [String.mk (x :: w), String.mk (y :: w1), String.mk (z :: w2)] := by
  have h := wordStartsAux_true_word x w (c :: (y :: w1 ++ d :: z :: w2)) hx hw
  have h0 := leadingWord_cons_append_space x w c (y :: w1 ++ d :: z :: w2) hx hw hc
  have h1 := wordStartsAux_true_word y w1 (d :: z :: w2) hy hw1
  have h2 := leadingWord_cons_append_space y w1 d (z :: w2) hy hw1 hd
  have h3 : wordStartsAux true (z :: w2) = (z :: w2) :: wordStartsAux false w2 := by
    simp [wordStartsAux, hz]
  rw [← fillTokens_wordSuffixes, wordSuffixes, h, wordStartsAux_space false c _ hc, h1,
    wordStartsAux_space false d _ hd, h3, fillTokens_three, h0, h2]

/-- The runs of a line, by cases on how the line is built: whitespace in front of the line is
skipped, and a non-empty stretch of non-whitespace characters that ends at the end of the line
or in front of a whitespace character is one run. -/
theorem wordRuns_equations :
    wordRuns [] = [] ∧
    (∀ (c : Char) (rest : List Char), unicodeIsSpace c = true →
      wordRuns (c :: rest) = wordRuns rest) ∧
    (∀ (x : Char) (w : List Char), unicodeIsSpace x = false →
      (∀ y ∈ w, unicodeIsSpace y = false) → wordRuns (x :: w) = [x :: w]) ∧
    (∀ (x : Char) (w : List Char) (c : Char) (rest : List Char), unicodeIsSpace x = false →
      (∀ y ∈ w, unicodeIsSpace y = false) → unicodeIsSpace c = true →
      wordRuns (x :: w ++ c :: rest) = (x :: w) :: wordRuns rest) := by
  refine ⟨rfl, ?_, ?_, ?_⟩
  · intro c rest hc
    simp only [wordRuns, wordSuffixes, wordStartsAux_space true c rest hc]
  · intro x w hx hw
    have h := wordStartsAux_true_word x w [] hx hw
    simp only [List.append_nil] at h
    simp only [wordRuns, wordSuffixes, h, wordStartsAux_nil, List.map_cons, List.map_nil,
      leadingWord_of_no_space (x :: w) (no_space_cons x w hx hw)]
  · intro x w c rest hx hw hc
    simp only [wordRuns, wordSuffixes, wordStartsAux_true_word x w (c :: rest) hx hw,
      wordStartsAux_space false c rest hc, List.map_cons,
      leadingWord_cons_append_space x w c rest hx hw hc]

/-- The call `parseArgs(str, 3)` of `executeCommand`. -/
theorem parseArgs_three_eq (str : String) :
    parseArgs str 3 = .ok (expectedTokens str.data 3) := by
  have := parseArgs_eq str 3 (by decide)
  simpa using this

/-- Every line has three tokens. -/
theorem parseArgs_three (str : String) :
    ∃ a0 a1 a2, parseArgs str 3 = .ok [a0, a1, a2] := by
  refine ⟨expectedToken str.data 3 0, expectedToken str.data 3 1, expectedToken str.data 3 2, ?_⟩
  have := parseArgs_eq str 3 (by decide)
  simpa [expectedTokens, List.range_succ] using this

/-! ## Decimal numerals -/

theorem digit_not_space (c : Char) (h : '0'.toNat ≤ c.toNat ∧ c.toNat ≤ '9'.toNat) :
    unicodeIsSpace c = false := by
  have h0 : '0'.toNat = 48 := rfl
  have h9 : '9'.toNat = 57 := rfl
  rw [h0, h9] at h
  simp only [unicodeIsSpace, Bool.or_eq_false_iff, Bool.and_eq_false_iff, decide_eq_false_iff_not,
    beq_eq_false_iff_ne, ne_eq]
  omega

theorem parseUintLoop_digits (s0 : String) (m : Nat) (l : List Char) (acc v : Nat)
    (h : parseUintLoop s0 m l acc = .ok v) :
    ∀ c ∈ l, '0'.toNat ≤ c.toNat ∧ c.toNat ≤ '9'.toNat := by
  induction l generalizing acc with
  | nil => simp
  | cons c cs ih =>
    rw [parseUintLoop] at h
    by_cases hd : '0'.toNat ≤ c.toNat ∧ c.toNat ≤ '9'.toNat
    · rw [if_pos hd] at h
      intro x hx
      rcases List.mem_cons.1 hx with hx | hx
      · subst hx; exact hd
      · simp only at h
        split at h
        · cases h
        · split at h
          · cases h
          · exact ih _ h x hx
    · rw [if_neg hd] at h
      cases h

theorem parseUintLoop_le (s0 : String) (m : Nat) (l : List Char) (acc v : Nat)
    (hacc : acc ≤ m) (h : parseUintLoop s0 m l acc = .ok v) : v ≤ m := by
  induction l generalizing acc with
  | nil => rw [parseUintLoop] at h; cases h; exact hacc
  | cons c cs ih =>
    rw [parseUintLoop] at h
    split at h
    · simp only at h
      split at h
      · cases h
      · split at h
        · cases h
        · rename_i hn
          exact ih _ (by omega) h
    · cases h

/-- A string that `ParseUint` accepts is a non-empty string of decimal digits. -/
theorem ParseUint_ok_digits (str : String) (bitSize v : Nat) (h : ParseUint str bitSize = .ok v) :
    str.data ≠ [] ∧ ∀ c ∈ str.data, '0'.toNat ≤ c.toNat ∧ c.toNat ≤ '9'.toNat := by
  unfold ParseUint at h
  split at h
  · cases h
  · rename_i hne
    refine ⟨?_, parseUintLoop_digits _ _ _ _ _ h⟩
    intro hd
    apply hne
    cases str
    simp only at hd
    subst hd
    rfl

/-- The value that `ParseUint` returns for bit size 16 is a `uint16`. -/
theorem ParseUint_uint16 (str : String) (v : Nat) (h : ParseUint str 16 = .ok v) :
    uint16 v = v := by
  unfold ParseUint at h
  split at h
  · cases h
  · have := parseUintLoop_le _ _ _ _ _ (Nat.zero_le _) h
    unfold uint16
    omega

theorem digitChar_toNat (d : Nat) (hd : d < 10) : (Nat.digitChar d).toNat = 48 + d := by
  interval_cases d <;> rfl

theorem parseUintLoop_toDigitsCore (s0 : String) (m : Nat) (hm : m < 2 ^ 63) (fuel : Nat) :
    ∀ (n : Nat) (ds : List Char), n < fuel → n ≤ m →
      parseUintLoop s0 m (Nat.toDigitsCore 10 fuel n ds) 0 = parseUintLoop s0 m ds n := by
  induction fuel with
  | zero => intro n ds h; omega
  | succ fuel ih =>
    intro n ds hn hnm
    have hdig := digitChar_toNat (n % 10) (Nat.mod_lt _ (by decide))
    have h0 : '0'.toNat = 48 := rfl
    have h9 : '9'.toNat = 57 := rfl
    have hlt : n % 10 < 10 := Nat.mod_lt _ (by decide)
    have step : ∀ acc, acc * 10 + n % 10 = n →
        parseUintLoop s0 m (Nat.digitChar (n % 10) :: ds) acc = parseUintLoop s0 m ds n := by
      intro acc hacc
      rw [parseUintLoop]
      have c1 : '0'.toNat ≤ (Nat.digitChar (n % 10)).toNat ∧
          (Nat.digitChar (n % 10)).toNat ≤ '9'.toNat := by rw [hdig, h0, h9]; omega
      have c2 : ¬ (acc ≥ (2 ^ 64 - 1) / 10 + 1) := by
        have : (2 ^ 64 - 1) / 10 + 1 = 1844674407370955162 := by norm_num
        rw [this]
        have : (2:Nat) ^ 63 = 9223372036854775808 := by norm_num
        omega
      have e1 : (acc * 10) % 2 ^ 64 = acc * 10 := Nat.mod_eq_of_lt (by
        have : (2:Nat) ^ 63 = 9223372036854775808 := by norm_num
        have : (2:Nat) ^ 64 = 18446744073709551616 := by norm_num
        omega)
      have e2 : (acc * 10 + ((Nat.digitChar (n % 10)).toNat - '0'.toNat)) % 2 ^ 64 = n := by
        rw [hdig, h0, Nat.add_sub_cancel_left, hacc]
        exact Nat.mod_eq_of_lt (by
          have : (2:Nat) ^ 63 = 9223372036854775808 := by norm_num
          have : (2:Nat) ^ 64 = 18446744073709551616 := by norm_num
          omega)
      have c3 : ¬ (n < acc * 10 ∨ n > m) := by omega
      simp only [c1, and_self, if_true, c2, if_false, e1, e2, c3]
    rw [Nat.toDigitsCore]
    by_cases hz : n / 10 = 0
    · simp only [hz, if_true]
      exact step 0 (by omega)
    · simp only [hz, if_false]
      rw [ih (n / 10) _ (by omega) (by omega)]
      exact step (n / 10) (by omega)

/-- Parsing the decimal numeral of a `uint16` gives the number back. -/
theorem ParseUint_FormatUint (p : Nat) (hp : p < 2 ^ 16) :
    ParseUint (FormatUint p) 16 = .ok p := by
  have hne : FormatUint p ≠ "" := by
    intro h
    have hlen := congrArg String.length h
    have : 0 < (Nat.toDigits 10 p).length := by
      unfold Nat.toDigits
      rw [Nat.toDigitsCore]
      split
      · simp
      · rw [Nat.toDigitsCore_lens_eq]; omega
    simp [FormatUint, Nat.repr, String.length, List.asString] at hlen
    rw [hlen] at this
    simp at this
  have h := parseUintLoop_toDigitsCore (FormatUint p) (2 ^ 16 - 1) (by norm_num) (p + 1) p []
    (by omega) (by omega)
  unfold ParseUint
  rw [if_neg hne]
  exact h

/-! ## Lines of the form `command argument argument` -/

/-- The tokens of `w0 w1`: a word, a blank and a second word that may be empty. -/
theorem parseArgs_two_words (w0 w1 : String) (h0 : w0 ≠ "") (hn0 : NoSpace w0)
    (hn1 : NoSpace w1) : parseArgs (w0 ++ " " ++ w1) 3 = .ok [w0, w1, ""] := by
  obtain ⟨d0⟩ := w0
  obtain ⟨d1⟩ := w1
  cases d0 with
  | nil => exact absurd rfl h0
  | cons x w =>
    have hx : unicodeIsSpace x = false := hn0 x (by simp)
    have hw : ∀ y ∈ w, unicodeIsSpace y = false := fun y hy => hn0 y (by simp [hy])
    have := expectedTokens_two_words x w ' ' d1 hx hw (by decide) hn1
    rw [parseArgs_three_eq]
    have hd : (String.mk (x :: w) ++ " " ++ String.mk d1).data = x :: w ++ ' ' :: d1 := by
      simp [String.data_append]
    rw [hd, this]

/-- The tokens of `w0 w1 w2`: two words and a non-empty rest that does not start with
whitespace, separated by single blanks. -/
theorem parseArgs_three_words (w0 w1 w2 : String) (h0 : w0 ≠ "") (hn0 : NoSpace w0)
    (h1 : w1 ≠ "") (hn1 : NoSpace w1)
    (h2 : ∃ z r, w2.data = z :: r ∧ unicodeIsSpace z = false) :
    parseArgs (w0 ++ " " ++ w1 ++ " " ++ w2) 3 = .ok [w0, w1, w2] := by
  obtain ⟨d0⟩ := w0
  obtain ⟨d1⟩ := w1
  obtain ⟨d2⟩ := w2
  obtain ⟨z, r, hzr, hz⟩ := h2
  simp only at hzr
  subst hzr
  cases d0 with
  | nil => exact absurd rfl h0
  | cons x w =>
    cases d1 with
    | nil => exact absurd rfl h1
    | cons y v =>
      have hx : unicodeIsSpace x = false := hn0 x (by simp)
      have hw : ∀ c ∈ w, unicodeIsSpace c = false := fun c hc => hn0 c (by simp [hc])
      have hy : unicodeIsSpace y = false := hn1 y (by simp)
      have hv : ∀ c ∈ v, unicodeIsSpace c = false := fun c hc => hn1 c (by simp [hc])
      have := expectedTokens_three_words x w ' ' y v ' ' z r hx hw (by decide) hy hv
        (by decide) hz
      rw [parseArgs_three_eq]
      have hd : (String.mk (x :: w) ++ " " ++ String.mk (y :: v) ++ " " ++ String.mk (z :: r)).data
          = x :: w ++ ' ' :: (y :: v ++ ' ' :: z :: r) := by
        simp [String.data_append]
      rw [hd, this]

/-- A string that `ParseUint` accepts is non-empty and free of whitespace. -/
theorem ParseUint_ok_shape (str : String) (bitSize v : Nat)
    (h : ParseUint str bitSize = .ok v) :
    str ≠ "" ∧ NoSpace str ∧ ∃ z r, str.data = z :: r ∧ unicodeIsSpace z = false := by
  obtain ⟨hne, hd⟩ := ParseUint_ok_digits str bitSize v h
  have hns : NoSpace str := fun c hc => digit_not_space c (hd c hc)
  refine ⟨?_, hns, ?_⟩
  · intro h0; subst h0; exact hne rfl
  · cases hdat : str.data with
    | nil => exact absurd hdat hne
    | cons z r => exact ⟨z, r, rfl, hns z (by simp [hdat])⟩

/-- Lower-casing leaves a string of ASCII characters other than `A`-`Z` alone. -/
theorem stringsToLower_fixed (U : CaseMapping) (w : String)
    (h : ∀ c ∈ w.data, c.toNat < 128 ∧ c.toLower = c) : stringsToLower U w = w := by
  obtain ⟨d⟩ := w
  simp only [stringsToLower]
  congr 1
  simp only at h
  induction d with
  | nil => rfl
  | cons c cs ih =>
    have hc := h c (by simp)
    simp only [List.map_cons, U.toLower_ascii c hc.1, hc.2, ih (fun y hy => h y (by simp [hy]))]

theorem stringsToLower_connect (U : CaseMapping) : stringsToLower U "connect" = "connect" :=
  stringsToLower_fixed U _ (by decide)

theorem stringsToLower_disconnect (U : CaseMapping) :
    stringsToLower U "disconnect" = "disconnect" :=
  stringsToLower_fixed U _ (by decide)

theorem stringsToLower_open (U : CaseMapping) : stringsToLower U "open" = "open" :=
  stringsToLower_fixed U _ (by decide)

theorem stringsToLower_close (U : CaseMapping) : stringsToLower U "close" = "close" :=
  stringsToLower_fixed U _ (by decide)

theorem stringsToLower_tcp (U : CaseMapping) : stringsToLower U "tcp" = "tcp" :=
  stringsToLower_fixed U _ (by decide)

theorem stringsToLower_udp (U : CaseMapping) : stringsToLower U "udp" = "udp" :=
  stringsToLower_fixed U _ (by decide)

theorem stringsToLower_empty (U : CaseMapping) : stringsToLower U "" = "" := rfl

/-! ## The branches of `executeCommand` -/

/-- Outcome of a `connect` command when the Forwarder accepts the connection. -/
theorem executeCommand_connect_ok (U : CaseMapping) (fwr : Forwarder) (s : State)
    (str a0 a1 a2 listenip : String) (c : Cap)
    (hargs : parseArgs str 3 = .ok [a0, a1, a2])
    (hcmd : stringsToLower U a0 = "connect")
    (hfw : fwr.Connect (s.trace ++ [.info ("Connecting to " ++ a1)]) a1 = .ok (listenip, c)) :
    executeCommand U fwr s str = .ok
      { connections := s.connections.insert a1 c
        openTCPPorts := s.openTCPPorts
        openUDPPorts := s.openUDPPorts
        trace := s.trace ++ [.info ("Connecting to " ++ a1), .connect a1 (.ok (listenip, c)),
          .info ("Connections to " ++ a1 ++ "\x27s ports are listened on " ++ listenip)] } := by
  simp [executeCommand, hargs, bind, Except.bind, strAt_zero, strSliceFrom_one, hcmd,
    State.log, hfw]

/-- Outcome of a `connect` command when the Forwarder returns an error. -/
theorem executeCommand_connect_err (U : CaseMapping) (fwr : Forwarder) (s : State)
    (str a0 a1 a2 : String) (err : GoError)
    (hargs : parseArgs str 3 = .ok [a0, a1, a2])
    (hcmd : stringsToLower U a0 = "connect")
    (hfw : fwr.Connect (s.trace ++ [.info ("Connecting to " ++ a1)]) a1 = .error err) :
    executeCommand U fwr s str = .ok
      { s with trace := s.trace ++ [.info ("Connecting to " ++ a1), .connect a1 (.error err),
          .errorErr err] } := by
  simp [executeCommand, hargs, bind, Except.bind, strAt_zero, strSliceFrom_one, hcmd,
    State.log, hfw]

/-- Outcome of a `disconnect` command for an id without an entry. -/
theorem executeCommand_disconnect_miss (U : CaseMapping) (fwr : Forwarder) (s : State)
    (str a0 a1 a2 : String)
    (hargs : parseArgs str 3 = .ok [a0, a1, a2])
    (hcmd : stringsToLower U a0 = "disconnect")
    (hlk : s.connections.lookup a1 = none) :
    executeCommand U fwr s str = .ok
      { s with trace := s.trace ++ [.error "You are not connected to specified id"] } := by
  simp [executeCommand, hargs, bind, Except.bind, strAt_zero, strSliceFrom_one, hcmd,
    State.log, hlk]

/-- Outcome of a `disconnect` command for an id with an entry. -/
theorem executeCommand_disconnect_hit (U : CaseMapping) (fwr : Forwarder) (s : State)
    (str a0 a1 a2 : String) (c : Cap)
    (hargs : parseArgs str 3 = .ok [a0, a1, a2])
    (hcmd : stringsToLower U a0 = "disconnect")
    (hlk : s.connections.lookup a1 = some c) :
    executeCommand U fwr s str = .ok
      { connections := s.connections.erase a1
        openTCPPorts := s.openTCPPorts
        openUDPPorts := s.openUDPPorts
        trace := s.trace ++ [.info ("Disconnecting from " ++ a1), .invoke c] } := by
  simp [executeCommand, hargs, bind, Except.bind, strAt_zero, strSliceFrom_one, hcmd,
    State.log, hlk]

/-- Outcome of an `open` command whose port does not parse. -/
theorem executeCommand_open_parse_err (U : CaseMapping) (fwr : Forwarder) (s : State)
    (str a0 a1 a2 : String) (err : GoError)
    (hargs : parseArgs str 3 = .ok [a0, a1, a2])
    (hcmd : stringsToLower U a0 = "open")
    (hp : ParseUint a2 16 = .error err) :
    executeCommand U fwr s str = .ok { s with trace := s.trace ++ [.errorErr err] } := by
  simp [executeCommand, hargs, bind, Except.bind, strAt_zero, strAt_one, strSliceFrom_one, hcmd,
    State.log, hp]

/-- Outcome of an `open` command when the Forwarder returns an error. -/
theorem executeCommand_open_err (U : CaseMapping) (fwr : Forwarder) (s : State)
    (str a0 a1 a2 : String) (p : Nat) (err : GoError)
    (hargs : parseArgs str 3 = .ok [a0, a1, a2])
    (hcmd : stringsToLower U a0 = "open")
    (hp : ParseUint a2 16 = .ok p)
    (hfw : fwr.OpenPort (s.trace ++ [.info ("Opening " ++ stringsToLower U a1 ++ ":" ++ a2)])
      (stringsToLower U a1) (uint16 p) = .error err) :
    executeCommand U fwr s str = .ok
      { s with trace := s.trace ++ [.info ("Opening " ++ stringsToLower U a1 ++ ":" ++ a2),
          .openPort (stringsToLower U a1) (uint16 p) (.error err), .errorErr err] } := by
  simp only [executeCommand, hargs, bind, Except.bind, strAt_zero, strAt_one, strSliceFrom_one,
    hcmd, State.log, hp, hfw]
  simp

/-- Outcome of an `open` command when the Forwarder opens the port. -/
theorem executeCommand_open_ok (U : CaseMapping) (fwr : Forwarder) (s : State)
    (str a0 a1 a2 : String) (p : Nat) (c : Cap)
    (hargs : parseArgs str 3 = .ok [a0, a1, a2])
    (hcmd : stringsToLower U a0 = "open")
    (hp : ParseUint a2 16 = .ok p)
    (hfw : fwr.OpenPort (s.trace ++ [.info ("Opening " ++ stringsToLower U a1 ++ ":" ++ a2)])
      (stringsToLower U a1) (uint16 p) = .ok c) :
    executeCommand U fwr s str = .ok
      { connections := s.connections
        openTCPPorts :=
          if stringsToLower U a1 = "tcp" then s.openTCPPorts.insert (uint16 p) c
          else s.openTCPPorts
        openUDPPorts :=
          if stringsToLower U a1 = "tcp" then s.openUDPPorts
          else if stringsToLower U a1 = "udp" then s.openUDPPorts.insert (uint16 p) c
          else s.openUDPPorts
        trace := s.trace ++ [.info ("Opening " ++ stringsToLower U a1 ++ ":" ++ a2),
          .openPort (stringsToLower U a1) (uint16 p) (.ok c)] } := by
  simp only [executeCommand, hargs, bind, Except.bind, strAt_zero, strAt_one, strSliceFrom_one,
    hcmd, State.log, hp, hfw]
  by_cases h1 : stringsToLower U a1 = "tcp"
  · simp [h1]
  · by_cases h2 : stringsToLower U a1 = "udp"
    · simp [h2]
    · simp [h1, h2]

/-- Outcome of a `close` command whose port does not parse. -/
theorem executeCommand_close_parse_err (U : CaseMapping) (fwr : Forwarder) (s : State)
    (str a0 a1 a2 : String) (err : GoError)
    (hargs : parseArgs str 3 = .ok [a0, a1, a2])
    (hcmd : stringsToLower U a0 = "close")
    (hp : ParseUint a2 16 = .error err) :
    executeCommand U fwr s str = .ok { s with trace := s.trace ++ [.errorErr err] } := by
  simp [executeCommand, hargs, bind, Except.bind, strAt_zero, strAt_one, strSliceFrom_one, hcmd,
    State.log, hp]

/-- Outcome of a `close` command for a port without an entry in the map it is looked up in. -/
theorem executeCommand_close_miss (U : CaseMapping) (fwr : Forwarder) (s : State)
    (str a0 a1 a2 : String) (p : Nat)
    (hargs : parseArgs str 3 = .ok [a0, a1, a2])
    (hcmd : stringsToLower U a0 = "close")
    (hp : ParseUint a2 16 = .ok p)
    (hlk : (if stringsToLower U a1 = "tcp" then s.openTCPPorts.lookup (uint16 p)
      else if stringsToLower U a1 = "udp" then s.openUDPPorts.lookup (uint16 p)
      else none) = none) :
    executeCommand U fwr s str = .ok
      { s with trace := s.trace ++ [.error "Specified port is not opened"] } := by
  simp only [executeCommand, hargs, bind, Except.bind, strAt_zero, strAt_one, strSliceFrom_one,
    hcmd, hp]
  simp [hlk, State.log]

/-- Outcome of a `close` command for a port with an entry in the map it is looked up in. -/
theorem executeCommand_close_hit (U : CaseMapping) (fwr : Forwarder) (s : State)
    (str a0 a1 a2 : String) (p : Nat) (c : Cap)
    (hargs : parseArgs str 3 = .ok [a0, a1, a2])
    (hcmd : stringsToLower U a0 = "close")
    (hp : ParseUint a2 16 = .ok p)
    (hlk : (if stringsToLower U a1 = "tcp" then s.openTCPPorts.lookup (uint16 p)
      else if stringsToLower U a1 = "udp" then s.openUDPPorts.lookup (uint16 p)
      else none) = some c) :
    executeCommand U fwr s str = .ok
      { connections := s.connections
        openTCPPorts := s.openTCPPorts.erase (uint16 p)
        openUDPPorts := s.openUDPPorts
        trace := s.trace ++ [.info ("Closing " ++ stringsToLower U a1 ++ ":" ++ a2),
          .invoke c] } := by
  simp only [executeCommand, hargs, bind, Except.bind, strAt_zero, strAt_one, strSliceFrom_one,
    hcmd, hp]
  simp [hlk, State.log]

/-- Outcome of a line whose command word is none of the four commands. -/
theorem executeCommand_help (U : CaseMapping) (fwr : Forwarder) (s : State)
    (str a0 a1 a2 : String)
    (hargs : parseArgs str 3 = .ok [a0, a1, a2])
    (h1 : stringsToLower U a0 ≠ "connect") (h2 : stringsToLower U a0 ≠ "disconnect")
    (h3 : stringsToLower U a0 ≠ "open") (h4 : stringsToLower U a0 ≠ "close") :
    executeCommand U fwr s str = .ok
      { s with trace := s.trace ++ [.info "", .info "Cli commands list:",
          .info "connect [ID_HERE]", .info "disconnect [ID_HERE]",
          .info "open [TCP_OR_UDP_HERE] [PORT_NUMBER_HERE]",
          .info "close [UDP_OR_UDP_HERE] [PORT_NUMBER_HERE]", .info ""] } := by
  simp [executeCommand, hargs, bind, Except.bind, strAt_zero, strSliceFrom_one, h1, h2, h3, h4,
    State.log]

/-! ## Single commands -/

/-- C5: for a `connect` or `open` command, when the port of `open` does not parse as an
unsigned 16-bit decimal number or the Forwarder call returns an error, `executeCommand`
returns with the three maps exactly as they were and without invoking a capability; after a
parse failure no Forwarder call is made either. -/
theorem executeCommand_failure_frame (U : CaseMapping) (fwr : Forwarder) (s : State)
    (str a0 a1 a2 : String) (hargs : parseArgs str 3 = .ok [a0, a1, a2])
    (hfail :
      (stringsToLower U a0 = "connect" ∧
        ∃ err, fwr.Connect (s.trace ++ [.info ("Connecting to " ++ a1)]) a1 = .error err) ∨
      (stringsToLower U a0 = "open" ∧ ∃ err, ParseUint a2 16 = .error err) ∨
      (stringsToLower U a0 = "open" ∧ ∃ p err, ParseUint a2 16 = .ok p ∧
        fwr.OpenPort (s.trace ++ [.info ("Opening " ++ stringsToLower U a1 ++ ":" ++ a2)])
          (stringsToLower U a1) (uint16 p) = .error err)) :
    ∃ s' evs, executeCommand U fwr s str = .ok s' ∧
      s'.connections = s.connections ∧ s'.openTCPPorts = s.openTCPPorts ∧
      s'.openUDPPorts = s.openUDPPorts ∧ s'.trace = s.trace ++ evs ∧
      (∀ c, Event.invoke c ∉ evs) ∧
      ((∃ err, ParseUint a2 16 = .error err) → stringsToLower U a0 = "open" →
        (∀ nt p r, Event.openPort nt p r ∉ evs) ∧ ∀ id r, Event.connect id r ∉ evs) := by
  rcases hfail with ⟨hcmd, err, hfw⟩ | ⟨hcmd, err, hp⟩ | ⟨hcmd, p, err, hp, hfw⟩
  · refine ⟨_, _, executeCommand_connect_err U fwr s str a0 a1 a2 err hargs hcmd hfw,
      rfl, rfl, rfl, rfl, by simp, ?_⟩
    intro _ ho
    rw [hcmd] at ho
    exact absurd ho (by decide)
  · refine ⟨_, _, executeCommand_open_parse_err U fwr s str a0 a1 a2 err hargs hcmd hp,
      rfl, rfl, rfl, rfl, by simp, ?_⟩
    intro _ _
    simp
  · refine ⟨_, _, executeCommand_open_err U fwr s str a0 a1 a2 p err hargs hcmd hp hfw,
      rfl, rfl, rfl, rfl, by simp, ?_⟩
    rintro ⟨e, he⟩ _
    rw [hp] at he
    cases he

/-- Witness for C5: `open tcp 99999` with a port that is out of range. -/
theorem executeCommand_failure_frame_witness :
    ∃ s' evs, executeCommand asciiCaseMapping failingForwarder State.init "open tcp 99999"
        = .ok s' ∧
      s'.connections = State.init.connections ∧ s'.openTCPPorts = State.init.openTCPPorts ∧
      s'.openUDPPorts = State.init.openUDPPorts ∧ s'.trace = State.init.trace ++ evs ∧
      (∀ c, Event.invoke c ∉ evs) ∧
      ((∃ err, ParseUint "99999" 16 = .error err) →
        stringsToLower asciiCaseMapping "open" = "open" →
        (∀ nt p r, Event.openPort nt p r ∉ evs) ∧ ∀ id r, Event.connect id r ∉ evs) :=
  executeCommand_failure_frame asciiCaseMapping failingForwarder State.init "open tcp 99999"
    "open" "tcp" "99999" (by decide)
    (Or.inr (Or.inl ⟨by decide, .numError "ParseUint" "99999" .errRange, by decide⟩))

/-- C6: for every port `p` in `0..65535` written in decimal and a Forwarder whose `OpenPort`
call succeeds with capability `c`, `open tcp p` followed by `close tcp p` leaves the TCP map
without key `p`, and `c` is invoked exactly once over the two commands. -/
theorem open_close_tcp (U : CaseMapping) (fwr : Forwarder) (s : State) (p : Nat) (c : Cap)
    (hp : p < 2 ^ 16)
    (hfw : fwr.OpenPort (s.trace ++ [.info ("Opening tcp:" ++ FormatUint p)]) "tcp" p = .ok c) :
    ∃ s1 s2 evs, executeCommand U fwr s ("open tcp " ++ FormatUint p) = .ok s1 ∧
      executeCommand U fwr s1 ("close tcp " ++ FormatUint p) = .ok s2 ∧
      s2.openTCPPorts.lookup p = none ∧ p ∉ s2.openTCPPorts ∧
      s2.trace = s.trace ++ evs ∧ evs.count (.invoke c) = 1 := by
  have hparse := ParseUint_FormatUint p hp
  obtain ⟨hne, hns, hhd⟩ := ParseUint_ok_shape _ _ _ hparse
  have hu : uint16 p = p := ParseUint_uint16 _ _ hparse
  have hopen : parseArgs ("open tcp " ++ FormatUint p) 3 = .ok ["open", "tcp", FormatUint p] :=
    parseArgs_three_words "open" "tcp" (FormatUint p) (by decide) (by decide) (by decide)
      (by decide) hhd
  have hclose : parseArgs ("close tcp " ++ FormatUint p) 3 = .ok ["close", "tcp", FormatUint p] :=
    parseArgs_three_words "close" "tcp" (FormatUint p) (by decide) (by decide) (by decide)
      (by decide) hhd
  have e1 := executeCommand_open_ok U fwr s _ _ _ _ p c hopen (stringsToLower_open U) hparse
    (by rw [stringsToLower_tcp, hu]; exact hfw)
  rw [stringsToLower_tcp, hu] at e1
  simp only [if_true] at e1
  have e2 := executeCommand_close_hit U fwr
    { connections := s.connections, openTCPPorts := AList.insert p c s.openTCPPorts,
      openUDPPorts := s.openUDPPorts,
      trace := s.trace ++ [Event.info ("Opening " ++ "tcp" ++ ":" ++ FormatUint p),
        Event.openPort "tcp" p (Except.ok c)] }
    _ _ _ _ p c hclose (stringsToLower_close U) hparse
    (by rw [stringsToLower_tcp, hu]; simp)
  rw [stringsToLower_tcp, hu] at e2
  refine ⟨_, _, [Event.info ("Opening " ++ "tcp" ++ ":" ++ FormatUint p),
    Event.openPort "tcp" p (Except.ok c), Event.info ("Closing " ++ "tcp" ++ ":" ++ FormatUint p),
    Event.invoke c], e1, e2, ?_, ?_, ?_, ?_⟩
  · simp
  · simp
  · simp
  · simp [List.count_cons]

/-- Witness for C6: port 8080 with a Forwarder that always succeeds. -/
theorem open_close_tcp_witness :
    ∃ s1 s2 evs,
      executeCommand asciiCaseMapping okForwarder State.init ("open tcp " ++ FormatUint 8080)
        = .ok s1 ∧
      executeCommand asciiCaseMapping okForwarder s1 ("close tcp " ++ FormatUint 8080)
        = .ok s2 ∧
      s2.openTCPPorts.lookup 8080 = none ∧ 8080 ∉ s2.openTCPPorts ∧
      s2.trace = State.init.trace ++ evs ∧ evs.count (.invoke ⟨1⟩) = 1 :=
  open_close_tcp asciiCaseMapping okForwarder State.init 8080 ⟨1⟩ (by decide) (by decide)

/-- C10: for a peer id that is one whitespace-free token and a Forwarder whose `Connect(id)`
succeeds with `(listenAddr, c)`, the command `connect id` maps `id` to `c` in the connections
map and changes no other entry of it, leaves the TCP and UDP maps as they were, and emits an
informational line that contains `listenAddr`. -/
theorem connect_registers (U : CaseMapping) (fwr : Forwarder) (s : State)
    (id listenAddr : String) (c : Cap) (hid : id ≠ "") (hns : NoSpace id)
    (hfw : fwr.Connect (s.trace ++ [.info ("Connecting to " ++ id)]) id = .ok (listenAddr, c)) :
    ∃ s' evs msg, executeCommand U fwr s ("connect " ++ id) = .ok s' ∧
      s'.connections = s.connections.insert id c ∧
      (∀ k, s'.connections.lookup k = if k = id then some c else s.connections.lookup k) ∧
      s'.openTCPPorts = s.openTCPPorts ∧ s'.openUDPPorts = s.openUDPPorts ∧
      s'.trace = s.trace ++ evs ∧ Event.info msg ∈ evs ∧ listenAddr.data <:+: msg.data := by
  have hline : parseArgs ("connect " ++ id) 3 = .ok ["connect", id, ""] :=
    parseArgs_two_words "connect" id (by decide) (by decide) hns
  refine ⟨_, _, "Connections to " ++ id ++ "\x27s ports are listened on " ++ listenAddr,
    executeCommand_connect_ok U fwr s _ _ _ _ listenAddr c hline
    (stringsToLower_connect U) hfw, rfl, ?_, rfl, rfl, rfl, ?_, ?_⟩
  · intro k
    by_cases hk : k = id
    · subst hk; simp
    · simp [hk]
  · exact List.mem_cons_of_mem _ (List.mem_cons_of_mem _ (List.mem_singleton_self _))
  · simp only [String.data_append]
    exact List.IsSuffix.isInfix (List.suffix_append _ _)

/-- Witness for C10: the peer id `peerX` with a Forwarder that always succeeds. -/
theorem connect_registers_witness :
    ∃ s' evs msg,
      executeCommand asciiCaseMapping okForwarder State.init ("connect " ++ "peerX") = .ok s' ∧
      s'.connections = State.init.connections.insert "peerX" ⟨1⟩ ∧
      (∀ k, s'.connections.lookup k =
        if k = "peerX" then some ⟨1⟩ else State.init.connections.lookup k) ∧
      s'.openTCPPorts = State.init.openTCPPorts ∧ s'.openUDPPorts = State.init.openUDPPorts ∧
      s'.trace = State.init.trace ++ evs ∧ Event.info msg ∈ evs ∧
      "127.0.0.2".data <:+: msg.data :=
  connect_registers asciiCaseMapping okForwarder State.init "peerX" "127.0.0.2" ⟨1⟩
    (by decide) (by decide) (by decide)


/-! ## Startup -/

theorem openTCPStep_ok (fwr : Forwarder) (s : State) (port : Nat) (c : Cap)
    (h : fwr.OpenPort (s.trace ++ [.info ("Opening tcp:" ++ FormatUint port)]) "tcp" port
      = .ok c) :
    openTCPStep fwr s port =
      { connections := s.connections
        openTCPPorts := s.openTCPPorts.insert port c
        openUDPPorts := s.openUDPPorts
        trace := s.trace ++ [.info ("Opening tcp:" ++ FormatUint port),
          .openPort "tcp" port (.ok c)] } := by
  simp only [openTCPStep, State.log, h]
  simp

theorem openTCPStep_err (fwr : Forwarder) (s : State) (port : Nat) (err : GoError)
    (h : fwr.OpenPort (s.trace ++ [.info ("Opening tcp:" ++ FormatUint port)]) "tcp" port
      = .error err) :
    openTCPStep fwr s port =
      { s with trace := s.trace ++ [.info ("Opening tcp:" ++ FormatUint port),
          .openPort "tcp" port (.error err), .errorErr err] } := by
  simp only [openTCPStep, State.log, h]
  simp

/-- What one iteration of the TCP startup loop does. -/
theorem openTCPStep_spec (fwr : Forwarder) (s : State) (port : Nat) :
    ∃ evs r, (openTCPStep fwr s port).trace = s.trace ++ evs ∧
      (openTCPStep fwr s port).connections = s.connections ∧
      (openTCPStep fwr s port).openUDPPorts = s.openUDPPorts ∧
      Event.openPort "tcp" port r ∈ evs ∧
      (∀ nt p r', Event.openPort nt p r' ∈ evs → nt = "tcp" ∧ p = port ∧ r' = r) ∧
      (∀ id r', Event.connect id r' ∉ evs) ∧ (∀ c, Event.invoke c ∉ evs) ∧
      (∀ p, p ∈ (openTCPStep fwr s port).openTCPPorts ↔
        p ∈ s.openTCPPorts ∨ (p = port ∧ ∃ c, r = .ok c)) := by
  cases h : fwr.OpenPort (s.trace ++ [.info ("Opening tcp:" ++ FormatUint port)]) "tcp" port
    with
  | error err =>
    rw [openTCPStep_err fwr s port err h]
    refine ⟨[.info ("Opening tcp:" ++ FormatUint port), .openPort "tcp" port (.error err),
      .errorErr err], .error err, rfl, rfl, rfl, by simp, ?_, by simp, by simp, ?_⟩
    · intro nt p r' hm
      simp at hm
      exact ⟨hm.1, hm.2.1, hm.2.2⟩
    · intro p
      simp
  | ok c =>
    rw [openTCPStep_ok fwr s port c h]
    refine ⟨[.info ("Opening tcp:" ++ FormatUint port), .openPort "tcp" port (.ok c)],
      .ok c, rfl, rfl, rfl, by simp, ?_, by simp, by simp, ?_⟩
    · intro nt p r' hm
      simp at hm
      exact ⟨hm.1, hm.2.1, hm.2.2⟩
    · intro p
      simp only [AList.mem_insert]
      constructor
      · rintro (h | h)
        · exact Or.inr ⟨h, c, rfl⟩
        · exact Or.inl h
      · rintro (h | ⟨h, _⟩)
        · exact Or.inr h
        · exact Or.inl h

/-- What the TCP startup loop does. -/
theorem openTCP_fold_spec (fwr : Forwarder) (ports : List Nat) :
    ∀ s : State, ∃ evs, (ports.foldl (openTCPStep fwr) s).trace = s.trace ++ evs ∧
      (ports.foldl (openTCPStep fwr) s).connections = s.connections ∧
      (ports.foldl (openTCPStep fwr) s).openUDPPorts = s.openUDPPorts ∧
      (∀ p ∈ ports, ∃ r, Event.openPort "tcp" p r ∈ evs) ∧
      (∀ nt p r, Event.openPort nt p r ∈ evs → nt = "tcp" ∧ p ∈ ports) ∧
      (∀ id r, Event.connect id r ∉ evs) ∧ (∀ c, Event.invoke c ∉ evs) ∧
      (∀ p, p ∈ (ports.foldl (openTCPStep fwr) s).openTCPPorts ↔
        p ∈ s.openTCPPorts ∨ ∃ c, Event.openPort "tcp" p (.ok c) ∈ evs) := by
  induction ports with
  | nil =>
    intro s
    exact ⟨[], by simp, rfl, rfl, by simp, by simp, by simp, by simp, by simp⟩
  | cons q qs ih =>
    intro s
    obtain ⟨e1, r, ht1, hc1, hu1, hin1, hop1, hco1, hiv1, hk1⟩ := openTCPStep_spec fwr s q
    obtain ⟨e2, ht2, hc2, hu2, hall2, hop2, hco2, hiv2, hk2⟩ := ih (openTCPStep fwr s q)
    refine ⟨e1 ++ e2, ?_, ?_, ?_, ?_, ?_, ?_, ?_, ?_⟩
    · rw [List.foldl_cons, ht2, ht1, List.append_assoc]
    · rw [List.foldl_cons, hc2, hc1]
    · rw [List.foldl_cons, hu2, hu1]
    · intro p hp
      rcases List.mem_cons.1 hp with h | h
      · subst h; exact ⟨r, List.mem_append_left _ hin1⟩
      · obtain ⟨r', hr'⟩ := hall2 p h
        exact ⟨r', List.mem_append_right _ hr'⟩
    · intro nt p r' hm
      rcases List.mem_append.1 hm with h | h
      · obtain ⟨a, b, _⟩ := hop1 nt p r' h
        exact ⟨a, by simp [b]⟩
      · obtain ⟨a, b⟩ := hop2 nt p r' h
        exact ⟨a, List.mem_cons_of_mem _ b⟩
    · intro id r' hm
      rcases List.mem_append.1 hm with h | h
      · exact hco1 id r' h
      · exact hco2 id r' h
    · intro c hm
      rcases List.mem_append.1 hm with h | h
      · exact hiv1 c h
      · exact hiv2 c h
    · intro p
      rw [List.foldl_cons, hk2 p, hk1 p]
      constructor
      · rintro ((h | ⟨hp, c, hc⟩) | ⟨c, hc⟩)
        · exact Or.inl h
        · subst hp; subst hc; exact Or.inr ⟨c, List.mem_append_left _ hin1⟩
        · exact Or.inr ⟨c, List.mem_append_right _ hc⟩
      · rintro (h | ⟨c, hc⟩)
        · exact Or.inl (Or.inl h)
        · rcases List.mem_append.1 hc with h | h
          · obtain ⟨_, b, d⟩ := hop1 _ _ _ h
            exact Or.inl (Or.inr ⟨b, c, d.symm⟩)
          · exact Or.inr ⟨c, h⟩

theorem openUDPStep_ok (fwr : Forwarder) (s : State) (port : Nat) (c : Cap)
    (h : fwr.OpenPort (s.trace ++ [.info ("Opening udp: " ++ FormatUint port)]) "udp" port
      = .ok c) :
    openUDPStep fwr s port =
      { connections := s.connections
        openUDPPorts := s.openUDPPorts.insert port c
        openTCPPorts := s.openTCPPorts
        trace := s.trace ++ [.info ("Opening udp: " ++ FormatUint port),
          .openPort "udp" port (.ok c)] } := by
  simp only [openUDPStep, State.log, h]
  simp

theorem openUDPStep_err (fwr : Forwarder) (s : State) (port : Nat) (err : GoError)
    (h : fwr.OpenPort (s.trace ++ [.info ("Opening udp: " ++ FormatUint port)]) "udp" port
      = .error err) :
    openUDPStep fwr s port =
      { s with trace := s.trace ++ [.info ("Opening udp: " ++ FormatUint port),
          .openPort "udp" port (.error err), .errorErr err] } := by
  simp only [openUDPStep, State.log, h]
  simp

/-- What one iteration of the UDP startup loop does. -/
theorem openUDPStep_spec (fwr : Forwarder) (s : State) (port : Nat) :
    ∃ evs r, (openUDPStep fwr s port).trace = s.trace ++ evs ∧
      (openUDPStep fwr s port).connections = s.connections ∧
      (openUDPStep fwr s port).openTCPPorts = s.openTCPPorts ∧
      Event.openPort "udp" port r ∈ evs ∧
      (∀ nt p r', Event.openPort nt p r' ∈ evs → nt = "udp" ∧ p = port ∧ r' = r) ∧
      (∀ id r', Event.connect id r' ∉ evs) ∧ (∀ c, Event.invoke c ∉ evs) ∧
      (∀ p, p ∈ (openUDPStep fwr s port).openUDPPorts ↔
        p ∈ s.openUDPPorts ∨ (p = port ∧ ∃ c, r = .ok c)) := by
  cases h : fwr.OpenPort (s.trace ++ [.info ("Opening udp: " ++ FormatUint port)]) "udp" port
    with
  | error err =>
    rw [openUDPStep_err fwr s port err h]
    refine ⟨[.info ("Opening udp: " ++ FormatUint port), .openPort "udp" port (.error err),
      .errorErr err], .error err, rfl, rfl, rfl, by simp, ?_, by simp, by simp, ?_⟩
    · intro nt p r' hm
      simp at hm
      exact ⟨hm.1, hm.2.1, hm.2.2⟩
    · intro p
      simp
  | ok c =>
    rw [openUDPStep_ok fwr s port c h]
    refine ⟨[.info ("Opening udp: " ++ FormatUint port), .openPort "udp" port (.ok c)],
      .ok c, rfl, rfl, rfl, by simp, ?_, by simp, by simp, ?_⟩
    · intro nt p r' hm
      simp at hm
      exact ⟨hm.1, hm.2.1, hm.2.2⟩
    · intro p
      simp only [AList.mem_insert]
      constructor
      · rintro (h | h)
        · exact Or.inr ⟨h, c, rfl⟩
        · exact Or.inl h
      · rintro (h | ⟨h, _⟩)
        · exact Or.inr h
        · exact Or.inl h

/-- What the UDP startup loop does. -/
theorem openUDP_fold_spec (fwr : Forwarder) (ports : List Nat) :
    ∀ s : State, ∃ evs, (ports.foldl (openUDPStep fwr) s).trace = s.trace ++ evs ∧
      (ports.foldl (openUDPStep fwr) s).connections = s.connections ∧
      (ports.foldl (openUDPStep fwr) s).openTCPPorts = s.openTCPPorts ∧
      (∀ p ∈ ports, ∃ r, Event.openPort "udp" p r ∈ evs) ∧
      (∀ nt p r, Event.openPort nt p r ∈ evs → nt = "udp" ∧ p ∈ ports) ∧
      (∀ id r, Event.connect id r ∉ evs) ∧ (∀ c, Event.invoke c ∉ evs) ∧
      (∀ p, p ∈ (ports.foldl (openUDPStep fwr) s).openUDPPorts ↔
        p ∈ s.openUDPPorts ∨ ∃ c, Event.openPort "udp" p (.ok c) ∈ evs) := by
  induction ports with
  | nil =>
    intro s
    exact ⟨[], by simp, rfl, rfl, by simp, by simp, by simp, by simp, by simp⟩
  | cons q qs ih =>
    intro s
    obtain ⟨e1, r, ht1, hc1, hu1, hin1, hop1, hco1, hiv1, hk1⟩ := openUDPStep_spec fwr s q
    obtain ⟨e2, ht2, hc2, hu2, hall2, hop2, hco2, hiv2, hk2⟩ := ih (openUDPStep fwr s q)
    refine ⟨e1 ++ e2, ?_, ?_, ?_, ?_, ?_, ?_, ?_, ?_⟩
    · rw [List.foldl_cons, ht2, ht1, List.append_assoc]
    · rw [List.foldl_cons, hc2, hc1]
    · rw [List.foldl_cons, hu2, hu1]
    · intro p hp
      rcases List.mem_cons.1 hp with h | h
      · subst h; exact ⟨r, List.mem_append_left _ hin1⟩
      · obtain ⟨r', hr'⟩ := hall2 p h
        exact ⟨r', List.mem_append_right _ hr'⟩
    · intro nt p r' hm
      rcases List.mem_append.1 hm with h | h
      · obtain ⟨a, b, _⟩ := hop1 nt p r' h
        exact ⟨a, by simp [b]⟩
      · obtain ⟨a, b⟩ := hop2 nt p r' h
        exact ⟨a, List.mem_cons_of_mem _ b⟩
    · intro id r' hm
      rcases List.mem_append.1 hm with h | h
      · exact hco1 id r' h
      · exact hco2 id r' h
    · intro c hm
      rcases List.mem_append.1 hm with h | h
      · exact hiv1 c h
      · exact hiv2 c h
    · intro p
      rw [List.foldl_cons, hk2 p, hk1 p]
      constructor
      · rintro ((h | ⟨hp, c, hc⟩) | ⟨c, hc⟩)
        · exact Or.inl h
        · subst hp; subst hc; exact Or.inr ⟨c, List.mem_append_left _ hin1⟩
        · exact Or.inr ⟨c, List.mem_append_right _ hc⟩
      · rintro (h | ⟨c, hc⟩)
        · exact Or.inl (Or.inl h)
        · rcases List.mem_append.1 hc with h | h
          · obtain ⟨_, b, d⟩ := hop1 _ _ _ h
            exact Or.inl (Or.inr ⟨b, c, d.symm⟩)
          · exact Or.inr ⟨c, h⟩

theorem connectStep_ok (fwr : Forwarder) (s : State) (id listenip : String) (c : Cap)
    (h : fwr.Connect (s.trace ++ [.info ("Connecting to " ++ id)]) id = .ok (listenip, c)) :
    connectStep fwr s id =
      { connections := s.connections.insert id c
        openTCPPorts := s.openTCPPorts
        openUDPPorts := s.openUDPPorts
        trace := s.trace ++ [.info ("Connecting to " ++ id), .connect id (.ok (listenip, c)),
          .info ("Connections to " ++ id ++ "\x27s ports are listened on " ++ listenip)] } := by
  simp only [connectStep, State.log, h]
  simp

theorem connectStep_err (fwr : Forwarder) (s : State) (id : String) (err : GoError)
    (h : fwr.Connect (s.trace ++ [.info ("Connecting to " ++ id)]) id = .error err) :
    connectStep fwr s id =
      { s with trace := s.trace ++ [.info ("Connecting to " ++ id),
          .connect id (.error err), .errorErr err] } := by
  simp only [connectStep, State.log, h]
  simp

/-- What one iteration of the connect startup loop does. -/
theorem connectStep_spec (fwr : Forwarder) (s : State) (id : String) :
    ∃ evs r, (connectStep fwr s id).trace = s.trace ++ evs ∧
      (connectStep fwr s id).openTCPPorts = s.openTCPPorts ∧
      (connectStep fwr s id).openUDPPorts = s.openUDPPorts ∧
      Event.connect id r ∈ evs ∧
      (∀ k r', Event.connect k r' ∈ evs → k = id ∧ r' = r) ∧
      (∀ nt p r', Event.openPort nt p r' ∉ evs) ∧ (∀ c, Event.invoke c ∉ evs) ∧
      (∀ k, k ∈ (connectStep fwr s id).connections ↔
        k ∈ s.connections ∨ (k = id ∧ ∃ a c, r = .ok (a, c))) := by
  cases h : fwr.Connect (s.trace ++ [.info ("Connecting to " ++ id)]) id with
  | error err =>
    rw [connectStep_err fwr s id err h]
    refine ⟨[.info ("Connecting to " ++ id), .connect id (.error err), .errorErr err],
      .error err, rfl, rfl, rfl, by simp, ?_, by simp, by simp, ?_⟩
    · intro k r' hm
      simp at hm
      exact ⟨hm.1, hm.2⟩
    · intro k
      simp
  | ok v =>
    obtain ⟨listenip, c⟩ := v
    rw [connectStep_ok fwr s id listenip c h]
    refine ⟨[.info ("Connecting to " ++ id), .connect id (.ok (listenip, c)),
      .info ("Connections to " ++ id ++ "\x27s ports are listened on " ++ listenip)],
      .ok (listenip, c), rfl, rfl, rfl, by simp, ?_, by simp, by simp, ?_⟩
    · intro k r' hm
      simp at hm
      exact ⟨hm.1, hm.2⟩
    · intro k
      simp only [AList.mem_insert]
      constructor
      · rintro (h | h)
        · exact Or.inr ⟨h, listenip, c, rfl⟩
        · exact Or.inl h
      · rintro (h | ⟨h, _⟩)
        · exact Or.inr h
        · exact Or.inl h

/-- What the connect startup loop does. -/
theorem connect_fold_spec (fwr : Forwarder) (ids : List String) :
    ∀ s : State, ∃ evs, (ids.foldl (connectStep fwr) s).trace = s.trace ++ evs ∧
      (ids.foldl (connectStep fwr) s).openTCPPorts = s.openTCPPorts ∧
      (ids.foldl (connectStep fwr) s).openUDPPorts = s.openUDPPorts ∧
      (∀ k ∈ ids, ∃ r, Event.connect k r ∈ evs) ∧
      (∀ k r, Event.connect k r ∈ evs → k ∈ ids) ∧
      (∀ nt p r, Event.openPort nt p r ∉ evs) ∧ (∀ c, Event.invoke c ∉ evs) ∧
      (∀ k, k ∈ (ids.foldl (connectStep fwr) s).connections ↔
        k ∈ s.connections ∨ ∃ a c, Event.connect k (.ok (a, c)) ∈ evs) := by
  induction ids with
  | nil =>
    intro s
    exact ⟨[], by simp, rfl, rfl, by simp, by simp, by simp, by simp, by simp⟩
  | cons q qs ih =>
    intro s
    obtain ⟨e1, r, ht1, hc1, hu1, hin1, hop1, hco1, hiv1, hk1⟩ := connectStep_spec fwr s q
    obtain ⟨e2, ht2, hc2, hu2, hall2, hop2, hco2, hiv2, hk2⟩ := ih (connectStep fwr s q)
    refine ⟨e1 ++ e2, ?_, ?_, ?_, ?_, ?_, ?_, ?_, ?_⟩
    · rw [List.foldl_cons, ht2, ht1, List.append_assoc]
    · rw [List.foldl_cons, hc2, hc1]
    · rw [List.foldl_cons, hu2, hu1]
    · intro k hk
      rcases List.mem_cons.1 hk with h | h
      · subst h; exact ⟨r, List.mem_append_left _ hin1⟩
      · obtain ⟨r', hr'⟩ := hall2 k h
        exact ⟨r', List.mem_append_right _ hr'⟩
    · intro k r' hm
      rcases List.mem_append.1 hm with h | h
      · obtain ⟨b, _⟩ := hop1 k r' h
        simp [b]
      · exact List.mem_cons_of_mem _ (hop2 k r' h)
    · intro nt p r' hm
      rcases List.mem_append.1 hm with h | h
      · exact hco1 nt p r' h
      · exact hco2 nt p r' h
    · intro c hm
      rcases List.mem_append.1 hm with h | h
      · exact hiv1 c h
      · exact hiv2 c h
    · intro k
      rw [List.foldl_cons, hk2 k, hk1 k]
      constructor
      · rintro ((h | ⟨hp, a, c, hc⟩) | ⟨a, c, hc⟩)
        · exact Or.inl h
        · subst hp; subst hc; exact Or.inr ⟨a, c, List.mem_append_left _ hin1⟩
        · exact Or.inr ⟨a, c, List.mem_append_right _ hc⟩
      · rintro (h | ⟨a, c, hc⟩)
        · exact Or.inl (Or.inl h)
        · rcases List.mem_append.1 hc with h | h
          · obtain ⟨b, d⟩ := hop1 _ _ h
            exact Or.inl (Or.inr ⟨b, a, c, d.symm⟩)
          · exact Or.inr ⟨a, c, h⟩

theorem parseArgs_empty : parseArgs "" 3 = .ok ["", "", ""] := by decide

/-- The call `executeCommand("")` of `main` prints the help text and changes no map. -/
theorem executeCommand_empty (U : CaseMapping) (fwr : Forwarder) (s : State) :
    executeCommand U fwr s "" = .ok
      { s with trace := s.trace ++ [.info "", .info "Cli commands list:",
          .info "connect [ID_HERE]", .info "disconnect [ID_HERE]",
          .info "open [TCP_OR_UDP_HERE] [PORT_NUMBER_HERE]",
          .info "close [UDP_OR_UDP_HERE] [PORT_NUMBER_HERE]", .info ""] } :=
  executeCommand_help U fwr s "" "" "" "" parseArgs_empty
    (by rw [stringsToLower_empty]; decide) (by rw [stringsToLower_empty]; decide)
    (by rw [stringsToLower_empty]; decide) (by rw [stringsToLower_empty]; decide)

/-- The state after startup in terms of the three startup loops. -/
theorem startup_spec (fwr : Forwarder) (flags : Flags) :
    ∃ et eu ec, (startup fwr flags State.init).trace =
        [.info "Initialization...", .info ("Your id: " ++ fwr.ID)] ++ et ++ eu ++ ec ++
          [.info "Initialization completed"] ∧
      ((∀ p ∈ flags.tcpPorts, ∃ r, Event.openPort "tcp" p r ∈ et) ∧
        (∀ nt p r, Event.openPort nt p r ∈ et → nt = "tcp" ∧ p ∈ flags.tcpPorts) ∧
        (∀ id r, Event.connect id r ∉ et) ∧ (∀ c, Event.invoke c ∉ et) ∧
        (∀ p, p ∈ (startup fwr flags State.init).openTCPPorts ↔
          ∃ c, Event.openPort "tcp" p (.ok c) ∈ et)) ∧
      ((∀ p ∈ flags.udpPorts, ∃ r, Event.openPort "udp" p r ∈ eu) ∧
        (∀ nt p r, Event.openPort nt p r ∈ eu → nt = "udp" ∧ p ∈ flags.udpPorts) ∧
        (∀ id r, Event.connect id r ∉ eu) ∧ (∀ c, Event.invoke c ∉ eu) ∧
        (∀ p, p ∈ (startup fwr flags State.init).openUDPPorts ↔
          ∃ c, Event.openPort "udp" p (.ok c) ∈ eu)) ∧
      ((∀ k ∈ flags.connectIds, ∃ r, Event.connect k r ∈ ec) ∧
        (∀ k r, Event.connect k r ∈ ec → k ∈ flags.connectIds) ∧
        (∀ nt p r, Event.openPort nt p r ∉ ec) ∧ (∀ c, Event.invoke c ∉ ec) ∧
        (∀ k, k ∈ (startup fwr flags State.init).connections ↔
          ∃ a c, Event.connect k (.ok (a, c)) ∈ ec)) := by
  obtain ⟨et, ht, htc, htu, ht1, ht2, ht3, ht4, ht5⟩ := openTCP_fold_spec fwr flags.tcpPorts
    ((State.init.log (.info "Initialization...")).log (.info ("Your id: " ++ fwr.ID)))
  obtain ⟨eu, hu, huc, hut, hu1, hu2, hu3, hu4, hu5⟩ := openUDP_fold_spec fwr flags.udpPorts
    (flags.tcpPorts.foldl (openTCPStep fwr)
      ((State.init.log (.info "Initialization...")).log (.info ("Your id: " ++ fwr.ID))))
  obtain ⟨ec, hc, hct, hcu, hc1, hc2, hc3, hc4, hc5⟩ := connect_fold_spec fwr flags.connectIds
    (flags.udpPorts.foldl (openUDPStep fwr) (flags.tcpPorts.foldl (openTCPStep fwr)
      ((State.init.log (.info "Initialization...")).log (.info ("Your id: " ++ fwr.ID)))))
  refine ⟨et, eu, ec, ?_, ⟨ht1, ht2, ht3, ht4, ?_⟩, ⟨hu1, hu2, hu3, hu4, ?_⟩,
    ⟨hc1, hc2, hc3, hc4, ?_⟩⟩
  · simp only [startup, State.log] at hc hu ht ⊢
    rw [hc, hu, ht]
    simp [State.init]
  · intro p
    have : (startup fwr flags State.init).openTCPPorts = (flags.tcpPorts.foldl (openTCPStep fwr)
        ((State.init.log (.info "Initialization...")).log
          (.info ("Your id: " ++ fwr.ID)))).openTCPPorts := by
      simp only [startup, State.log] at hct hut ⊢
      rw [hct, hut]
    rw [this, ht5 p]
    simp [State.init, State.log]
  · intro p
    have : (startup fwr flags State.init).openUDPPorts = (flags.udpPorts.foldl (openUDPStep fwr)
        (flags.tcpPorts.foldl (openTCPStep fwr)
        ((State.init.log (.info "Initialization...")).log
          (.info ("Your id: " ++ fwr.ID))))).openUDPPorts := by
      simp only [startup, State.log] at hcu ⊢
      rw [hcu]
    rw [this, hu5 p, htu]
    simp [State.init, State.log]
  · intro k
    have : (startup fwr flags State.init).connections = (flags.connectIds.foldl (connectStep fwr)
        (flags.udpPorts.foldl (openUDPStep fwr) (flags.tcpPorts.foldl (openTCPStep fwr)
        ((State.init.log (.info "Initialization...")).log
          (.info ("Your id: " ++ fwr.ID)))))).connections := by
      simp only [startup, State.log]
    rw [this, hc5 k, huc, htc]
    simp [State.init, State.log]

/-- C9: starting from empty maps, after startup (and still after the help text that `main`
prints before it reads the first command) the keys of the TCP map are exactly the configured
TCP ports for which an `OpenPort` call succeeded, likewise for the UDP map, and the keys of
the connections map are exactly the configured peer ids for which a `Connect` call succeeded;
every configured port and peer is tried, whatever happened to the ones before it.  With a
Forwarder that always succeeds and `tcp=80`, `udp=53`, `connect=peerA` the keys are `80`, `53`
and `peerA`. -/
theorem startup_registry (U : CaseMapping) (fwr : Forwarder) (flags : Flags) :
    ∃ s s1, startup fwr flags State.init = s ∧ executeCommand U fwr s "" = .ok s1 ∧
      s1.connections = s.connections ∧ s1.openTCPPorts = s.openTCPPorts ∧
      s1.openUDPPorts = s.openUDPPorts ∧
      (∀ p, p ∈ s.openTCPPorts ↔
        p ∈ flags.tcpPorts ∧ ∃ c, Event.openPort "tcp" p (.ok c) ∈ s.trace) ∧
      (∀ p, p ∈ s.openUDPPorts ↔
        p ∈ flags.udpPorts ∧ ∃ c, Event.openPort "udp" p (.ok c) ∈ s.trace) ∧
      (∀ k, k ∈ s.connections ↔
        k ∈ flags.connectIds ∧ ∃ a c, Event.connect k (.ok (a, c)) ∈ s.trace) ∧
      (∀ p ∈ flags.tcpPorts, ∃ r, Event.openPort "tcp" p r ∈ s.trace) ∧
      (∀ p ∈ flags.udpPorts, ∃ r, Event.openPort "udp" p r ∈ s.trace) ∧
      (∀ k ∈ flags.connectIds, ∃ r, Event.connect k r ∈ s.trace) ∧
      (startup okForwarder ⟨["peerA"], [80], [53]⟩ State.init).openTCPPorts.keys = [80] ∧
      (startup okForwarder ⟨["peerA"], [80], [53]⟩ State.init).openUDPPorts.keys = [53] ∧
      (startup okForwarder ⟨["peerA"], [80], [53]⟩ State.init).connections.keys = ["peerA"] := by
  obtain ⟨et, eu, ec, htr, ⟨ht1, ht2, ht3, ht4, ht5⟩, ⟨hu1, hu2, hu3, hu4, hu5⟩,
    ⟨hc1, hc2, hc3, hc4, hc5⟩⟩ := startup_spec fwr flags
  refine ⟨_, _, rfl, executeCommand_empty U fwr _, rfl, rfl, rfl, ?_, ?_, ?_, ?_, ?_, ?_,
    by decide, by decide, by decide⟩
  · intro p
    rw [ht5 p, htr]
    constructor
    · rintro ⟨c, hc⟩
      exact ⟨(ht2 _ _ _ hc).2, c, by simp [hc]⟩
    · rintro ⟨_, c, hc⟩
      simp only [List.mem_append, List.mem_cons, List.mem_singleton, List.not_mem_nil,
        or_false, false_or, reduceCtorEq] at hc
      rcases hc with (hc | hc) | hc
      · exact ⟨c, hc⟩
      · exact absurd (hu2 _ _ _ hc).1 (by decide)
      · exact absurd hc (hc3 _ _ _)
  · intro p
    rw [hu5 p, htr]
    constructor
    · rintro ⟨c, hc⟩
      exact ⟨(hu2 _ _ _ hc).2, c, by simp [hc]⟩
    · rintro ⟨_, c, hc⟩
      simp only [List.mem_append, List.mem_cons, List.mem_singleton, List.not_mem_nil,
        or_false, false_or, reduceCtorEq] at hc
      rcases hc with (hc | hc) | hc
      · exact absurd (ht2 _ _ _ hc).1 (by decide)
      · exact ⟨c, hc⟩
      · exact absurd hc (hc3 _ _ _)
  · intro k
    rw [hc5 k, htr]
    constructor
    · rintro ⟨a, c, hc⟩
      exact ⟨hc2 _ _ hc, a, c, by simp [hc]⟩
    · rintro ⟨_, a, c, hc⟩
      simp only [List.mem_append, List.mem_cons, List.mem_singleton, List.not_mem_nil,
        or_false, false_or, reduceCtorEq] at hc
      rcases hc with (hc | hc) | hc
      · exact absurd hc (ht3 _ _)
      · exact absurd hc (hu3 _ _)
      · exact ⟨a, c, hc⟩
  · intro p hp
    obtain ⟨r, hr⟩ := ht1 p hp
    exact ⟨r, by rw [htr]; simp [hr]⟩
  · intro p hp
    obtain ⟨r, hr⟩ := hu1 p hp
    exact ⟨r, by rw [htr]; simp [hr]⟩
  · intro k hk
    obtain ⟨r, hr⟩ := hc1 k hk
    exact ⟨r, by rw [htr]; simp [hr]⟩

/-! ## Shutdown -/

theorem invokeAll_eq (caps : List Cap) :
    ∀ s : State, invokeAll caps s = { s with trace := s.trace ++ caps.map Event.invoke } := by
  induction caps with
  | nil => intro s; simp [invokeAll]
  | cons c cs ih =>
    intro s
    have := ih (s.log (.invoke c))
    simp only [invokeAll, List.foldl_cons] at this ⊢
    rw [this]
    simp [State.log]

/-- The state that the shutdown branch leaves behind. -/
theorem shutdown_eq (rt : RangeOrder) (cancel : Cap) (s : State) :
    shutdown rt cancel s =
      { s with trace := s.trace ++ Event.info "Shutdown..." :: Event.invoke cancel ::
          (rt.order .connections (mapValues s.connections) ++
            rt.order .openTCPPorts (mapValues s.openTCPPorts) ++
            rt.order .openUDPPorts (mapValues s.openUDPPorts)).map Event.invoke } := by
  simp [shutdown, invokeAll_eq, State.log]

/-- C8: when the termination signal is handled, the loop ends without looking at any further
input, and what shutdown does is: log the shutdown line, invoke the global cancel of the
Forwarder, then invoke the capability of every entry of the connections map, then of every
entry of the TCP map, then of every entry of the UDP map, each entry once (the order inside a
map is the one the runtime picks) and nothing else. -/
theorem shutdown_sequence (U : CaseMapping) (fwr : Forwarder) (rt : RangeOrder) (cancel : Cap)
    (s : State) (rest : List Input) :
    ∃ (lc lt lu : List Cap) (s' : State),
      mainLoop U fwr rt cancel (.termSignal :: rest) s = .ok s' ∧
      lc.Perm (mapValues s.connections) ∧ lt.Perm (mapValues s.openTCPPorts) ∧
      lu.Perm (mapValues s.openUDPPorts) ∧
      s'.trace = s.trace ++ Event.info "Shutdown..." :: Event.invoke cancel ::
        (lc.map Event.invoke ++ lt.map Event.invoke ++ lu.map Event.invoke) ∧
      (∀ c, (Event.info "Shutdown..." :: Event.invoke cancel ::
          (lc.map Event.invoke ++ lt.map Event.invoke ++ lu.map Event.invoke)).count
            (Event.invoke c) =
        (if c = cancel then 1 else 0) + (mapValues s.connections).count c +
          (mapValues s.openTCPPorts).count c + (mapValues s.openUDPPorts).count c) := by
  refine ⟨rt.order .connections (mapValues s.connections),
    rt.order .openTCPPorts (mapValues s.openTCPPorts),
    rt.order .openUDPPorts (mapValues s.openUDPPorts), shutdown rt cancel s, rfl,
    rt.perm _ _, rt.perm _ _, rt.perm _ _, ?_, ?_⟩
  · rw [shutdown_eq]
    simp
  · intro c
    have hinj : Function.Injective Event.invoke := fun a b h => by cases h; rfl
    have h1 := (rt.perm .connections (mapValues s.connections)).count_eq c
    have h2 := (rt.perm .openTCPPorts (mapValues s.openTCPPorts)).count_eq c
    have h3 := (rt.perm .openUDPPorts (mapValues s.openUDPPorts)).count_eq c
    rw [List.count_cons, List.count_cons, List.count_append, List.count_append,
      List.count_map_of_injective _ _ hinj, List.count_map_of_injective _ _ hinj,
      List.count_map_of_injective _ _ hinj, h1, h2, h3]
    by_cases hc : c = cancel
    · subst hc; simp; omega
    · have : ¬ (cancel = c) := fun h => hc h.symm
      simp [hc, this]

/-! ## Capabilities are accounted for -/

theorem accounted_append (h h' : Target → Option Cap) (t evs : List Event)
    (hinv : Accounted h t)
    (hold : ∀ tg c, h tg = some c → h' tg = some c ∨ Event.invoke c ∈ evs ∨
      ∃ e' ∈ evs, ∃ c', e'.obtained = some (tg, c'))
    (hnew : Accounted h' evs) : Accounted h' (t ++ evs) := by
  intro t1 e t2 tg c hdec hob
  rcases List.append_eq_append_iff.1 hdec with ⟨a, ha1, ha2⟩ | ⟨b, hb1, hb2⟩
  · -- `t1 = t ++ a`, `evs = a ++ e :: t2`
    exact hnew a e t2 tg c ha2 hob
  · -- `t = t1 ++ b`, `e :: t2 = b ++ evs`
    cases b with
    | nil =>
      simp only [List.nil_append] at hb2
      exact hnew [] e t2 tg c (by simpa using hb2.symm) hob
    | cons x xs =>
      simp only [List.cons_append, List.cons.injEq] at hb2
      obtain ⟨hx, hxs⟩ := hb2
      subst hx
      rcases hinv t1 e xs tg c hb1 hob with h1 | ⟨e', he', c', hc'⟩ | h3
      · exact Or.inl (by rw [hxs]; exact List.mem_append_left _ h1)
      · exact Or.inr (Or.inl ⟨e', by rw [hxs]; exact List.mem_append_left _ he', c', hc'⟩)
      · rcases hold tg c h3 with g1 | g2 | ⟨e', he', c', hc'⟩
        · exact Or.inr (Or.inr g1)
        · exact Or.inl (by rw [hxs]; exact List.mem_append_right _ g2)
        · exact Or.inr (Or.inl ⟨e', by rw [hxs]; exact List.mem_append_right _ he', c', hc'⟩)

theorem accounted_of_none (h : Target → Option Cap) (evs : List Event)
    (hn : ∀ e ∈ evs, e.obtained = none) : Accounted h evs := by
  intro t1 e t2 tg c hdec hob
  have : e ∈ evs := by rw [hdec]; simp
  rw [hn e this] at hob
  cases hob

theorem accounted_of_one (h : Target → Option Cap) (pre post : List Event) (e0 : Event)
    (hpre : ∀ e ∈ pre, e.obtained = none) (hpost : ∀ e ∈ post, e.obtained = none)
    (h0 : ∀ tg c, e0.obtained = some (tg, c) → h tg = some c) :
    Accounted h (pre ++ e0 :: post) := by
  intro t1 e t2 tg c hdec hob
  rcases List.append_eq_append_iff.1 hdec with ⟨a, ha1, ha2⟩ | ⟨b, hb1, hb2⟩
  · -- `t1 = pre ++ a`, `e0 :: post = a ++ e :: t2`
    cases a with
    | nil =>
      simp only [List.nil_append, List.cons.injEq] at ha2
      obtain ⟨he, _⟩ := ha2
      subst he
      exact Or.inr (Or.inr (h0 tg c hob))
    | cons x xs =>
      simp only [List.cons_append, List.cons.injEq] at ha2
      have : e ∈ post := by rw [ha2.2]; simp
      rw [hpost e this] at hob
      cases hob
  · -- `pre = t1 ++ b`, `e :: t2 = b ++ e0 :: post`
    cases b with
    | nil =>
      simp only [List.nil_append, List.cons.injEq] at hb2
      obtain ⟨he, _⟩ := hb2
      subst he
      exact Or.inr (Or.inr (h0 tg c hob))
    | cons x xs =>
      simp only [List.cons_append, List.cons.injEq] at hb2
      have : e ∈ pre := by rw [hb1, ← hb2.1]; simp
      rw [hpre e this] at hob
      cases hob

theorem obtained_info (msg : String) : (Event.info msg).obtained = none := rfl

theorem obtained_error (msg : String) : (Event.error msg).obtained = none := rfl

theorem obtained_errorErr (err : GoError) : (Event.errorErr err).obtained = none := rfl

theorem obtained_invoke (c : Cap) : (Event.invoke c).obtained = none := rfl

theorem obtained_connect_error (id : String) (err : GoError) :
    (Event.connect id (.error err)).obtained = none := rfl

theorem obtained_openPort_error (nt : String) (p : Nat) (err : GoError) :
    (Event.openPort nt p (.error err)).obtained = none := rfl

theorem obtained_connect_ok (id a : String) (c : Cap) :
    (Event.connect id (.ok (a, c))).obtained = some (.peer id, c) := rfl

theorem obtained_openPort_tcp (p : Nat) (c : Cap) :
    (Event.openPort "tcp" p (.ok c)).obtained = some (.tcp p, c) := rfl

theorem obtained_openPort_udp (p : Nat) (c : Cap) :
    (Event.openPort "udp" p (.ok c)).obtained = some (.udp p, c) := rfl

theorem obtained_openPort_other (nt : String) (p : Nat) (c : Cap) (h1 : nt ≠ "tcp")
    (h2 : nt ≠ "udp") : (Event.openPort nt p (.ok c)).obtained = none := by
  simp [Event.obtained, h1, h2]

/-- Events that obtain nothing keep the accounting when the maps stay as they are. -/
theorem accounted_log (s : State) (evs : List Event) (hn : ∀ e ∈ evs, e.obtained = none)
    (hinv : Accounted s.holds s.trace) :
    Accounted (State.holds { s with trace := s.trace ++ evs }) (s.trace ++ evs) :=
  accounted_append s.holds _ s.trace evs hinv (fun tg c h => Or.inl (by
    cases tg <;> exact h)) (accounted_of_none _ evs hn)

/-- A successful `Connect` that is registered keeps the accounting. -/
theorem accounted_insert_peer (s : State) (id a : String) (c : Cap) (pre post tr : List Event)
    (hpre : ∀ e ∈ pre, e.obtained = none) (hpost : ∀ e ∈ post, e.obtained = none)
    (hinv : Accounted s.holds s.trace) :
    Accounted
      (State.holds
        { connections := s.connections.insert id c
          openTCPPorts := s.openTCPPorts
          openUDPPorts := s.openUDPPorts
          trace := tr })
      (s.trace ++ (pre ++ Event.connect id (.ok (a, c)) :: post)) := by
  refine accounted_append s.holds _ s.trace _ hinv ?_ (accounted_of_one _ pre post _ hpre hpost ?_)
  · intro tg c0 h
    by_cases htg : tg = .peer id
    · exact Or.inr (Or.inr ⟨Event.connect id (.ok (a, c)), by simp, c, by rw [htg]; rfl⟩)
    · refine Or.inl ?_
      cases tg with
      | peer k =>
        have hk : k ≠ id := fun e => htg (by rw [e])
        simpa [State.holds, AList.lookup_insert_ne hk] using h
      | tcp q => exact h
      | udp q => exact h
  · intro tg c0 h
    rw [obtained_connect_ok] at h
    cases h
    simp [State.holds]

/-- A successful `OpenPort` for `tcp` that is registered keeps the accounting. -/
theorem accounted_insert_tcp (s : State) (p : Nat) (c : Cap) (pre post tr : List Event)
    (hpre : ∀ e ∈ pre, e.obtained = none) (hpost : ∀ e ∈ post, e.obtained = none)
    (hinv : Accounted s.holds s.trace) :
    Accounted
      (State.holds
        { connections := s.connections
          openTCPPorts := s.openTCPPorts.insert p c
          openUDPPorts := s.openUDPPorts
          trace := tr })
      (s.trace ++ (pre ++ Event.openPort "tcp" p (.ok c) :: post)) := by
  refine accounted_append s.holds _ s.trace _ hinv ?_ (accounted_of_one _ pre post _ hpre hpost ?_)
  · intro tg c0 h
    by_cases htg : tg = .tcp p
    · exact Or.inr (Or.inr ⟨Event.openPort "tcp" p (.ok c), by simp, c, by rw [htg]; rfl⟩)
    · refine Or.inl ?_
      cases tg with
      | peer k => exact h
      | tcp q =>
        have hk : q ≠ p := fun e => htg (by rw [e])
        simpa [State.holds, AList.lookup_insert_ne hk] using h
      | udp q => exact h
  · intro tg c0 h
    rw [obtained_openPort_tcp] at h
    cases h
    simp [State.holds]

/-- A successful `OpenPort` for `udp` that is registered keeps the accounting. -/
theorem accounted_insert_udp (s : State) (p : Nat) (c : Cap) (pre post tr : List Event)
    (hpre : ∀ e ∈ pre, e.obtained = none) (hpost : ∀ e ∈ post, e.obtained = none)
    (hinv : Accounted s.holds s.trace) :
    Accounted
      (State.holds
        { connections := s.connections
          openTCPPorts := s.openTCPPorts
          openUDPPorts := s.openUDPPorts.insert p c
          trace := tr })
      (s.trace ++ (pre ++ Event.openPort "udp" p (.ok c) :: post)) := by
  refine accounted_append s.holds _ s.trace _ hinv ?_ (accounted_of_one _ pre post _ hpre hpost ?_)
  · intro tg c0 h
    by_cases htg : tg = .udp p
    · exact Or.inr (Or.inr ⟨Event.openPort "udp" p (.ok c), by simp, c, by rw [htg]; rfl⟩)
    · refine Or.inl ?_
      cases tg with
      | peer k => exact h
      | tcp q => exact h
      | udp q =>
        have hk : q ≠ p := fun e => htg (by rw [e])
        simpa [State.holds, AList.lookup_insert_ne hk] using h
  · intro tg c0 h
    rw [obtained_openPort_udp] at h
    cases h
    simp [State.holds]

/-- Removing a connections entry whose capability is invoked keeps the accounting. -/
theorem accounted_erase_peer (s : State) (id : String) (c : Cap) (evs tr : List Event)
    (hlk : s.connections.lookup id = some c) (hc : Event.invoke c ∈ evs)
    (hn : ∀ e ∈ evs, e.obtained = none) (hinv : Accounted s.holds s.trace) :
    Accounted
      (State.holds
        { connections := s.connections.erase id
          openTCPPorts := s.openTCPPorts
          openUDPPorts := s.openUDPPorts
          trace := tr })
      (s.trace ++ evs) := by
  refine accounted_append s.holds _ s.trace _ hinv ?_ (accounted_of_none _ evs hn)
  intro tg c0 h
  cases tg with
  | peer k =>
    by_cases hk : k = id
    · subst hk
      have : c0 = c := by
        have h' : s.connections.lookup k = some c0 := h
        rw [hlk] at h'
        exact (Option.some.inj h').symm
      subst this
      exact Or.inr (Or.inl hc)
    · exact Or.inl (by simpa [State.holds, AList.lookup_erase_ne hk] using h)
  | tcp q => exact Or.inl h
  | udp q => exact Or.inl h

/-- Removing a TCP entry whose capability is invoked keeps the accounting. -/
theorem accounted_erase_tcp (s : State) (p : Nat) (c : Cap) (evs tr : List Event)
    (hlk : s.openTCPPorts.lookup p = some c) (hc : Event.invoke c ∈ evs)
    (hn : ∀ e ∈ evs, e.obtained = none) (hinv : Accounted s.holds s.trace) :
    Accounted
      (State.holds
        { connections := s.connections
          openTCPPorts := s.openTCPPorts.erase p
          openUDPPorts := s.openUDPPorts
          trace := tr })
      (s.trace ++ evs) := by
  refine accounted_append s.holds _ s.trace _ hinv ?_ (accounted_of_none _ evs hn)
  intro tg c0 h
  cases tg with
  | peer k => exact Or.inl h
  | tcp q =>
    by_cases hk : q = p
    · subst hk
      have : c0 = c := by
        have h' : s.openTCPPorts.lookup q = some c0 := h
        rw [hlk] at h'
        exact (Option.some.inj h').symm
      subst this
      exact Or.inr (Or.inl hc)
    · exact Or.inl (by simpa [State.holds, AList.lookup_erase_ne hk] using h)
  | udp q => exact Or.inl h

theorem closesUDP_false (U : CaseMapping) (str a0 a1 a2 : String)
    (hargs : parseArgs str 3 = .ok [a0, a1, a2]) (h : closesUDP U str = false)
    (hc : stringsToLower U a0 = "close") : stringsToLower U a1 ≠ "udp" := by
  intro hu
  simp [closesUDP, hargs, hc, hu] at h

/-- A command that is not a `close` for `udp` returns and keeps the accounting. -/
theorem executeCommand_accounted (U : CaseMapping) (fwr : Forwarder) (s : State) (str : String)
    (hudp : closesUDP U str = false) (hinv : Accounted s.holds s.trace) :
    ∃ s', executeCommand U fwr s str = .ok s' ∧ Accounted s'.holds s'.trace := by
  obtain ⟨a0, a1, a2, hargs⟩ := parseArgs_three str
  by_cases h1 : stringsToLower U a0 = "connect"
  · cases hfw : fwr.Connect (s.trace ++ [.info ("Connecting to " ++ a1)]) a1 with
    | error err =>
      exact ⟨_, executeCommand_connect_err U fwr s str a0 a1 a2 err hargs h1 hfw,
        accounted_log s _ (by simp [Event.obtained]) hinv⟩
    | ok v =>
      obtain ⟨a, c⟩ := v
      exact ⟨_, executeCommand_connect_ok U fwr s str a0 a1 a2 a c hargs h1 hfw,
        accounted_insert_peer s a1 a c [.info _] [.info _] _ (by simp [Event.obtained])
          (by simp [Event.obtained]) hinv⟩
  by_cases h2 : stringsToLower U a0 = "disconnect"
  · cases hlk : s.connections.lookup a1 with
    | none =>
      exact ⟨_, executeCommand_disconnect_miss U fwr s str a0 a1 a2 hargs h2 hlk,
        accounted_log s _ (by simp [Event.obtained]) hinv⟩
    | some c =>
      exact ⟨_, executeCommand_disconnect_hit U fwr s str a0 a1 a2 c hargs h2 hlk,
        accounted_erase_peer s a1 c _ _ hlk (by simp) (by simp [Event.obtained]) hinv⟩
  by_cases h3 : stringsToLower U a0 = "open"
  · cases hp : ParseUint a2 16 with
    | error err =>
      exact ⟨_, executeCommand_open_parse_err U fwr s str a0 a1 a2 err hargs h3 hp,
        accounted_log s _ (by simp [Event.obtained]) hinv⟩
    | ok p =>
      cases hfw : fwr.OpenPort
          (s.trace ++ [.info ("Opening " ++ stringsToLower U a1 ++ ":" ++ a2)])
          (stringsToLower U a1) (uint16 p) with
      | error err =>
        exact ⟨_, executeCommand_open_err U fwr s str a0 a1 a2 p err hargs h3 hp hfw,
          accounted_log s _ (by simp [Event.obtained]) hinv⟩
      | ok c =>
        have e := executeCommand_open_ok U fwr s str a0 a1 a2 p c hargs h3 hp hfw
        by_cases ht : stringsToLower U a1 = "tcp"
        · rw [ht] at e
          simp only [if_true] at e
          exact ⟨_, e, accounted_insert_tcp s (uint16 p) c [.info _] [] _
            (by simp [Event.obtained]) (by simp) hinv⟩
        · by_cases hu : stringsToLower U a1 = "udp"
          · rw [hu] at e
            have hne : ¬ ("udp" = "tcp") := by decide
            simp only [hne, if_false, if_true] at e
            exact ⟨_, e, accounted_insert_udp s (uint16 p) c [.info _] [] _
              (by simp [Event.obtained]) (by simp) hinv⟩
          · simp only [ht, hu, if_false] at e
            refine ⟨_, e, accounted_log s _ ?_ hinv⟩
            intro ev hev
            simp only [List.mem_cons, List.mem_singleton, List.not_mem_nil, or_false] at hev
            rcases hev with rfl | rfl
            · rfl
            · exact obtained_openPort_other _ _ _ ht hu
  by_cases h4 : stringsToLower U a0 = "close"
  · have hnu := closesUDP_false U str a0 a1 a2 hargs hudp h4
    cases hp : ParseUint a2 16 with
    | error err =>
      exact ⟨_, executeCommand_close_parse_err U fwr s str a0 a1 a2 err hargs h4 hp,
        accounted_log s _ (by simp [Event.obtained]) hinv⟩
    | ok p =>
      cases hlk : (if stringsToLower U a1 = "tcp" then s.openTCPPorts.lookup (uint16 p)
          else if stringsToLower U a1 = "udp" then s.openUDPPorts.lookup (uint16 p)
          else none) with
      | none =>
        exact ⟨_, executeCommand_close_miss U fwr s str a0 a1 a2 p hargs h4 hp hlk,
          accounted_log s _ (by simp [Event.obtained]) hinv⟩
      | some c =>
        have htcp : s.openTCPPorts.lookup (uint16 p) = some c := by
          by_cases ht : stringsToLower U a1 = "tcp"
          · simpa [ht] using hlk
          · simp [ht, hnu] at hlk
        exact ⟨_, executeCommand_close_hit U fwr s str a0 a1 a2 p c hargs h4 hp hlk,
          accounted_erase_tcp s (uint16 p) c _ _ htcp (by simp) (by simp [Event.obtained]) hinv⟩
  · exact ⟨_, executeCommand_help U fwr s str a0 a1 a2 hargs h1 h2 h3 h4,
      accounted_log s _ (by simp [Event.obtained]) hinv⟩

/-- The startup steps keep the accounting. -/
theorem openTCPStep_accounted (fwr : Forwarder) (s : State) (port : Nat)
    (hinv : Accounted s.holds s.trace) :
    Accounted (openTCPStep fwr s port).holds (openTCPStep fwr s port).trace := by
  cases h : fwr.OpenPort (s.trace ++ [.info ("Opening tcp:" ++ FormatUint port)]) "tcp" port
    with
  | error err =>
    rw [openTCPStep_err fwr s port err h]
    exact accounted_log s _ (by simp [Event.obtained]) hinv
  | ok c =>
    rw [openTCPStep_ok fwr s port c h]
    exact accounted_insert_tcp s port c [.info _] [] _ (by simp [Event.obtained]) (by simp) hinv

theorem openUDPStep_accounted (fwr : Forwarder) (s : State) (port : Nat)
    (hinv : Accounted s.holds s.trace) :
    Accounted (openUDPStep fwr s port).holds (openUDPStep fwr s port).trace := by
  cases h : fwr.OpenPort (s.trace ++ [.info ("Opening udp: " ++ FormatUint port)]) "udp" port
    with
  | error err =>
    rw [openUDPStep_err fwr s port err h]
    exact accounted_log s _ (by simp [Event.obtained]) hinv
  | ok c =>
    rw [openUDPStep_ok fwr s port c h]
    exact accounted_insert_udp s port c [.info _] [] _ (by simp [Event.obtained]) (by simp) hinv

theorem connectStep_accounted (fwr : Forwarder) (s : State) (id : String)
    (hinv : Accounted s.holds s.trace) :
    Accounted (connectStep fwr s id).holds (connectStep fwr s id).trace := by
  cases h : fwr.Connect (s.trace ++ [.info ("Connecting to " ++ id)]) id with
  | error err =>
    rw [connectStep_err fwr s id err h]
    exact accounted_log s _ (by simp [Event.obtained]) hinv
  | ok v =>
    obtain ⟨a, c⟩ := v
    rw [connectStep_ok fwr s id a c h]
    exact accounted_insert_peer s id a c [.info _] [.info _] _ (by simp [Event.obtained])
      (by simp [Event.obtained]) hinv

theorem foldl_accounted {α : Type} (f : State → α → State)
    (hf : ∀ s x, Accounted s.holds s.trace → Accounted (f s x).holds (f s x).trace)
    (xs : List α) : ∀ s : State, Accounted s.holds s.trace →
      Accounted (xs.foldl f s).holds (xs.foldl f s).trace := by
  induction xs with
  | nil => intro s h; exact h
  | cons x xs ih => intro s h; exact ih (f s x) (hf s x h)

theorem log_accounted (s : State) (msg : String) (hinv : Accounted s.holds s.trace) :
    Accounted (s.log (.info msg)).holds (s.log (.info msg)).trace :=
  accounted_log s [.info msg] (by simp [Event.obtained]) hinv

theorem startup_accounted (fwr : Forwarder) (flags : Flags) :
    Accounted (startup fwr flags State.init).holds (startup fwr flags State.init).trace := by
  have h0 : Accounted State.init.holds State.init.trace := by
    intro t1 e t2 tg c hdec _
    simp [State.init] at hdec
  unfold startup
  exact log_accounted _ _ (foldl_accounted _ (connectStep_accounted fwr) _ _
    (foldl_accounted _ (openUDPStep_accounted fwr) _ _
      (foldl_accounted _ (openTCPStep_accounted fwr) _ _
        (log_accounted _ _ (log_accounted _ _ h0)))))

theorem mainLoop_lines (U : CaseMapping) (fwr : Forwarder) (rt : RangeOrder) (cancel : Cap)
    (lines : List String) (hudp : ∀ l ∈ lines, closesUDP U l = false) :
    ∀ s : State, Accounted s.holds s.trace →
      ∃ s', Accounted s'.holds s'.trace ∧
        ∀ rest, mainLoop U fwr rt cancel (lines.map .line ++ rest) s =
          mainLoop U fwr rt cancel rest s' := by
  induction lines with
  | nil => intro s h; exact ⟨s, h, fun rest => rfl⟩
  | cons l ls ih =>
    intro s h
    obtain ⟨s1, he, h1⟩ := executeCommand_accounted U fwr s l (hudp l (by simp)) h
    obtain ⟨s', h', hrest⟩ := ih (fun x hx => hudp x (by simp [hx])) s1 h1
    refine ⟨s', h', fun rest => ?_⟩
    rw [List.map_cons, List.cons_append, mainLoop, he]
    exact hrest rest

theorem mem_mapValues {K : Type} [DecidableEq K] (m : AList (fun _ : K => Cap)) (k : K)
    (c : Cap) (h : m.lookup k = some c) : c ∈ mapValues m := by
  have : (⟨k, c⟩ : Sigma fun _ : K => Cap) ∈ m.entries := AList.mem_lookup_iff.1 h
  exact List.mem_map.2 ⟨⟨k, c⟩, this, rfl⟩

/-- Shutdown invokes everything the registry holds. -/
theorem shutdown_accounted (rt : RangeOrder) (cancel : Cap) (s : State)
    (hinv : Accounted s.holds s.trace) :
    Accounted (fun _ => none) (shutdown rt cancel s).trace := by
  rw [shutdown_eq]
  refine accounted_append s.holds _ s.trace _ hinv ?_ (accounted_of_none _ _ ?_)
  · intro tg c h
    refine Or.inr (Or.inl ?_)
    refine List.mem_cons_of_mem _ (List.mem_cons_of_mem _ (List.mem_map.2 ⟨c, ?_, rfl⟩))
    cases tg with
    | peer k =>
      exact List.mem_append_left _ (List.mem_append_left _
        ((rt.perm _ _).mem_iff.2 (mem_mapValues _ k c h)))
    | tcp q =>
      exact List.mem_append_left _ (List.mem_append_right _
        ((rt.perm _ _).mem_iff.2 (mem_mapValues _ q c h)))
    | udp q =>
      exact List.mem_append_right _ ((rt.perm _ _).mem_iff.2 (mem_mapValues _ q c h))
  · intro e he
    simp only [List.mem_cons, List.mem_map] at he
    rcases he with rfl | rfl | ⟨c, _, rfl⟩ <;> rfl

/-! ## Whole sessions -/

/-- C4, amended: in a session whose command lines contain no `close` for `udp`, every
capability that a successful `Connect` call, or a successful `OpenPort` call for `tcp` or
`udp`, returned is accounted for.  While the session runs it has been invoked since, or a
later successful call was made for the same key, or it is the capability that the registry
holds for its key; once shutdown has completed it has been invoked since, or a later
successful call was made for the same key. -/
theorem session_accounted (U : CaseMapping) (fwr : Forwarder) (rt : RangeOrder) (cancel : Cap)
    (flags : Flags) (lines : List String) (hudp : ∀ l ∈ lines, closesUDP U l = false) :
    (∃ s, main U fwr rt cancel flags (lines.map .line) = .ok s ∧
      Accounted s.holds s.trace) ∧
    (∃ s, main U fwr rt cancel flags (lines.map .line ++ [.termSignal]) = .ok s ∧
      ∀ t1 e t2 tg c, s.trace = t1 ++ e :: t2 → e.obtained = some (tg, c) →
        Event.invoke c ∈ t2 ∨ ∃ e' ∈ t2, ∃ c', e'.obtained = some (tg, c')) := by
  have h0 := startup_accounted fwr flags
  have hb : Accounted
      (State.holds { startup fwr flags State.init with
        trace := (startup fwr flags State.init).trace ++ [.info "", .info "Cli commands list:",
          .info "connect [ID_HERE]", .info "disconnect [ID_HERE]",
          .info "open [TCP_OR_UDP_HERE] [PORT_NUMBER_HERE]",
          .info "close [UDP_OR_UDP_HERE] [PORT_NUMBER_HERE]", .info ""] })
      ((startup fwr flags State.init).trace ++ [.info "", .info "Cli commands list:",
          .info "connect [ID_HERE]", .info "disconnect [ID_HERE]",
          .info "open [TCP_OR_UDP_HERE] [PORT_NUMBER_HERE]",
          .info "close [UDP_OR_UDP_HERE] [PORT_NUMBER_HERE]", .info ""]) :=
    accounted_log _ _ (by simp [Event.obtained]) h0
  obtain ⟨s', h', hrest⟩ := mainLoop_lines U fwr rt cancel lines hudp _ hb
  constructor
  · refine ⟨s', ?_, h'⟩
    have := hrest []
    simp only [List.append_nil] at this
    simp only [main, bind, Except.bind, executeCommand_empty]
    rw [this]
    rfl
  · refine ⟨shutdown rt cancel s', ?_, ?_⟩
    · simp only [main, bind, Except.bind, executeCommand_empty]
      rw [hrest [.termSignal]]
      rfl
    · intro t1 e t2 tg c hdec hob
      rcases shutdown_accounted rt cancel s' h' t1 e t2 tg c hdec hob with h | h | h
      · exact Or.inl h
      · exact Or.inr h
      · cases h

/-- Witness for C4, amended: a session that opens and closes TCP port 80. -/
theorem session_accounted_witness :
    (∃ s, main asciiCaseMapping okForwarder storedOrder ⟨0⟩ ⟨[], [], []⟩
        (["open tcp 80", "close tcp 80"].map .line) = .ok s ∧ Accounted s.holds s.trace) ∧
    (∃ s, main asciiCaseMapping okForwarder storedOrder ⟨0⟩ ⟨[], [], []⟩
        (["open tcp 80", "close tcp 80"].map .line ++ [.termSignal]) = .ok s ∧
      ∀ t1 e t2 tg c, s.trace = t1 ++ e :: t2 → e.obtained = some (tg, c) →
        Event.invoke c ∈ t2 ∨ ∃ e' ∈ t2, ∃ c', e'.obtained = some (tg, c')) :=
  session_accounted asciiCaseMapping okForwarder storedOrder ⟨0⟩ ⟨[], [], []⟩
    ["open tcp 80", "close tcp 80"] (by decide)

/-- Counterexample to C4 as stated: opening TCP port 80 twice replaces the first entry, and
the capability of the first `OpenPort` call is never invoked, not even by shutdown. -/
theorem reopen_leaks_capability :
    ∃ s, main asciiCaseMapping okForwarder storedOrder ⟨0⟩ ⟨[], [], []⟩
        [.line "open tcp 80", .line "open tcp 80", .termSignal] = .ok s ∧
      obtainedCaps s.trace = [⟨11⟩, ⟨13⟩] ∧ Event.invoke ⟨11⟩ ∉ s.trace ∧
      ¬ ReleasedAll s.trace := by
  refine ⟨_, rfl, ?_, ?_, ?_⟩ <;> decide

/-- C7, the code at the failing input: in a session that enters `open udp 53` and then
`close udp 53`, the `close` invokes the capability of the UDP entry but removes key 53 from
the TCP map; the entry stays in the UDP map and shutdown invokes the same capability a second
time, although the Forwarder returned that capability only once. -/
theorem close_udp_invokes_twice :
    (∃ s, main asciiCaseMapping okForwarder storedOrder ⟨0⟩ ⟨[], [], []⟩
        [.line "open udp 53", .line "close udp 53"] = .ok s ∧
      obtainedCaps s.trace = [⟨11⟩] ∧ s.trace.count (.invoke ⟨11⟩) = 1 ∧
      s.openUDPPorts.lookup 53 = some ⟨11⟩) ∧
    (∃ s, main asciiCaseMapping okForwarder storedOrder ⟨0⟩ ⟨[], [], []⟩
        [.line "open udp 53", .line "close udp 53", .termSignal] = .ok s ∧
      obtainedCaps s.trace = [⟨11⟩] ∧ s.trace.count (.invoke ⟨11⟩) = 2) := by
  refine ⟨⟨_, rfl, ?_, ?_, ?_⟩, ⟨_, rfl, ?_, ?_⟩⟩ <;> decide

/-! ## Closing, disconnecting and the help text -/

/-- What a `disconnect` command does when its id token has an entry with capability `c`. -/
theorem disconnect_hit_frame (U : CaseMapping) (fwr : Forwarder) (s : State)
    (str a0 id a2 : String) (c : Cap) (hargs : parseArgs str 3 = .ok [a0, id, a2])
    (hcmd : stringsToLower U a0 = "disconnect") (hlk : s.connections.lookup id = some c) :
    ∃ s' evs, executeCommand U fwr s str = .ok s' ∧ s'.trace = s.trace ++ evs ∧
      evs.count (.invoke c) = 1 ∧ (∀ c', Event.invoke c' ∈ evs → c' = c) ∧
      (∀ e ∈ evs, e.isCall = false) ∧
      s'.connections = s.connections.erase id ∧ s'.connections.lookup id = none ∧
      (∀ k, k ≠ id → s'.connections.lookup k = s.connections.lookup k) ∧
      s'.openTCPPorts = s.openTCPPorts ∧ s'.openUDPPorts = s.openUDPPorts := by
  refine ⟨_, [.info ("Disconnecting from " ++ id), .invoke c],
    executeCommand_disconnect_hit U fwr s str a0 id a2 c hargs hcmd hlk, rfl, ?_, ?_, ?_,
    rfl, ?_, ?_, rfl, rfl⟩
  · simp [List.count_cons]
  · intro c' h
    simpa using h
  · intro e he
    simp only [List.mem_cons, List.mem_singleton, List.not_mem_nil, or_false] at he
    rcases he with rfl | rfl <;> rfl
  · simp
  · intro k hk
    simp [AList.lookup_erase_ne hk]

/-- C11, amended: for every id without whitespace characters that has an entry with
capability `c` in the connections map, the command `disconnect id` invokes `c` exactly once
and no other capability, makes no Forwarder call, removes key `id` from the connections map
and leaves every other entry of it and the TCP and UDP maps as they were. -/
theorem disconnect_line_releases (U : CaseMapping) (fwr : Forwarder) (s : State)
    (id : String) (c : Cap) (hns : NoSpace id) (hlk : s.connections.lookup id = some c) :
    ∃ s' evs, executeCommand U fwr s ("disconnect " ++ id) = .ok s' ∧
      s'.trace = s.trace ++ evs ∧
      evs.count (.invoke c) = 1 ∧ (∀ c', Event.invoke c' ∈ evs → c' = c) ∧
      (∀ e ∈ evs, e.isCall = false) ∧
      s'.connections = s.connections.erase id ∧ s'.connections.lookup id = none ∧
      (∀ k, k ≠ id → s'.connections.lookup k = s.connections.lookup k) ∧
      s'.openTCPPorts = s.openTCPPorts ∧ s'.openUDPPorts = s.openUDPPorts :=
  disconnect_hit_frame U fwr s ("disconnect " ++ id) "disconnect" id "" c
    (parseArgs_two_words "disconnect" id (by decide) (by decide) hns)
    (stringsToLower_disconnect U) hlk

/-- Witness for C11, amended: `disconnect peerX` in a state that is connected to `peerX`. -/
theorem disconnect_line_releases_witness :
    ∃ s' evs, executeCommand asciiCaseMapping failingForwarder peerXState
        ("disconnect " ++ "peerX") = .ok s' ∧ s'.trace = peerXState.trace ++ evs ∧
      evs.count (.invoke ⟨7⟩) = 1 ∧ (∀ c', Event.invoke c' ∈ evs → c' = ⟨7⟩) ∧
      (∀ e ∈ evs, e.isCall = false) ∧
      s'.connections = peerXState.connections.erase "peerX" ∧
      s'.connections.lookup "peerX" = none ∧
      (∀ k, k ≠ "peerX" → s'.connections.lookup k = peerXState.connections.lookup k) ∧
      s'.openTCPPorts = peerXState.openTCPPorts ∧ s'.openUDPPorts = peerXState.openUDPPorts :=
  disconnect_line_releases asciiCaseMapping failingForwarder peerXState "peerX" ⟨7⟩
    (by decide) (by decide)

/-- Counterexample to C11 as stated: started with `-connect "a b"`, the connections map has an
entry for the id `a b`; the command `disconnect a b` looks up the token `a`, reports that it
is not connected, invokes nothing and leaves the entry where it is. -/
theorem disconnect_spaced_id_misses :
    (startup okForwarder ⟨["a b"], [], []⟩ State.init).connections.lookup "a b" = some ⟨3⟩ ∧
    ∃ s', executeCommand asciiCaseMapping okForwarder
        (startup okForwarder ⟨["a b"], [], []⟩ State.init) ("disconnect " ++ "a b") = .ok s' ∧
      s'.trace = (startup okForwarder ⟨["a b"], [], []⟩ State.init).trace ++
        [.error "You are not connected to specified id"] ∧
      Event.invoke ⟨3⟩ ∉ s'.trace ∧ s'.connections.lookup "a b" = some ⟨3⟩ := by
  refine ⟨by decide, _, rfl, ?_, ?_, ?_⟩ <;> decide

/-- C12: a `disconnect` command whose id has no entry in the connections map, and a `close`
command whose port has no entry in the map that its protocol selects, emits a message on the
error channel, invokes no capability, makes no Forwarder call and leaves the three maps as
they were. -/
theorem lookup_miss_frame (U : CaseMapping) (fwr : Forwarder) (s : State)
    (str a0 a1 a2 : String) (hargs : parseArgs str 3 = .ok [a0, a1, a2])
    (hmiss :
      (stringsToLower U a0 = "disconnect" ∧ s.connections.lookup a1 = none) ∨
      (stringsToLower U a0 = "close" ∧ stringsToLower U a1 = "tcp" ∧
        ∃ p, ParseUint a2 16 = .ok p ∧ s.openTCPPorts.lookup p = none) ∨
      (stringsToLower U a0 = "close" ∧ stringsToLower U a1 = "udp" ∧
        ∃ p, ParseUint a2 16 = .ok p ∧ s.openUDPPorts.lookup p = none)) :
    ∃ s' evs, executeCommand U fwr s str = .ok s' ∧ s'.trace = s.trace ++ evs ∧
      (∃ e ∈ evs, e.isError = true) ∧
      (∀ e ∈ evs, e.isInvoke = false ∧ e.isCall = false) ∧
      s'.connections = s.connections ∧ s'.openTCPPorts = s.openTCPPorts ∧
      s'.openUDPPorts = s.openUDPPorts := by
  rcases hmiss with ⟨hcmd, hlk⟩ | ⟨hcmd, ht, p, hp, hlk⟩ | ⟨hcmd, hu, p, hp, hlk⟩
  · exact ⟨_, [.error "You are not connected to specified id"],
      executeCommand_disconnect_miss U fwr s str a0 a1 a2 hargs hcmd hlk, rfl,
      ⟨_, List.mem_singleton_self _, rfl⟩, by simp [Event.isInvoke, Event.isCall],
      rfl, rfl, rfl⟩
  · exact ⟨_, [.error "Specified port is not opened"],
      executeCommand_close_miss U fwr s str a0 a1 a2 p hargs hcmd hp
        (by rw [ParseUint_uint16 _ _ hp]; simp [ht, hlk]), rfl,
      ⟨_, List.mem_singleton_self _, rfl⟩, by simp [Event.isInvoke, Event.isCall],
      rfl, rfl, rfl⟩
  · have hne : ¬ ("udp" = "tcp") := by decide
    exact ⟨_, [.error "Specified port is not opened"],
      executeCommand_close_miss U fwr s str a0 a1 a2 p hargs hcmd hp
        (by rw [ParseUint_uint16 _ _ hp, hu]; simp [hne, hlk]), rfl,
      ⟨_, List.mem_singleton_self _, rfl⟩, by simp [Event.isInvoke, Event.isCall],
      rfl, rfl, rfl⟩

/-- Witness for C12: `disconnect unknownPeer` on an empty registry. -/
theorem lookup_miss_frame_witness :
    ∃ s' evs, executeCommand asciiCaseMapping failingForwarder State.init
        "disconnect unknownPeer" = .ok s' ∧ s'.trace = State.init.trace ++ evs ∧
      (∃ e ∈ evs, e.isError = true) ∧
      (∀ e ∈ evs, e.isInvoke = false ∧ e.isCall = false) ∧
      s'.connections = State.init.connections ∧ s'.openTCPPorts = State.init.openTCPPorts ∧
      s'.openUDPPorts = State.init.openUDPPorts :=
  lookup_miss_frame asciiCaseMapping failingForwarder State.init "disconnect unknownPeer"
    "disconnect" "unknownPeer" "" (by decide) (Or.inl ⟨by decide, by decide⟩)

/-- C13: for an `open` command whose protocol word is `tcp` or `udp` up to letter case and
whose port token parses as the unsigned 16-bit number `p`, when `OpenPort` succeeds with
capability `c` the map of that protocol maps `p` to `c` afterwards and keeps its other
entries, and the map of the other protocol and the connections map are as they were. -/
theorem open_registers (U : CaseMapping) (fwr : Forwarder) (s : State)
    (str a0 a1 a2 : String) (p : Nat) (c : Cap) (hargs : parseArgs str 3 = .ok [a0, a1, a2])
    (hcmd : stringsToLower U a0 = "open")
    (hproto : stringsToLower U a1 = "tcp" ∨ stringsToLower U a1 = "udp")
    (hp : ParseUint a2 16 = .ok p)
    (hfw : fwr.OpenPort (s.trace ++ [.info ("Opening " ++ stringsToLower U a1 ++ ":" ++ a2)])
      (stringsToLower U a1) p = .ok c) :
    ∃ s', executeCommand U fwr s str = .ok s' ∧ s'.connections = s.connections ∧
      ((stringsToLower U a1 = "tcp" ∧
        s'.openTCPPorts.lookup p = some c ∧
        (∀ q, q ≠ p → s'.openTCPPorts.lookup q = s.openTCPPorts.lookup q) ∧
        s'.openUDPPorts = s.openUDPPorts) ∨
      (stringsToLower U a1 = "udp" ∧
        s'.openUDPPorts.lookup p = some c ∧
        (∀ q, q ≠ p → s'.openUDPPorts.lookup q = s.openUDPPorts.lookup q) ∧
        s'.openTCPPorts = s.openTCPPorts)) := by
  have hu : uint16 p = p := ParseUint_uint16 _ _ hp
  have e := executeCommand_open_ok U fwr s str a0 a1 a2 p c hargs hcmd hp (by rw [hu]; exact hfw)
  rw [hu] at e
  have hne : ¬ ("udp" = "tcp") := by decide
  refine ⟨_, e, rfl, ?_⟩
  rcases hproto with ht | hud
  · refine Or.inl ⟨ht, by simp [ht], ?_, by simp [ht]⟩
    intro q hq
    simp [ht, AList.lookup_insert_ne hq]
  · refine Or.inr ⟨hud, by simp [hud, hne], ?_, by simp [hud, hne]⟩
    intro q hq
    simp [hud, hne, AList.lookup_insert_ne hq]

/-- Witness for C13: `open UDP 53` with a Forwarder that always succeeds. -/
theorem open_registers_witness :
    ∃ s', executeCommand asciiCaseMapping okForwarder State.init "open UDP 53" = .ok s' ∧
      s'.connections = State.init.connections ∧
      ((stringsToLower asciiCaseMapping "UDP" = "tcp" ∧
        s'.openTCPPorts.lookup 53 = some ⟨1⟩ ∧
        (∀ q, q ≠ 53 → s'.openTCPPorts.lookup q = State.init.openTCPPorts.lookup q) ∧
        s'.openUDPPorts = State.init.openUDPPorts) ∨
      (stringsToLower asciiCaseMapping "UDP" = "udp" ∧
        s'.openUDPPorts.lookup 53 = some ⟨1⟩ ∧
        (∀ q, q ≠ 53 → s'.openUDPPorts.lookup q = State.init.openUDPPorts.lookup q) ∧
        s'.openTCPPorts = State.init.openTCPPorts)) :=
  open_registers asciiCaseMapping okForwarder State.init "open UDP 53" "open" "UDP" "53" 53 ⟨1⟩
    (by decide) (by decide) (Or.inr (by decide)) (by decide) (by decide)

theorem wordStartsAux_all_space (b : Bool) (l : List Char)
    (h : ∀ c ∈ l, unicodeIsSpace c = true) : wordStartsAux b l = [] := by
  induction l generalizing b with
  | nil => rfl
  | cons c cs ih =>
    rw [wordStartsAux_space b c cs (h c (by simp))]
    exact ih true (fun x hx => h x (by simp [hx]))

/-- A line of whitespace only has three empty tokens. -/
theorem parseArgs_all_space (str : String) (h : ∀ c ∈ str.data, unicodeIsSpace c = true) :
    parseArgs str 3 = .ok ["", "", ""] := by
  rw [parseArgs_three_eq, ← fillTokens_wordSuffixes, wordSuffixes,
    wordStartsAux_all_space true _ h]
  rfl

theorem helpBanner_eq (s : State) :
    ({ s with trace := s.trace ++ [.info "", .info "Cli commands list:",
          .info "connect [ID_HERE]", .info "disconnect [ID_HERE]",
          .info "open [TCP_OR_UDP_HERE] [PORT_NUMBER_HERE]",
          .info "close [UDP_OR_UDP_HERE] [PORT_NUMBER_HERE]", .info ""] } : State) =
      { s with trace := s.trace ++ helpBanner } := rfl

/-- C14: for a line whose first token, lower-cased, is none of `connect`, `disconnect`, `open`,
`close`, `executeCommand` leaves the three maps as they were and appends exactly the help
text: informational lines only (so no Forwarder call, no invocation, no message on the error
channel), among them the usage lines of the four commands.  The empty line and every line of
whitespace only are such lines. -/
theorem help_frame (U : CaseMapping) (fwr : Forwarder) (s : State) (str a0 a1 a2 : String)
    (hargs : parseArgs str 3 = .ok [a0, a1, a2])
    (h1 : stringsToLower U a0 ≠ "connect") (h2 : stringsToLower U a0 ≠ "disconnect")
    (h3 : stringsToLower U a0 ≠ "open") (h4 : stringsToLower U a0 ≠ "close") :
    (∃ s', executeCommand U fwr s str = .ok s' ∧ s'.trace = s.trace ++ helpBanner ∧
      s'.connections = s.connections ∧ s'.openTCPPorts = s.openTCPPorts ∧
      s'.openUDPPorts = s.openUDPPorts) ∧
    (∀ e ∈ helpBanner, e.isCall = false ∧ e.isInvoke = false ∧ e.isError = false) ∧
    (Event.info "connect [ID_HERE]" ∈ helpBanner ∧ Event.info "disconnect [ID_HERE]" ∈ helpBanner ∧
      Event.info "open [TCP_OR_UDP_HERE] [PORT_NUMBER_HERE]" ∈ helpBanner ∧
      Event.info "close [UDP_OR_UDP_HERE] [PORT_NUMBER_HERE]" ∈ helpBanner) ∧
    (∀ blank : String, (∀ c ∈ blank.data, unicodeIsSpace c = true) →
      executeCommand U fwr s blank = .ok { s with trace := s.trace ++ helpBanner }) := by
  refine ⟨⟨_, executeCommand_help U fwr s str a0 a1 a2 hargs h1 h2 h3 h4, rfl, rfl, rfl, rfl⟩,
    by decide, by decide, ?_⟩
  intro blank hb
  rw [← helpBanner_eq]
  exact executeCommand_help U fwr s blank "" "" "" (parseArgs_all_space blank hb)
    (by rw [stringsToLower_empty]; decide) (by rw [stringsToLower_empty]; decide)
    (by rw [stringsToLower_empty]; decide) (by rw [stringsToLower_empty]; decide)

/-- Witness for C14: the line `help me`. -/
theorem help_frame_witness :
    (∃ s', executeCommand asciiCaseMapping failingForwarder State.init "help me" = .ok s' ∧
      s'.trace = State.init.trace ++ helpBanner ∧
      s'.connections = State.init.connections ∧ s'.openTCPPorts = State.init.openTCPPorts ∧
      s'.openUDPPorts = State.init.openUDPPorts) ∧
    (∀ e ∈ helpBanner, e.isCall = false ∧ e.isInvoke = false ∧ e.isError = false) ∧
    (Event.info "connect [ID_HERE]" ∈ helpBanner ∧ Event.info "disconnect [ID_HERE]" ∈ helpBanner ∧
      Event.info "open [TCP_OR_UDP_HERE] [PORT_NUMBER_HERE]" ∈ helpBanner ∧
      Event.info "close [UDP_OR_UDP_HERE] [PORT_NUMBER_HERE]" ∈ helpBanner) ∧
    (∀ blank : String, (∀ c ∈ blank.data, unicodeIsSpace c = true) →
      executeCommand asciiCaseMapping failingForwarder State.init blank =
        .ok { State.init with trace := State.init.trace ++ helpBanner }) :=
  help_frame asciiCaseMapping failingForwarder State.init "help me" "help" "me" ""
    (by decide) (by decide) (by decide) (by decide) (by decide)

/-- C16: for a `close` command with protocol `udp` whose port `p` has an entry with capability
`c` in the UDP map, `executeCommand` invokes `c` once and nothing else, removes key `p` from
the TCP map whether or not it is there, and leaves the UDP map as it was, so that `p` is still
a key of the UDP map. -/
theorem close_udp_deletes_tcp (U : CaseMapping) (fwr : Forwarder) (s : State)
    (str a0 a1 a2 : String) (p : Nat) (c : Cap) (hargs : parseArgs str 3 = .ok [a0, a1, a2])
    (hcmd : stringsToLower U a0 = "close") (hproto : stringsToLower U a1 = "udp")
    (hp : ParseUint a2 16 = .ok p) (hlk : s.openUDPPorts.lookup p = some c) :
    ∃ s' evs, executeCommand U fwr s str = .ok s' ∧ s'.trace = s.trace ++ evs ∧
      evs.count (.invoke c) = 1 ∧ (∀ c', Event.invoke c' ∈ evs → c' = c) ∧
      (∀ e ∈ evs, e.isCall = false) ∧
      s'.openTCPPorts = s.openTCPPorts.erase p ∧ s'.openTCPPorts.lookup p = none ∧
      (∀ q, q ≠ p → s'.openTCPPorts.lookup q = s.openTCPPorts.lookup q) ∧
      s'.openUDPPorts = s.openUDPPorts ∧ s'.openUDPPorts.lookup p = some c ∧
      s'.connections = s.connections := by
  have hu : uint16 p = p := ParseUint_uint16 _ _ hp
  have hne : ¬ ("udp" = "tcp") := by decide
  have e := executeCommand_close_hit U fwr s str a0 a1 a2 p c hargs hcmd hp
    (by rw [hu, hproto]; simp [hne, hlk])
  rw [hu] at e
  refine ⟨_, [.info ("Closing " ++ stringsToLower U a1 ++ ":" ++ a2), .invoke c], e, rfl, ?_,
    ?_, ?_, rfl, ?_, ?_, rfl, hlk, rfl⟩
  · simp [List.count_cons]
  · intro c' h
    simpa using h
  · intro ev he
    simp only [List.mem_cons, List.mem_singleton, List.not_mem_nil, or_false] at he
    rcases he with rfl | rfl <;> rfl
  · simp
  · intro q hq
    simp [AList.lookup_erase_ne hq]

/-- Witness for C16: `close udp 53` in a state whose only entry is UDP port 53. -/
theorem close_udp_deletes_tcp_witness :
    ∃ s' evs, executeCommand asciiCaseMapping failingForwarder udp53State "close udp 53"
        = .ok s' ∧ s'.trace = udp53State.trace ++ evs ∧
      evs.count (.invoke ⟨7⟩) = 1 ∧ (∀ c', Event.invoke c' ∈ evs → c' = ⟨7⟩) ∧
      (∀ e ∈ evs, e.isCall = false) ∧
      s'.openTCPPorts = udp53State.openTCPPorts.erase 53 ∧ s'.openTCPPorts.lookup 53 = none ∧
      (∀ q, q ≠ 53 → s'.openTCPPorts.lookup q = udp53State.openTCPPorts.lookup q) ∧
      s'.openUDPPorts = udp53State.openUDPPorts ∧ s'.openUDPPorts.lookup 53 = some ⟨7⟩ ∧
      s'.connections = udp53State.connections :=
  close_udp_deletes_tcp asciiCaseMapping failingForwarder udp53State "close udp 53"
    "close" "udp" "53" 53 ⟨7⟩ (by decide) (by decide) (by decide) (by decide) (by decide)

/-! ## Every command reports -/

/-- The dispatcher returns for every line. -/
theorem executeCommand_ok (U : CaseMapping) (fwr : Forwarder) (s : State) (str : String) :
    ∃ s', executeCommand U fwr s str = .ok s' := by
  obtain ⟨a0, a1, a2, hargs⟩ := parseArgs_three str
  by_cases h1 : stringsToLower U a0 = "connect"
  · cases hfw : fwr.Connect (s.trace ++ [.info ("Connecting to " ++ a1)]) a1 with
    | error err => exact ⟨_, executeCommand_connect_err U fwr s str a0 a1 a2 err hargs h1 hfw⟩
    | ok v => exact ⟨_, executeCommand_connect_ok U fwr s str a0 a1 a2 v.1 v.2 hargs h1 hfw⟩
  by_cases h2 : stringsToLower U a0 = "disconnect"
  · cases hlk : s.connections.lookup a1 with
    | none => exact ⟨_, executeCommand_disconnect_miss U fwr s str a0 a1 a2 hargs h2 hlk⟩
    | some c => exact ⟨_, executeCommand_disconnect_hit U fwr s str a0 a1 a2 c hargs h2 hlk⟩
  by_cases h3 : stringsToLower U a0 = "open"
  · cases hp : ParseUint a2 16 with
    | error err => exact ⟨_, executeCommand_open_parse_err U fwr s str a0 a1 a2 err hargs h3 hp⟩
    | ok p =>
      cases hfw : fwr.OpenPort
          (s.trace ++ [.info ("Opening " ++ stringsToLower U a1 ++ ":" ++ a2)])
          (stringsToLower U a1) (uint16 p) with
      | error err => exact ⟨_, executeCommand_open_err U fwr s str a0 a1 a2 p err hargs h3 hp hfw⟩
      | ok c => exact ⟨_, executeCommand_open_ok U fwr s str a0 a1 a2 p c hargs h3 hp hfw⟩
  by_cases h4 : stringsToLower U a0 = "close"
  · cases hp : ParseUint a2 16 with
    | error err => exact ⟨_, executeCommand_close_parse_err U fwr s str a0 a1 a2 err hargs h4 hp⟩
    | ok p =>
      cases hlk : (if stringsToLower U a1 = "tcp" then s.openTCPPorts.lookup (uint16 p)
          else if stringsToLower U a1 = "udp" then s.openUDPPorts.lookup (uint16 p)
          else none) with
      | none => exact ⟨_, executeCommand_close_miss U fwr s str a0 a1 a2 p hargs h4 hp hlk⟩
      | some c => exact ⟨_, executeCommand_close_hit U fwr s str a0 a1 a2 p c hargs h4 hp hlk⟩
  · exact ⟨_, executeCommand_help U fwr s str a0 a1 a2 hargs h1 h2 h3 h4⟩

theorem not_failure_connect (U : CaseMapping) (fwr : Forwarder) (s : State) (a0 a1 a2 : String)
    (v : String × Cap) (h1 : stringsToLower U a0 = "connect")
    (hfw : fwr.Connect (s.trace ++ [.info ("Connecting to " ++ a1)]) a1 = .ok v) :
    ¬ FailurePath U fwr s a0 a1 a2 := by
  have d1 : ¬ ("connect" = "disconnect") := by decide
  have d2 : ¬ ("connect" = "open") := by decide
  have d3 : ¬ ("connect" = "close") := by decide
  rintro (⟨_, err, h⟩ | ⟨h, _⟩ | ⟨h, _⟩ | ⟨h, _⟩ | ⟨h, _⟩ | ⟨h, _⟩)
  · rw [hfw] at h; cases h
  · exact d1 (h1.symm.trans h)
  · exact d2 (h1.symm.trans h)
  · exact d2 (h1.symm.trans h)
  · exact d3 (h1.symm.trans h)
  · exact d3 (h1.symm.trans h)

theorem not_failure_disconnect (U : CaseMapping) (fwr : Forwarder) (s : State)
    (a0 a1 a2 : String) (c : Cap) (h2 : stringsToLower U a0 = "disconnect")
    (hlk : s.connections.lookup a1 = some c) : ¬ FailurePath U fwr s a0 a1 a2 := by
  have d1 : ¬ ("disconnect" = "connect") := by decide
  have d2 : ¬ ("disconnect" = "open") := by decide
  have d3 : ¬ ("disconnect" = "close") := by decide
  rintro (⟨h, _⟩ | ⟨_, h⟩ | ⟨h, _⟩ | ⟨h, _⟩ | ⟨h, _⟩ | ⟨h, _⟩)
  · exact d1 (h2.symm.trans h)
  · rw [hlk] at h; cases h
  · exact d2 (h2.symm.trans h)
  · exact d2 (h2.symm.trans h)
  · exact d3 (h2.symm.trans h)
  · exact d3 (h2.symm.trans h)

theorem not_failure_open (U : CaseMapping) (fwr : Forwarder) (s : State) (a0 a1 a2 : String)
    (p : Nat) (c : Cap) (h3 : stringsToLower U a0 = "open") (hp : ParseUint a2 16 = .ok p)
    (hfw : fwr.OpenPort (s.trace ++ [.info ("Opening " ++ stringsToLower U a1 ++ ":" ++ a2)])
      (stringsToLower U a1) (uint16 p) = .ok c) : ¬ FailurePath U fwr s a0 a1 a2 := by
  have d1 : ¬ ("open" = "connect") := by decide
  have d2 : ¬ ("open" = "disconnect") := by decide
  have d3 : ¬ ("open" = "close") := by decide
  rintro (⟨h, _⟩ | ⟨h, _⟩ | ⟨_, err, h⟩ | ⟨_, q, err, hq, h⟩ | ⟨h, _⟩ | ⟨h, _⟩)
  · exact d1 (h3.symm.trans h)
  · exact d2 (h3.symm.trans h)
  · rw [hp] at h; cases h
  · rw [hp] at hq; cases hq; rw [hfw] at h; cases h
  · exact d3 (h3.symm.trans h)
  · exact d3 (h3.symm.trans h)

theorem not_failure_close (U : CaseMapping) (fwr : Forwarder) (s : State) (a0 a1 a2 : String)
    (p : Nat) (c : Cap) (h4 : stringsToLower U a0 = "close") (hp : ParseUint a2 16 = .ok p)
    (hlk : (if stringsToLower U a1 = "tcp" then s.openTCPPorts.lookup (uint16 p)
      else if stringsToLower U a1 = "udp" then s.openUDPPorts.lookup (uint16 p)
      else none) = some c) : ¬ FailurePath U fwr s a0 a1 a2 := by
  have d1 : ¬ ("close" = "connect") := by decide
  have d2 : ¬ ("close" = "disconnect") := by decide
  have d3 : ¬ ("close" = "open") := by decide
  rintro (⟨h, _⟩ | ⟨h, _⟩ | ⟨h, _⟩ | ⟨h, _⟩ | ⟨_, err, h⟩ | ⟨_, q, hq, h⟩)
  · exact d1 (h4.symm.trans h)
  · exact d2 (h4.symm.trans h)
  · exact d3 (h4.symm.trans h)
  · exact d3 (h4.symm.trans h)
  · rw [hp] at h; cases h
  · rw [hp] at hq; cases hq; rw [hlk] at h; cases h

theorem not_failure_help (U : CaseMapping) (fwr : Forwarder) (s : State) (a0 a1 a2 : String)
    (h1 : stringsToLower U a0 ≠ "connect") (h2 : stringsToLower U a0 ≠ "disconnect")
    (h3 : stringsToLower U a0 ≠ "open") (h4 : stringsToLower U a0 ≠ "close") :
    ¬ FailurePath U fwr s a0 a1 a2 := by
  rintro (⟨h, _⟩ | ⟨h, _⟩ | ⟨h, _⟩ | ⟨h, _⟩ | ⟨h, _⟩ | ⟨h, _⟩)
  · exact h1 h
  · exact h2 h
  · exact h3 h
  · exact h3 h
  · exact h4 h
  · exact h4 h

/-- C17: for every line, state and Forwarder, `executeCommand` returns and has emitted at least
one log line; on every failure path (the port does not parse, the Forwarder returns an error,
the key of `disconnect` or `close` has no entry) at least one of the emitted lines is on the
error channel. -/
theorem every_command_logs (U : CaseMapping) (fwr : Forwarder) (s : State) (str : String) :
    ∃ a0 a1 a2 s' evs, parseArgs str 3 = .ok [a0, a1, a2] ∧
      executeCommand U fwr s str = .ok s' ∧ s'.trace = s.trace ++ evs ∧
      (∃ e ∈ evs, e.isLog = true) ∧
      (FailurePath U fwr s a0 a1 a2 → ∃ e ∈ evs, e.isError = true) := by
  obtain ⟨a0, a1, a2, hargs⟩ := parseArgs_three str
  refine ⟨a0, a1, a2, ?_⟩
  by_cases h1 : stringsToLower U a0 = "connect"
  · cases hfw : fwr.Connect (s.trace ++ [.info ("Connecting to " ++ a1)]) a1 with
    | error err =>
      exact ⟨_, _, hargs, executeCommand_connect_err U fwr s str a0 a1 a2 err hargs h1 hfw, rfl,
        ⟨.info ("Connecting to " ++ a1), by simp, rfl⟩, fun _ => ⟨.errorErr err, by simp, rfl⟩⟩
    | ok v =>
      exact ⟨_, _, hargs, executeCommand_connect_ok U fwr s str a0 a1 a2 v.1 v.2 hargs h1 hfw,
        rfl, ⟨.info ("Connecting to " ++ a1), by simp, rfl⟩,
        fun hf => absurd hf (not_failure_connect U fwr s a0 a1 a2 v h1 hfw)⟩
  by_cases h2 : stringsToLower U a0 = "disconnect"
  · cases hlk : s.connections.lookup a1 with
    | none =>
      exact ⟨_, _, hargs, executeCommand_disconnect_miss U fwr s str a0 a1 a2 hargs h2 hlk, rfl,
        ⟨.error "You are not connected to specified id", by simp, rfl⟩,
        fun _ => ⟨.error "You are not connected to specified id", by simp, rfl⟩⟩
    | some c =>
      exact ⟨_, _, hargs, executeCommand_disconnect_hit U fwr s str a0 a1 a2 c hargs h2 hlk, rfl,
        ⟨.info ("Disconnecting from " ++ a1), by simp, rfl⟩,
        fun hf => absurd hf (not_failure_disconnect U fwr s a0 a1 a2 c h2 hlk)⟩
  by_cases h3 : stringsToLower U a0 = "open"
  · cases hp : ParseUint a2 16 with
    | error err =>
      exact ⟨_, _, hargs, executeCommand_open_parse_err U fwr s str a0 a1 a2 err hargs h3 hp,
        rfl, ⟨.errorErr err, by simp, rfl⟩, fun _ => ⟨.errorErr err, by simp, rfl⟩⟩
    | ok p =>
      cases hfw : fwr.OpenPort
          (s.trace ++ [.info ("Opening " ++ stringsToLower U a1 ++ ":" ++ a2)])
          (stringsToLower U a1) (uint16 p) with
      | error err =>
        exact ⟨_, _, hargs, executeCommand_open_err U fwr s str a0 a1 a2 p err hargs h3 hp hfw,
          rfl, ⟨.errorErr err, by simp, rfl⟩, fun _ => ⟨.errorErr err, by simp, rfl⟩⟩
      | ok c =>
        exact ⟨_, _, hargs, executeCommand_open_ok U fwr s str a0 a1 a2 p c hargs h3 hp hfw,
          rfl, ⟨.info ("Opening " ++ stringsToLower U a1 ++ ":" ++ a2), by simp, rfl⟩,
          fun hf => absurd hf (not_failure_open U fwr s a0 a1 a2 p c h3 hp hfw)⟩
  by_cases h4 : stringsToLower U a0 = "close"
  · cases hp : ParseUint a2 16 with
    | error err =>
      exact ⟨_, _, hargs, executeCommand_close_parse_err U fwr s str a0 a1 a2 err hargs h4 hp,
        rfl, ⟨.errorErr err, by simp, rfl⟩, fun _ => ⟨.errorErr err, by simp, rfl⟩⟩
    | ok p =>
      cases hlk : (if stringsToLower U a1 = "tcp" then s.openTCPPorts.lookup (uint16 p)
          else if stringsToLower U a1 = "udp" then s.openUDPPorts.lookup (uint16 p)
          else none) with
      | none =>
        exact ⟨_, _, hargs, executeCommand_close_miss U fwr s str a0 a1 a2 p hargs h4 hp hlk,
          rfl, ⟨.error "Specified port is not opened", by simp, rfl⟩,
          fun _ => ⟨.error "Specified port is not opened", by simp, rfl⟩⟩
      | some c =>
        exact ⟨_, _, hargs, executeCommand_close_hit U fwr s str a0 a1 a2 p c hargs h4 hp hlk,
          rfl, ⟨.info ("Closing " ++ stringsToLower U a1 ++ ":" ++ a2), by simp, rfl⟩,
          fun hf => absurd hf (not_failure_close U fwr s a0 a1 a2 p c h4 hp hlk)⟩
  · exact ⟨_, _, hargs, executeCommand_help U fwr s str a0 a1 a2 hargs h1 h2 h3 h4, rfl,
      ⟨.info "", by simp, rfl⟩,
      fun hf => absurd hf (not_failure_help U fwr s a0 a1 a2 h1 h2 h3 h4)⟩

/-! ## The command word -/

theorem wordStartsAux_skip_space (pre l : List Char) (hpre : ∀ c ∈ pre, unicodeIsSpace c = true) :
    wordStartsAux true (pre ++ l) = wordStartsAux true l := by
  induction pre with
  | nil => rfl
  | cons c cs ih =>
    rw [List.cons_append, wordStartsAux_space true c _ (hpre c (by simp))]
    exact ih (fun x hx => hpre x (by simp [hx]))

theorem leadingWord_word_rest (w rest : List Char) (hw : ∀ c ∈ w, unicodeIsSpace c = false)
    (hrest : ∀ c ∈ rest.head?, unicodeIsSpace c = true) : leadingWord (w ++ rest) = w := by
  cases rest with
  | nil => rw [List.append_nil]; exact leadingWord_of_no_space w hw
  | cons c cs => exact leadingWord_append_space w c cs hw (hrest c (by simp))

/-- The tokens of a line that starts with whitespace `pre`, goes on with a word `w` and ends in
`rest`, which is empty or starts with whitespace: the first token is `w`, the other two are
determined by `rest`. -/
theorem parseArgs_first_word (pre w rest : List Char)
    (hpre : ∀ c ∈ pre, unicodeIsSpace c = true) (hne : w ≠ [])
    (hw : ∀ c ∈ w, unicodeIsSpace c = false)
    (hrest : ∀ c ∈ rest.head?, unicodeIsSpace c = true) :
    parseArgs (String.mk (pre ++ w ++ rest)) 3 = .ok
      [String.mk w, String.mk (leadingWord ((wordStartsAux false rest).headD [])),
        String.mk ((wordStartsAux false rest).tail.headD [])] := by
  cases w with
  | nil => exact absurd rfl hne
  | cons x xs =>
    have hx : unicodeIsSpace x = false := hw x (by simp)
    have hxs : ∀ y ∈ xs, unicodeIsSpace y = false := fun y hy => hw y (by simp [hy])
    have h1 : wordStartsAux true (pre ++ (x :: xs) ++ rest) =
        (x :: xs ++ rest) :: wordStartsAux false rest := by
      rw [List.append_assoc, wordStartsAux_skip_space pre _ hpre]
      exact wordStartsAux_true_word x xs rest hx hxs
    have h2 := leadingWord_word_rest (x :: xs) rest hw hrest
    rw [parseArgs_three_eq, ← fillTokens_wordSuffixes, wordSuffixes]
    simp only []
    rw [h1]
    cases hT : wordStartsAux false rest with
    | nil => rw [fillTokens_three_one, h2]; rfl
    | cons t ts =>
      cases ts with
      | nil => rw [fillTokens_three_two, h2]; rfl
      | cons t' ts' => rw [fillTokens_three, h2]; rfl

/-- The result of `executeCommand` depends on the first token only through its lower-cased
form. -/
theorem executeCommand_lower_first (U : CaseMapping) (fwr : Forwarder) (s : State)
    (l1 l2 a0 b0 a1 a2 : String) (h1 : parseArgs l1 3 = .ok [a0, a1, a2])
    (h2 : parseArgs l2 3 = .ok [b0, a1, a2])
    (hl : stringsToLower U a0 = stringsToLower U b0) :
    executeCommand U fwr s l1 = executeCommand U fwr s l2 := by
  simp only [executeCommand, h1, h2, bind, Except.bind, strAt_zero, strSliceFrom_one, hl]

/-- C15: the command word is case-insensitive.  For two lines that differ only in the letter
case of the first token (the same leading whitespace, first tokens with the same lower-cased
form, the same rest of the line) `executeCommand` returns the same state from the same state:
the same maps and the same trace, so the same Forwarder calls and the same invocations. -/
theorem command_word_case_insensitive (U : CaseMapping) (fwr : Forwarder) (s : State)
    (pre w w' rest : List Char) (hpre : ∀ c ∈ pre, unicodeIsSpace c = true)
    (hne : w ≠ []) (hw : ∀ c ∈ w, unicodeIsSpace c = false)
    (hw' : ∀ c ∈ w', unicodeIsSpace c = false)
    (hrest : ∀ c ∈ rest.head?, unicodeIsSpace c = true)
    (hcase : stringsToLower U (String.mk w) = stringsToLower U (String.mk w')) :
    ∃ s', executeCommand U fwr s (String.mk (pre ++ w ++ rest)) = .ok s' ∧
      executeCommand U fwr s (String.mk (pre ++ w' ++ rest)) = .ok s' := by
  have hne' : w' ≠ [] := by
    intro h
    subst h
    have := congrArg (fun t : String => t.data.length) hcase
    simp [stringsToLower] at this
    exact hne this
  have h1 := parseArgs_first_word pre w rest hpre hne hw hrest
  have h2 := parseArgs_first_word pre w' rest hpre hne' hw' hrest
  have heq := executeCommand_lower_first U fwr s _ _ _ _ _ _ h1 h2 hcase
  obtain ⟨s', hres⟩ := executeCommand_ok U fwr s (String.mk (pre ++ w' ++ rest))
  exact ⟨s', by rw [heq, hres], hres⟩

/-- Witness for C15: the lines `CONNECT x` and `connect x`. -/
theorem command_word_case_insensitive_witness :
    ∃ s', executeCommand asciiCaseMapping okForwarder State.init
        (String.mk ([] ++ "CONNECT".data ++ " x".data)) = .ok s' ∧
      executeCommand asciiCaseMapping okForwarder State.init
        (String.mk ([] ++ "connect".data ++ " x".data)) = .ok s' :=
  command_word_case_insensitive asciiCaseMapping okForwarder State.init [] "CONNECT".data
    "connect".data " x".data (by decide) (by decide) (by decide) (by decide) (by decide)
    (by decide)

/-! ## Replacing an entry -/

theorem keys_count_insert {K : Type} [DecidableEq K] (m : AList (fun _ : K => Cap)) (k : K)
    (c : Cap) : (m.insert k c).keys.count k = 1 :=
  List.count_eq_one_of_mem (m.insert k c).keys_nodup
    (AList.mem_keys.1 ((AList.mem_insert m).2 (Or.inl rfl)))

/-- C18: when key `k` (a peer id, or a port of protocol `tcp` or `udp`) already maps to
`cOld`, a successful `connect` or `open` for `k` that returns `cNew` leaves `k` mapped to
`cNew` in the same map, with exactly one entry for `k`, and the command invokes no capability,
`cOld` included. -/
theorem reopen_replaces (U : CaseMapping) (fwr : Forwarder) (s : State)
    (str a0 a1 a2 : String) (k : Target) (cOld cNew : Cap)
    (hargs : parseArgs str 3 = .ok [a0, a1, a2]) (hold : s.holds k = some cOld)
    (hcall :
      (k = .peer a1 ∧ stringsToLower U a0 = "connect" ∧
        ∃ addr, fwr.Connect (s.trace ++ [.info ("Connecting to " ++ a1)]) a1
          = .ok (addr, cNew)) ∨
      (stringsToLower U a0 = "open" ∧ ∃ p, ParseUint a2 16 = .ok p ∧
        ((k = .tcp p ∧ stringsToLower U a1 = "tcp") ∨
          (k = .udp p ∧ stringsToLower U a1 = "udp")) ∧
        fwr.OpenPort (s.trace ++ [.info ("Opening " ++ stringsToLower U a1 ++ ":" ++ a2)])
          (stringsToLower U a1) p = .ok cNew)) :
    ∃ s' evs, executeCommand U fwr s str = .ok s' ∧ s'.trace = s.trace ++ evs ∧
      s'.holds k = some cNew ∧ s'.entryCount k = 1 ∧ (∀ e ∈ evs, e.isInvoke = false) := by
  have hne : ¬ ("udp" = "tcp") := by decide
  rcases hcall with ⟨hk, hcmd, addr, hfw⟩ | ⟨hcmd, p, hp, hk, hfw⟩
  · subst hk
    refine ⟨_, _, executeCommand_connect_ok U fwr s str a0 a1 a2 addr cNew hargs hcmd hfw, rfl,
      ?_, ?_, ?_⟩
    · simp [State.holds]
    · exact keys_count_insert _ _ _
    · simp [Event.isInvoke]
  · have hu : uint16 p = p := ParseUint_uint16 _ _ hp
    have e := executeCommand_open_ok U fwr s str a0 a1 a2 p cNew hargs hcmd hp
      (by rw [hu]; exact hfw)
    rw [hu] at e
    rcases hk with ⟨hk, ht⟩ | ⟨hk, hud⟩
    · subst hk
      refine ⟨_, _, e, rfl, ?_, ?_, ?_⟩
      · simp [State.holds, ht]
      · simp only [State.entryCount, ht, if_true]
        exact keys_count_insert _ _ _
      · simp [Event.isInvoke]
    · subst hk
      refine ⟨_, _, e, rfl, ?_, ?_, ?_⟩
      · simp [State.holds, hud, hne]
      · simp only [State.entryCount, hud, hne, if_true, if_false]
        exact keys_count_insert _ _ _
      · simp [Event.isInvoke]

/-- Witness for C18: connecting to `peerX` again while connected to `peerX`. -/
theorem reopen_replaces_witness :
    ∃ s' evs, executeCommand asciiCaseMapping okForwarder peerXState "connect peerX" = .ok s' ∧
      s'.trace = peerXState.trace ++ evs ∧
      s'.holds (.peer "peerX") = some ⟨1⟩ ∧ s'.entryCount (.peer "peerX") = 1 ∧
      (∀ e ∈ evs, e.isInvoke = false) :=
  reopen_replaces asciiCaseMapping okForwarder peerXState "connect peerX" "connect" "peerX" ""
    (.peer "peerX") ⟨7⟩ ⟨1⟩ (by decide) (by decide)
    (Or.inl ⟨rfl, by decide, "127.0.0.2", by decide⟩)

/-! ## Asking for one more token -/

/-- The runs that start at or after a given run start are the runs of the suffix that starts
there. -/
theorem wordStartsAux_suffix (l : List Char) :
    ∀ (b : Bool) (j : Nat) (sfx : List Char), (wordStartsAux b l).get? j = some sfx →
      wordStartsAux true sfx = (wordStartsAux b l).drop j := by
  induction l with
  | nil => intro b j sfx h; simp [wordStartsAux] at h
  | cons c cs ih =>
    intro b j sfx h
    by_cases hc : unicodeIsSpace c = true
    · rw [wordStartsAux_space b c cs hc] at h ⊢
      exact ih true j sfx h
    · have hc' : unicodeIsSpace c = false := by simpa using hc
      cases b with
      | false =>
        have e : wordStartsAux false (c :: cs) = wordStartsAux false cs := by
          simp [wordStartsAux, hc']
        rw [e] at h ⊢
        exact ih false j sfx h
      | true =>
        have e : wordStartsAux true (c :: cs) = (c :: cs) :: wordStartsAux false cs := by
          simp [wordStartsAux, hc']
        rw [e] at h ⊢
        cases j with
        | zero =>
          simp only [List.get?_cons_zero, Option.some.injEq] at h
          subst h
          rw [e]; rfl
        | succ j =>
          simp only [List.get?_cons_succ] at h
          rw [List.drop_succ_cons]
          exact ih false j sfx h

theorem wordSuffixes_getD (line : List Char) (j : Nat) :
    wordSuffixes ((wordSuffixes line).getD j []) = (wordSuffixes line).drop j := by
  by_cases h : j < (wordSuffixes line).length
  · have hg : (wordSuffixes line).get? j = some ((wordSuffixes line).getD j []) := by
      simp [List.getD_eq_getElem?_getD, List.get?_eq_getElem?, List.getElem?_eq_getElem h]
    exact wordStartsAux_suffix line true j _ hg
  · have h' : (wordSuffixes line).length ≤ j := Nat.le_of_not_lt h
    have hg : (wordSuffixes line).getD j [] = [] := by
      simp [List.getD_eq_getElem?_getD, List.getElem?_eq_none h']
    rw [List.drop_eq_nil_of_le h', hg]
    rfl

theorem fillTokens_succ (n : Nat) :
    ∀ S : List (List Char),
      fillTokens (n + 2) S = (fillTokens (n + 1) S).take n ++ fillTokens 2 (S.drop n) := by
  induction n with
  | zero => intro S; simp
  | succ m ih =>
    intro S
    rw [fillTokens, ih S.tail]
    have e : fillTokens (m + 1 + 1) S =
        String.mk (leadingWord (S.headD [])) :: fillTokens (m + 1) S.tail := by
      rw [fillTokens]
    rw [e, List.take_succ_cons, List.cons_append]
    congr 2
    cases S <;> simp

theorem expectedTokens_getLast (line : List Char) (n : Nat) :
    (expectedTokens line (n + 1)).getLast? =
      some (String.mk ((wordSuffixes line).getD n [])) := by
  simp [expectedTokens, List.range_succ, expectedToken]

/-- C19: tokenizing is compositional in the token count.  For every line and every `n ≥ 1`,
`parseArgs(line, n+1)` is the first `n-1` tokens of `parseArgs(line, n)` followed by the two
tokens of `parseArgs(t, 2)`, where `t` is the last token of `parseArgs(line, n)`. -/
theorem parseArgs_compositional (line : String) (n : Nat) (hn : 1 ≤ n) :
    ∃ toks t pair, parseArgs line (n : Int) = .ok toks ∧ toks.getLast? = some t ∧
      parseArgs t 2 = .ok pair ∧ pair.length = 2 ∧
      parseArgs line ((n + 1 : Nat) : Int) = .ok (toks.take (n - 1) ++ pair) := by
  obtain ⟨m, rfl⟩ : ∃ m, n = m + 1 := ⟨n - 1, by omega⟩
  have h2 : parseArgs (String.mk ((wordSuffixes line.data).getD m [])) ((2 : Nat) : Int) =
      .ok (expectedTokens ((wordSuffixes line.data).getD m []) 2) :=
    parseArgs_eq _ 2 (by decide)
  refine ⟨_, _, _, parseArgs_eq line (m + 1) hn, expectedTokens_getLast line.data m, h2,
    expectedTokens_length _ 2, ?_⟩
  rw [parseArgs_eq line (m + 1 + 1) (by omega)]
  congr 1
  rw [← fillTokens_wordSuffixes, ← fillTokens_wordSuffixes, ← fillTokens_wordSuffixes,
    wordSuffixes_getD, Nat.add_sub_cancel]
  exact fillTokens_succ m _

/-- Witness for C19: the line `"  a   b   c  d"` with two and with three tokens. -/
theorem parseArgs_compositional_witness :
    ∃ toks t pair, parseArgs "  a   b   c  d" ((2 : Nat) : Int) = .ok toks ∧
      toks.getLast? = some t ∧ parseArgs t 2 = .ok pair ∧ pair.length = 2 ∧
      parseArgs "  a   b   c  d" ((2 + 1 : Nat) : Int) = .ok (toks.take (2 - 1) ++ pair) :=
  parseArgs_compositional "  a   b   c  d" 2 (by decide)

/-- The pieces of the witness for C19. -/
theorem parseArgs_compositional_example :
    parseArgs "  a   b   c  d" 2 = .ok ["a", "b   c  d"] ∧
    parseArgs "b   c  d" 2 = .ok ["b", "c  d"] ∧
    parseArgs "  a   b   c  d" 3 = .ok ["a", "b", "c  d"] := by decide

/-! ## Text after the port -/

/-- A string with a character that is no decimal digit is not accepted by `ParseUint`. -/
theorem ParseUint_non_digit (str : String) (bitSize : Nat) (c : Char) (hc : c ∈ str.data)
    (hnd : ¬ ('0'.toNat ≤ c.toNat ∧ c.toNat ≤ '9'.toNat)) :
    ∃ err, ParseUint str bitSize = .error err := by
  cases h : ParseUint str bitSize with
  | error err => exact ⟨err, rfl⟩
  | ok v => exact absurd ((ParseUint_ok_digits str bitSize v h).2 c hc) hnd

/-- C20: anything after the port number makes `open` and `close` fail with a port parse error.
For every protocol word, every non-empty digit string `d` and every suffix that begins with a
whitespace character, the lines `open <proto> d` + suffix and `close <proto> d` + suffix emit a
message on the error channel, make no Forwarder call, invoke no capability and leave the three
maps as they were. -/
theorem trailing_text_rejected (U : CaseMapping) (fwr : Forwarder) (s : State)
    (proto d sfx : String) (hproto : proto ≠ "") (hpn : NoSpace proto) (hd : d ≠ "")
    (hdig : ∀ c ∈ d.data, '0'.toNat ≤ c.toNat ∧ c.toNat ≤ '9'.toNat)
    (hsfx : ∃ c r, sfx.data = c :: r ∧ unicodeIsSpace c = true) :
    (∃ s' evs, executeCommand U fwr s ("open" ++ " " ++ proto ++ " " ++ d ++ sfx) = .ok s' ∧
        s'.trace = s.trace ++ evs ∧ (∃ e ∈ evs, e.isError = true) ∧
        (∀ e ∈ evs, e.isCall = false ∧ e.isInvoke = false) ∧
        s'.connections = s.connections ∧ s'.openTCPPorts = s.openTCPPorts ∧
        s'.openUDPPorts = s.openUDPPorts) ∧
    (∃ s' evs, executeCommand U fwr s ("close" ++ " " ++ proto ++ " " ++ d ++ sfx) = .ok s' ∧
        s'.trace = s.trace ++ evs ∧ (∃ e ∈ evs, e.isError = true) ∧
        (∀ e ∈ evs, e.isCall = false ∧ e.isInvoke = false) ∧
        s'.connections = s.connections ∧ s'.openTCPPorts = s.openTCPPorts ∧
        s'.openUDPPorts = s.openUDPPorts) := by
  obtain ⟨c, r, hcr, hc⟩ := hsfx
  have hhead : ∃ z t, (d ++ sfx).data = z :: t ∧ unicodeIsSpace z = false := by
    obtain ⟨dd⟩ := d
    cases dd with
    | nil => exact absurd rfl hd
    | cons z t =>
      exact ⟨z, t ++ sfx.data, by simp [String.data_append], digit_not_space z (hdig z (by simp))⟩
  have hmem : c ∈ (d ++ sfx).data := by simp [String.data_append, hcr]
  have hnd : ¬ ('0'.toNat ≤ c.toNat ∧ c.toNat ≤ '9'.toNat) := by
    intro h
    have := digit_not_space c h
    rw [hc] at this
    cases this
  obtain ⟨err, herr⟩ := ParseUint_non_digit (d ++ sfx) 16 c hmem hnd
  have hline : ∀ cmd : String,
      cmd ++ " " ++ proto ++ " " ++ d ++ sfx = cmd ++ " " ++ proto ++ " " ++ (d ++ sfx) :=
    fun _ => String.append_assoc _ _ _
  constructor
  · have hargs := parseArgs_three_words "open" proto (d ++ sfx) (by decide) (by decide) hproto hpn
      hhead
    rw [← hline] at hargs
    exact ⟨_, [.errorErr err],
      executeCommand_open_parse_err U fwr s _ _ _ _ err hargs (stringsToLower_open U) herr, rfl,
      ⟨_, List.mem_singleton_self _, rfl⟩, by simp [Event.isInvoke, Event.isCall], rfl, rfl, rfl⟩
  · have hargs := parseArgs_three_words "close" proto (d ++ sfx) (by decide) (by decide) hproto
      hpn hhead
    rw [← hline] at hargs
    exact ⟨_, [.errorErr err],
      executeCommand_close_parse_err U fwr s _ _ _ _ err hargs (stringsToLower_close U) herr, rfl,
      ⟨_, List.mem_singleton_self _, rfl⟩, by simp [Event.isInvoke, Event.isCall], rfl, rfl, rfl⟩

/-- Witness for C20: `open tcp 80` and `close tcp 80` followed by a single blank. -/
theorem trailing_text_rejected_witness :
    (∃ s' evs, executeCommand asciiCaseMapping okForwarder State.init
          ("open" ++ " " ++ "tcp" ++ " " ++ "80" ++ " ") = .ok s' ∧
        s'.trace = State.init.trace ++ evs ∧ (∃ e ∈ evs, e.isError = true) ∧
        (∀ e ∈ evs, e.isCall = false ∧ e.isInvoke = false) ∧
        s'.connections = State.init.connections ∧
        s'.openTCPPorts = State.init.openTCPPorts ∧
        s'.openUDPPorts = State.init.openUDPPorts) ∧
    (∃ s' evs, executeCommand asciiCaseMapping okForwarder State.init
          ("close" ++ " " ++ "tcp" ++ " " ++ "80" ++ " ") = .ok s' ∧
        s'.trace = State.init.trace ++ evs ∧ (∃ e ∈ evs, e.isError = true) ∧
        (∀ e ∈ evs, e.isCall = false ∧ e.isInvoke = false) ∧
        s'.connections = State.init.connections ∧
        s'.openTCPPorts = State.init.openTCPPorts ∧
        s'.openUDPPorts = State.init.openUDPPorts) :=
  trailing_text_rejected asciiCaseMapping okForwarder State.init "tcp" "80" " " (by decide)
    (by decide) (by decide) (by decide) ⟨' ', [], rfl, by decide⟩

end P2PForwarder
